import Mathlib

/-!
# Exam Seating Management System: browser client

A shallow embedding of the session-lifecycle code of `js/main.js` and of the
section router of `js/student-dashboard.js`, with the properties proved about
them.

The model describes one document, from the moment it is loaded until a
navigation requested by the code (an assignment to `window.location.href`)
replaces it.  Time is a natural number of milliseconds; every callback runs to
completion in zero time (single-threaded event loop), a blocking `confirm`
dialog is answered by an input of the event that opens it.
-/

namespace ExamSeating

/-! ## JavaScript values -/

/-- JavaScript values as far as the session code inspects them: the code only
stores them and tests them for truthiness. -/
inductive JsValue where
  | undefined
  | null
  | bool (b : Bool)
  | number (n : Int)
  | string (s : String)
  | object (ref : Nat)
deriving DecidableEq, Repr

/-- The truthiness test of `if (v)`. -/
def JsValue.truthy : JsValue → Bool
  | .undefined => false
  | .null => false
  | .bool b => b
  | .number n => n != 0
  | .string s => s != ""
  | .object _ => true

/-! ## Timers, toasts, requests -/

/-- What a pending `setTimeout` callback of `main.js` does when it fires. -/
inductive TimerKind where
  /-- The callback scheduled by `resetActivity` (main.js 142-152). -/
  | warning
  /-- The "final timeout" callback scheduled by the warning callback (main.js 148-150). -/
  | expiry
  /-- The redirect callback scheduled by `handleSessionExpiry` (main.js 190-199). -/
  | redirect
  /-- The callback `toast.classList.add('show')` of `showNotification` (main.js 334-336). -/
  | toastShow (toast : Nat)
  /-- The callback `toast.remove()` of `showNotification` (main.js 339-341). -/
  | toastRemove (toast : Nat)
deriving DecidableEq, Repr

/-- A pending timer: the handle returned by `setTimeout`, the time at which it
is due, and its callback. -/
structure Timer where
  id : Nat
  due : Nat
  kind : TimerKind
deriving DecidableEq, Repr

/-- A toast attached to the document: the `.notification-toast` element created by
a call of `showNotification`. -/
structure Toast where
  id : Nat
  message : String
  type : String
  shown : Bool
  /-- The number of elements of class `notification-toast` inside the toast: the
  message is inserted as HTML (main.js 262-270), so its markup can create such
  elements; a message without markup creates none. -/
  nested : Nat := 0
deriving DecidableEq, Repr

/-- A request handed to `fetch` by the session code. -/
structure Request where
  url : String
  method : String
  credentials : String
deriving DecidableEq, Repr

/-- How a `fetch(...).then(r => r.json()).then(handler).catch(...)` chain ends
up: the request rejects, the body is not a JSON object the handler can read
(both end in the `catch`), or the handler receives the parsed data. -/
inductive FetchResult (α : Type) where
  | rejected
  | invalidBody
  | json (data : α)
deriving DecidableEq, Repr

/-- The fields of the `/auth/status` response read by `checkAuthStatus`. -/
structure StatusData where
  authenticated : JsValue
  user : JsValue
deriving DecidableEq, Repr

/-- The field of the `/auth/refresh` response read by `refreshAuthStatus`. -/
structure RefreshData where
  success : JsValue
deriving DecidableEq, Repr

/-! ## State of the page -/

/-- The state of a loaded page as seen by `main.js`. -/
structure Page where
  /-- Global `currentUser` (main.js 4). -/
  currentUser : JsValue
  /-- Global `sessionTimeout` (main.js 5): `none` is `null`, else a timer handle. -/
  sessionTimeout : Option Nat
  /-- Closure variable `warningShown` of `initializeSessionManagement`. -/
  warningShown : Bool
  /-- Whether `initializeSessionManagement` has run: the activity listeners are
  registered and `window.resetSessionTimeout` is defined. -/
  resetInstalled : Bool
  /-- Whether `setupGlobalEventListeners` has run. -/
  globalListeners : Bool
  /-- Current time in milliseconds. -/
  now : Nat
  /-- The handle the next `setTimeout` returns (handles are positive and never reused). -/
  nextTimer : Nat
  /-- Pending timers, oldest first. -/
  timers : List Timer
  /-- The `.notification-toast` elements in the document. -/
  toasts : List Toast
  /-- Identity of the next toast element created. -/
  nextToast : Nat
  /-- Every call of `showNotification` so far: message and type. -/
  notices : List (String × String)
  /-- The times at which the `confirm` prompt of `showSessionWarning` was shown. -/
  prompts : List Nat
  /-- Every request handed to `fetch` so far. -/
  requests : List Request
  /-- Number of `/auth/status` requests in flight. -/
  pendingStatus : Nat
  /-- Number of `/auth/refresh` requests in flight. -/
  pendingRefresh : Nat
  /-- Value of `window.location.pathname`. -/
  pathname : String
  /-- The last value assigned to `window.location.href`, if any: a navigation to
  that page has been requested. -/
  href : Option String
  /-- Whether the requested navigation has taken place: the document is gone,
  with its timers and listeners. -/
  unloaded : Bool
deriving DecidableEq, Repr

/-- The constant of main.js 129: 25 minutes. -/
def SESSION_WARNING_TIME : Nat := 25 * 60 * 1000

/-- The constant of main.js 131: 30 minutes (never read by the code). -/
def SESSION_TIMEOUT : Nat := 30 * 60 * 1000

/-- The delay of the final timeout, main.js 150: 5 minutes. -/
def FINAL_TIMEOUT_DELAY : Nat := 5 * 60 * 1000

/-- The delay of the redirect, main.js 199. -/
def REDIRECT_DELAY : Nat := 2000

/-- The call `setTimeout(callback, delay)`: a new pending timer, whose handle is returned. -/
def setTimeout (s : Page) (kind : TimerKind) (delay : Nat) : Page × Nat :=
  ({ s with timers := s.timers ++ [{ id := s.nextTimer, due := s.now + delay, kind := kind }],
            nextTimer := s.nextTimer + 1 }, s.nextTimer)

/-- The call `clearTimeout(id)`: the timer with that handle, if pending, is cancelled. -/
def clearTimeout (s : Page) (id : Nat) : Page :=
  { s with timers := s.timers.filter (fun t => t.id != id) }

/-- Whether a timer is a warning timer. -/
def Timer.isWarning (t : Timer) : Bool := t.kind == TimerKind.warning

/-- Whether a timer is a hard-expiry timer. -/
def Timer.isExpiry (t : Timer) : Bool := t.kind == TimerKind.expiry

/-- Whether a timer is a redirect timer. -/
def Timer.isRedirect (t : Timer) : Bool := t.kind == TimerKind.redirect

/-! ## Notifications (main.js 251-342) -/

/-- The function `showNotification(message, type, duration)`: every toast in the document is
removed (with what is inside it), a new one is appended, and two timers are
set: one adds the class `show` after 100 ms, one removes the toast after
`duration` ms.  The message is inserted into the new toast as HTML (main.js
262-270): `nested` is the number of elements of class `notification-toast` the
HTML parser creates from it, which end up inside the new toast; it is 0 for a
message without `<`, such as the messages of `main.js` itself.  (The style
element added on first use is not modelled.) -/
def showNotification (s : Page) (message : String) (type : String) (duration : Nat)
    (nested : Nat) : Page :=
  let s1 := { s with toasts := [{ id := s.nextToast, message := message, type := type, shown := false,
                                  nested := nested }],
                     nextToast := s.nextToast + 1,
                     notices := s.notices ++ [(message, type)] }
  let s2 := (setTimeout s1 (TimerKind.toastShow s.nextToast) 100).1
  (setTimeout s2 (TimerKind.toastRemove s.nextToast) duration).1

/-! ## Redirect target (main.js 191-198) -/

/-- Whether `pat` occurs in `l` starting at its first position. -/
def startsWith : List Char → List Char → Bool
  | _, [] => true
  | [], _ :: _ => false
  | c :: l, p :: pat => c == p && startsWith l pat

/-- Whether `pat` occurs somewhere in `l`. -/
def occursIn : List Char → List Char → Bool
  | [], pat => startsWith [] pat
  | c :: l, pat => startsWith (c :: l) pat || occursIn l pat

/-- The method `String.prototype.includes`. -/
def includes (s pat : String) : Bool := occursIn s.data pat.data

/-- The login page chosen by the redirect callback of `handleSessionExpiry`
from `window.location.pathname`. -/
def redirectTarget (currentPath : String) : String :=
  if includes currentPath "student" || includes currentPath "Student" then
    "/student-login.html"
  else if includes currentPath "teacher" || includes currentPath "Teacher" then
    "/teacher-login.html"
  else
    "/index.html"

/-- The redirect callback (main.js 190-199). -/
def redirectCallback (s : Page) : Page :=
  { s with href := some (redirectTarget s.pathname) }

/-! ## Session management (main.js 63-200) -/

/-- The function `handleSessionExpiry` (main.js 185-200). -/
def handleSessionExpiry (s : Page) : Page :=
  let s1 := { s with currentUser := JsValue.null }
  let s2 := showNotification s1 "Your session has expired. Please login again." "warning" 3000 0
  (setTimeout s2 TimerKind.redirect REDIRECT_DELAY).1

/-- The test `if (sessionTimeout)`: a handle is truthy when it is a non-zero number. -/
def handleTruthy : Option Nat → Bool
  | none => false
  | some id => id != 0

/-- The function `resetActivity` (main.js 135-154); the body of the timer callback is
`warningCallback`. -/
def resetActivity (s : Page) : Page :=
  let s1 := match s.sessionTimeout with
    | some id => if handleTruthy (some id) then clearTimeout s id else s
    | none => s
  let s2 := { s1 with warningShown := false }
  if s2.currentUser.truthy then
    let r := setTimeout s2 TimerKind.warning SESSION_WARNING_TIME
    { r.1 with sessionTimeout := some r.2 }
  else
    s2

/-- The function `refreshAuthStatus` (main.js 85-103), up to the `fetch` call: the response is
handled by `onRefreshResult`. -/
def refreshAuthStatus (s : Page) : Page :=
  if s.currentUser.truthy then
    { s with requests := s.requests ++ [{ url := "/auth/refresh", method := "POST", credentials := "include" }],
             pendingRefresh := s.pendingRefresh + 1 }
  else
    s

/-- The handlers of the promise chain of `refreshAuthStatus` (main.js 91-101).  The
call `resetSessionTimeout()` resolves to `window.resetSessionTimeout`, which is
`resetActivity` once `initializeSessionManagement` has run; before that the
call raises and ends in the `catch`, which only logs. -/
def onRefreshResult (s : Page) (r : FetchResult RefreshData) : Page :=
  match r with
  | .json data =>
    if data.success.truthy then
      if s.resetInstalled then resetActivity s else s
    else
      handleSessionExpiry s
  | .rejected => s
  | .invalidBody => s

/-- The function `startSessionTimeout` (main.js 167-171). -/
def startSessionTimeout (s : Page) : Page :=
  if s.resetInstalled then resetActivity s else s

/-- The function `checkAuthStatus` (main.js 63-80), up to the `fetch` call: the response is
handled by `onStatusResult`. -/
def checkAuthStatus (s : Page) : Page :=
  { s with requests := s.requests ++ [{ url := "/auth/status", method := "GET", credentials := "include" }],
           pendingStatus := s.pendingStatus + 1 }

/-- The handlers of the promise chain of `checkAuthStatus` (main.js 68-79). -/
def onStatusResult (s : Page) (r : FetchResult StatusData) : Page :=
  match r with
  | .json data =>
    if data.authenticated.truthy then
      startSessionTimeout { s with currentUser := data.user }
    else
      { s with currentUser := JsValue.null }
  | .rejected => s
  | .invalidBody => s

/-- The function `showSessionWarning` (main.js 176-180); `answer` is what the user answers to
the `confirm` prompt. -/
def showSessionWarning (s : Page) (answer : Bool) : Page :=
  let s1 := { s with prompts := s.prompts ++ [s.now] }
  if answer then refreshAuthStatus s1 else s1

/-- The callback of the warning timer (main.js 142-152). -/
def warningCallback (s : Page) (answer : Bool) : Page :=
  if !s.warningShown then
    let s1 := showSessionWarning s answer
    let s2 := { s1 with warningShown := true }
    (setTimeout s2 TimerKind.expiry FINAL_TIMEOUT_DELAY).1
  else
    s

/-- The function `initializeSessionManagement` (main.js 127-162): declares `warningShown`, registers
`resetActivity` for the six activity events and as `window.resetSessionTimeout`. -/
def initializeSessionManagement (s : Page) : Page :=
  { s with warningShown := false, resetInstalled := true }

/-- The function `initializeApp` (main.js 17-30); `setupCSRFProtection` and `setupLoadingOverlay`
do not touch the session state. -/
def initializeApp (s : Page) : Page :=
  initializeSessionManagement s

/-- The function `setupGlobalEventListeners` (main.js 35-58). -/
def setupGlobalEventListeners (s : Page) : Page :=
  { s with globalListeners := true }

/-- The state right after the script has been evaluated, at time `t0`, on a page
whose path is `pathname`. -/
def scriptLoaded (pathname : String) (t0 : Nat) : Page :=
  { currentUser := JsValue.null, sessionTimeout := none, warningShown := false,
    resetInstalled := false, globalListeners := false, now := t0, nextTimer := 1,
    timers := [], toasts := [], nextToast := 0, notices := [], prompts := [],
    requests := [], pendingStatus := 0, pendingRefresh := 0,
    pathname := pathname, href := none, unloaded := false }

/-- The `DOMContentLoaded` handler (main.js 8-12). -/
def domContentLoaded (s : Page) : Page :=
  checkAuthStatus (setupGlobalEventListeners (initializeApp s))

/-- The state of the page once loaded. -/
def pageLoad (pathname : String) (t0 : Nat) : Page :=
  domContentLoaded (scriptLoaded pathname t0)

/-! ## Event loop -/

/-- What can happen to a loaded page. -/
inductive Event where
  /-- One of mousedown, mousemove, keypress, scroll, touchstart, click. -/
  | activity
  /-- A `visibilitychange` event, with the new value of `document.hidden`. -/
  | visibility (hidden : Bool)
  /-- The window goes online. -/
  | online
  /-- The window goes offline. -/
  | offline
  /-- Another script of the page calls `showNotification`; `nested` is the number of
  elements of class `notification-toast` that the HTML parser creates from the
  message (none for a message without `<`). -/
  | notify (message type : String) (duration : Nat) (nested : Nat)
  /-- The close button of a toast is clicked. -/
  | closeToast (toast : Nat)
  /-- An `/auth/status` request in flight completes. -/
  | statusResult (r : FetchResult StatusData)
  /-- An `/auth/refresh` request in flight completes. -/
  | refreshResult (r : FetchResult RefreshData)
  /-- Time passes: `d` milliseconds. -/
  | advance (d : Nat)
  /-- The pending timer with handle `id` fires; `answer` is the user's answer
  should the callback open the `confirm` prompt. -/
  | fire (id : Nat) (answer : Bool)
  /-- The navigation requested by an assignment to `window.location.href` takes
  place: the document is replaced by the login page. -/
  | unload
deriving DecidableEq, Repr

/-- Runs the callback of a timer that fires. -/
def runTimer (s : Page) (t : Timer) (answer : Bool) : Page :=
  match t.kind with
  | .warning => warningCallback s answer
  | .expiry => handleSessionExpiry s
  | .redirect => redirectCallback s
  | .toastShow i =>
    { s with toasts := s.toasts.map (fun x => if x.id == i then { x with shown := true } else x) }
  | .toastRemove i =>
    { s with toasts := s.toasts.filter (fun x => x.id != i) }

/-- What an event does to a loaded document; `none` when the event cannot happen
in state `s`.  Timers fire at their due time: time cannot pass beyond the due
time of a pending timer, and a timer fires only once it is due.  The document
is unloaded only by a navigation that the code has requested. -/
def handle (s : Page) : Event → Option Page
  | .activity => some (if s.resetInstalled then resetActivity s else s)
  | .visibility hidden =>
    some (if s.globalListeners && !hidden then refreshAuthStatus s else s)
  | .online =>
    some (if s.globalListeners then showNotification s "Connection restored" "success" 3000 0 else s)
  | .offline =>
    some (if s.globalListeners then
      showNotification s "Connection lost. Some features may not work." "warning" 3000 0 else s)
  | .notify message type duration nested =>
    some (showNotification s message type duration nested)
  | .closeToast i => some { s with toasts := s.toasts.filter (fun x => x.id != i) }
  | .statusResult r =>
    if s.pendingStatus = 0 then none
    else some (onStatusResult { s with pendingStatus := s.pendingStatus - 1 } r)
  | .refreshResult r =>
    if s.pendingRefresh = 0 then none
    else some (onRefreshResult { s with pendingRefresh := s.pendingRefresh - 1 } r)
  | .advance d =>
    if s.timers.all (fun t => s.now + d ≤ t.due) then some { s with now := s.now + d } else none
  | .fire id answer =>
    match s.timers.find? (fun t => t.id == id) with
    | none => none
    | some t =>
      if t.due ≤ s.now then
        some (runTimer { s with timers := s.timers.filter (fun x => x.id != id) } t answer)
      else none
  | .unload => if s.href.isSome then some { s with unloaded := true } else none

/-- One step of the event loop: nothing happens any more in a document that has
been unloaded. -/
def step (s : Page) (e : Event) : Option Page :=
  if s.unloaded then none else handle s e

/-- Runs a sequence of events. -/
def run (s : Page) : List Event → Option Page
  | [] => some s
  | e :: es =>
    match step s e with
    | none => none
    | some s1 => run s1 es

/-- The states a page can be in: those reached from page load by a sequence of events. -/
def Reachable (s : Page) : Prop :=
  ∃ (pathname : String) (t0 : Nat) (es : List Event), run (pageLoad pathname t0) es = some s

/-- Number of pending warning timers. -/
def pendingWarnings (s : Page) : Nat := s.timers.countP Timer.isWarning

/-- Number of pending hard-expiry timers. -/
def pendingExpiries (s : Page) : Nat := s.timers.countP Timer.isExpiry

/-! ## Invariant of the timer state -/

/-- The part of the page state the timer invariant speaks about. -/
structure Core where
  nextTimer : Nat
  timers : List Timer
  sessionTimeout : Option Nat
  now : Nat
  warningShown : Bool
  resetInstalled : Bool

/-- Projection of a page on the timer state. -/
def Page.core (s : Page) : Core :=
  { nextTimer := s.nextTimer, timers := s.timers, sessionTimeout := s.sessionTimeout,
    now := s.now, warningShown := s.warningShown, resetInstalled := s.resetInstalled }

/-- The invariant of the timer state. -/
structure InvC (c : Core) : Prop where
  installed : c.resetInstalled = true
  next_pos : 1 ≤ c.nextTimer
  id_range : ∀ t ∈ c.timers, 1 ≤ t.id ∧ t.id < c.nextTimer
  id_nodup : (c.timers.map Timer.id).Nodup
  warn_handle : ∀ t ∈ c.timers, t.kind = TimerKind.warning → c.sessionTimeout = some t.id
  handle_warn : ∀ t ∈ c.timers, c.sessionTimeout = some t.id → t.kind = TimerKind.warning
  handle_lt : ∀ i, c.sessionTimeout = some i → i < c.nextTimer
  due_ge : ∀ t ∈ c.timers, c.now ≤ t.due
  expiry_le : ∀ t ∈ c.timers, t.kind = TimerKind.expiry → t.due ≤ c.now + FINAL_TIMEOUT_DELAY
  expiry_lt_warn : ∀ w ∈ c.timers, ∀ e ∈ c.timers, w.kind = TimerKind.warning →
    e.kind = TimerKind.expiry → e.due < w.due
  one_warn : c.timers.countP Timer.isWarning ≤ 1
  one_expiry : c.timers.countP Timer.isExpiry ≤ 1
  warn_guard : ∀ t ∈ c.timers, t.kind = TimerKind.warning → c.warningShown = false

/-- The invariant, on pages. -/
def Inv (s : Page) : Prop := InvC s.core

/-- Whether an event is the firing of the timer with handle `id`. -/
def Event.fires (id : Nat) : Event → Bool
  | .fire i _ => i == id
  | _ => false

/-! ## Sample data -/

/-- A status response of an authenticated user. -/
def authOk : StatusData := { authenticated := JsValue.bool true, user := JsValue.object 1 }

/-- The user is authenticated at load, stays idle for 25 minutes, confirms the
warning prompt, then moves the mouse. -/
def warnedEvents : List Event :=
  [Event.statusResult (FetchResult.json authOk), Event.advance 1500000, Event.fire 1 true,
    Event.activity]

/-- The state reached by `warnedEvents` on the student dashboard: a hard-expiry
timer and a warning timer are pending, a refresh request is in flight. -/
def warnedPage : Page :=
  { currentUser := JsValue.object 1, sessionTimeout := some 3, warningShown := false,
    resetInstalled := true, globalListeners := true, now := 1500000, nextTimer := 4,
    timers := [{ id := 2, due := 1800000, kind := TimerKind.expiry },
               { id := 3, due := 3000000, kind := TimerKind.warning }],
    toasts := [], nextToast := 0, notices := [], prompts := [1500000],
    requests := [{ url := "/auth/status", method := "GET", credentials := "include" },
                 { url := "/auth/refresh", method := "POST", credentials := "include" }],
    pendingStatus := 0, pendingRefresh := 1,
    pathname := "/student/dashboard.html", href := none, unloaded := false }

/-- The status request of page load is answered at most once, and until then
nobody is signed in. -/
def StatusInv (s : Page) : Prop :=
  s.pendingStatus = 0 ∨ (s.pendingStatus = 1 ∧ s.currentUser.truthy = false)

/-- The events of an idle period: no activity event, and no refresh request
completes. -/
def Event.quiet : Event → Bool
  | .activity => false
  | .refreshResult _ => false
  | _ => true

/-- The state right after the status request of page load is answered with
`authOk`, at time 0, on the student dashboard. -/
def authedPage : Page :=
  { currentUser := JsValue.object 1, sessionTimeout := some 1, warningShown := false,
    resetInstalled := true, globalListeners := true, now := 0, nextTimer := 2,
    timers := [{ id := 1, due := 1500000, kind := TimerKind.warning }],
    toasts := [], nextToast := 0, notices := [], prompts := [],
    requests := [{ url := "/auth/status", method := "GET", credentials := "include" }],
    pendingStatus := 0, pendingRefresh := 0,
    pathname := "/student/dashboard.html", href := none, unloaded := false }

/-- An idle period of 25 minutes, at the end of which the warning timer set by the
last activity event fires and the user confirms the prompt. -/
def idleEvents : List Event := [Event.advance 1500000, Event.fire 2 true]

/-- The state reached from `authedPage` by an activity event followed by `idleEvents`. -/
def promptedPage : Page :=
  { authedPage with
    sessionTimeout := some 2, warningShown := true, now := 1500000, nextTimer := 4,
    timers := [{ id := 3, due := 1800000, kind := TimerKind.expiry }],
    prompts := [1500000],
    requests := [{ url := "/auth/status", method := "GET", credentials := "include" },
                 { url := "/auth/refresh", method := "POST", credentials := "include" }],
    pendingRefresh := 1 }

/-- The state 25 minutes after `authedPage`: the warning timer is due. -/
def duePage : Page := { authedPage with now := 1500000 }

/-- The state `duePage` after the warning timer has fired and the user has confirmed. -/
def firedPage : Page :=
  { duePage with
    warningShown := true, nextTimer := 3,
    timers := [{ id := 2, due := 1800000, kind := TimerKind.expiry }],
    prompts := [1500000],
    requests := [{ url := "/auth/status", method := "GET", credentials := "include" },
                 { url := "/auth/refresh", method := "POST", credentials := "include" }],
    pendingRefresh := 1 }

/-- After the warning: the user is active, the refresh succeeds, 5 minutes pass. -/
def graceEvents : List Event :=
  [Event.activity, Event.refreshResult (FetchResult.json { success := JsValue.bool true }),
    Event.advance 300000]

/-- The state reached from `firedPage` by `graceEvents`. -/
def graceEndPage : Page :=
  { firedPage with
    sessionTimeout := some 4, warningShown := false, now := 1800000, nextTimer := 5,
    timers := [{ id := 2, due := 1800000, kind := TimerKind.expiry },
               { id := 4, due := 3000000, kind := TimerKind.warning }],
    pendingRefresh := 0 }

/-- That `pat` occurs in `s`: `s` is some characters, then `pat`, then some characters. -/
def Contains (s pat : String) : Prop :=
  ∃ pre suf : List Char, s.data = pre ++ pat.data ++ suf

/-! ## Section router (student-dashboard.js) -/

/-- An element of the document, as far as the router looks at it: its `id`, its
class list and its `data-section` attribute.  The document is the list of its
elements in tree order. -/
structure Element where
  id : Option String
  classes : List String
  dataSection : Option String
deriving DecidableEq, Repr

/-- The method `classList.contains`. -/
def Element.hasClass (e : Element) (c : String) : Bool := decide (c ∈ e.classes)

/-- The method `classList.remove`. -/
def Element.removeClass (e : Element) (c : String) : Element :=
  { e with classes := e.classes.filter (fun x => x != c) }

/-- The method `classList.add`. -/
def Element.addClass (e : Element) (c : String) : Element :=
  if c ∈ e.classes then e else { e with classes := e.classes ++ [c] }

/-- A section view: an element matched by `.content-section`. -/
def Element.isSection (e : Element) : Bool := e.hasClass "content-section"

/-- An active section view. -/
def Element.isActiveView (e : Element) : Bool := e.isSection && e.hasClass "active"

/-- The section views that are active, in document order. -/
def activeViews (dom : List Element) : List Element := dom.filter Element.isActiveView

/-- Position of the first element satisfying `p`. -/
def firstIndex (p : Element → Bool) : List Element → Option Nat
  | [] => none
  | e :: es => if p e then some 0 else (firstIndex p es).map (fun i => i + 1)

/-- Applies `f` to the element at position `i`, if there is one. -/
def modifyAt (f : Element → Element) : List Element → Nat → List Element
  | [], _ => []
  | e :: es, 0 => f e :: es
  | e :: es, i + 1 => e :: modifyAt f es i

/-- The method `document.getElementById`: the first element with that id. -/
def getElementById (dom : List Element) (id : String) : Option Nat :=
  firstIndex (fun e => e.id == some id) dom

/-- Whether the text of a name can stand between the double quotes of the
selector `[data-section="..."]` and denote itself: it has no double quote, no
backslash, no line break and no NUL character. -/
def selectorSafe (name : String) : Bool :=
  name.data.all (fun c => c != '"' && c != '\\' && c != '\n' && c != '\r' &&
    c != Char.ofNat 12 && c != Char.ofNat 0)

/-- The call `document.querySelector('[data-section="name"]')` for a name that is
`selectorSafe`: the first element whose `data-section` attribute is `name`. -/
def queryDataSection (dom : List Element) (name : String) : Option Nat :=
  firstIndex (fun e => e.dataSection == some name) dom

/-- An entry of the session history: the `section` property of its state object,
if it has one, and the URL fragment. -/
structure HistoryEntry where
  stateSection : Option String
  fragment : String
deriving DecidableEq, Repr

/-- The data loaders started by `loadSectionData`. -/
inductive Loader where
  | allExams
  | seatingArrangements
  | profileData
  | dashboardData
deriving DecidableEq, Repr

/-- The state of the dashboard page as seen by the router. -/
structure Router where
  /-- The elements of the document. -/
  dom : List Element
  /-- Global `currentSection` (student-dashboard.js 4). -/
  currentSection : String
  /-- The entries of the session history. -/
  entries : List HistoryEntry
  /-- Position of the current entry in `entries`. -/
  index : Nat
  /-- The URL fragment, without its `#`. -/
  fragment : String
  /-- The loaders started so far. -/
  loads : List Loader
deriving DecidableEq, Repr

/-- The characters the URL parser strips from the end of its input: the C0
controls and the space. -/
def isControlOrSpace (c : Char) : Bool := c.toNat ≤ 0x20

/-- The characters the URL parser removes from its input wherever they stand:
tab, line feed and carriage return. -/
def isTabOrNewline (c : Char) : Bool := c.toNat == 0x09 || c.toNat == 0x0A || c.toNat == 0x0D

/-- The fragment percent-encode set of the URL parser: the C0 controls, every
code point above `~`, the space, the double quote, `<`, `>` and the grave
accent. -/
def inFragmentSet (c : Char) : Bool :=
  c.toNat ≤ 0x1F || 0x7E < c.toNat || c.toNat == 0x20 || c.toNat == 0x22 || c.toNat == 0x3C ||
    c.toNat == 0x3E || c.toNat == 0x60

/-- The bytes of the UTF-8 encoding of a code point. -/
def utf8Bytes (n : Nat) : List Nat :=
  if n < 0x80 then [n]
  else if n < 0x800 then [0xC0 + n / 64, 0x80 + n % 64]
  else if n < 0x10000 then [0xE0 + n / 4096, 0x80 + n / 64 % 64, 0x80 + n % 64]
  else [0xF0 + n / 262144, 0x80 + n / 4096 % 64, 0x80 + n / 64 % 64, 0x80 + n % 64]

/-- An upper-case hexadecimal digit. -/
def hexDigit (n : Nat) : Char :=
  if n < 10 then Char.ofNat (48 + n) else Char.ofNat (55 + n)

/-- A byte, percent-encoded: `%` and two hexadecimal digits. -/
def percentByte (b : Nat) : List Char := ['%', hexDigit (b / 16), hexDigit (b % 16)]

/-- A character of a fragment as the URL parser writes it: percent-encoded, byte
by byte of its UTF-8 encoding, when it is in the fragment percent-encode set. -/
def encodeFragmentChar (c : Char) : List Char :=
  if inFragmentSet c then ((utf8Bytes c.toNat).map percentByte).flatten else [c]

/-- The fragment of the URL that the URL parser makes of `'#' + name`: controls and
spaces at the end of the input are stripped, tabs and line breaks are removed,
and the characters left are written by `encodeFragmentChar`. -/
def urlFragment (name : String) : String :=
  let stripped := (name.data.reverse.dropWhile isControlOrSpace).reverse
  let kept := stripped.filter (fun c => !isTabOrNewline c)
  String.mk (kept.map encodeFragmentChar).flatten

/-- A name the URL parser leaves as it is: printable ASCII characters without
space, double quote, `<`, `>` and grave accent. -/
def urlPlain (name : String) : Bool := name.data.all (fun c => !inFragmentSet c)

/-- The call `history.pushState({section: name}, '', '#' + name)`: the entries after the
current one are dropped, the new entry is appended and becomes current, and the
URL fragment becomes the one the URL parser makes of `'#' + name`. -/
def pushState (r : Router) (name : String) : Router :=
  { r with entries := r.entries.take (r.index + 1) ++
             [{ stateSection := some name, fragment := urlFragment name }],
           index := (r.entries.take (r.index + 1)).length,
           fragment := urlFragment name }

/-- The function `loadSectionData` (student-dashboard.js 235-250). -/
def loadSectionData (r : Router) (name : String) : Router :=
  { r with loads := r.loads ++
      [if name = "exams" then Loader.allExams
       else if name = "seating" then Loader.seatingArrangements
       else if name = "profile" then Loader.profileData
       else Loader.dashboardData] }

/-- Lines 192-194: the class `active` is removed from every `.content-section` element. -/
def hideSections (dom : List Element) : List Element :=
  dom.map (fun e => if e.hasClass "content-section" then e.removeClass "active" else e)

/-- Lines 197-200: the element with id `sectionName + '-section'`, if there is one, gets
the class `active`. -/
def showTarget (dom : List Element) (sectionName : String) : List Element :=
  match getElementById dom (sectionName ++ "-section") with
  | some i => modifyAt (fun e => e.addClass "active") dom i
  | none => dom

/-- Lines 203-205: the class `active` is removed from every `.nav-link` element. -/
def clearNavLinks (dom : List Element) : List Element :=
  dom.map (fun e => if e.hasClass "nav-link" then e.removeClass "active" else e)

/-- Lines 207-210: the first element whose `data-section` is the section name, if there
is one, gets the class `active`. -/
def highlightLink (dom : List Element) (sectionName : String) : List Element :=
  match queryDataSection dom sectionName with
  | some i => modifyAt (fun e => e.addClass "active") dom i
  | none => dom

/-- The function `showSection(sectionName, pushState)` (student-dashboard.js 190-221), for section
names that are `selectorSafe`; for other names the selector of line 207 is not
the attribute test modelled by `queryDataSection`, and the result is `none`. -/
def showSection (r : Router) (sectionName : String) (push : Bool) : Option Router :=
  if selectorSafe sectionName then
    let dom4 := highlightLink (clearNavLinks (showTarget (hideSections r.dom) sectionName)) sectionName
    let r1 := { r with dom := dom4 }
    -- update browser history
    let r2 := if push then pushState r1 sectionName else r1
    let r3 := { r2 with currentSection := sectionName }
    -- load section-specific data
    some (loadSectionData r3 sectionName)
  else
    none

/-- The page structure the router relies on: a section view is not a nav link and
carries no `data-section` attribute naming the section shown. -/
def viewsApart (dom : List Element) (sectionName : String) : Prop :=
  ∀ e ∈ dom, e.isSection = true → e.hasClass "nav-link" = false ∧ e.dataSection ≠ some sectionName

/-- The element `document.getElementById(sectionName + '-section')` of a document. -/
def targetElement (dom : List Element) (sectionName : String) : Option Element :=
  dom.find? (fun e => e.id == some (sectionName ++ "-section"))

/-- The `popstate` handler of `setupNavigation` (student-dashboard.js 84-88), called
with the `section` property of the state of the entry navigated to (`none` when
the state is null or has no such property). -/
def onPopState (r : Router) (state : Option String) : Option Router :=
  match state with
  | some name => if name != "" then showSection r name false else some r
  | none => some r

/-- A back/forward navigation to the entry at position `k`: the browser makes that
entry current, shows its URL, and dispatches `popstate` with its state. -/
def traverse (r : Router) (k : Nat) : Option Router :=
  match r.entries[k]? with
  | some entry => onPopState { r with index := k, fragment := entry.fragment } entry.stateSection
  | none => none

/-- The call `s.replace('#', '')`: the first `#` of the string is removed. -/
def removeFirstHash : List Char → List Char
  | [] => []
  | c :: cs => if c = '#' then cs else c :: removeFirstHash cs

/-- The `load` handler (student-dashboard.js 872-879); `locationHash` is
`window.location.hash`. -/
def onLoad (r : Router) (locationHash : String) : Option Router :=
  let hash := String.mk (removeFirstHash locationHash.data)
  if hash != "" && ["dashboard", "exams", "seating", "profile"].contains hash then
    showSection r hash false
  else
    showSection r "dashboard" false

/-- A dashboard document: four nav links, then the four section views, the
dashboard view active. -/
def sampleDom : List Element :=
  [{ id := none, classes := ["nav-link", "active"], dataSection := some "dashboard" },
   { id := none, classes := ["nav-link"], dataSection := some "exams" },
   { id := none, classes := ["nav-link"], dataSection := some "seating" },
   { id := none, classes := ["nav-link"], dataSection := some "profile" },
   { id := some "dashboard-section", classes := ["content-section", "active"], dataSection := none },
   { id := some "exams-section", classes := ["content-section"], dataSection := none },
   { id := some "seating-section", classes := ["content-section"], dataSection := none },
   { id := some "profile-section", classes := ["content-section"], dataSection := none }]

/-- The router of a dashboard page showing the dashboard section. -/
def sampleRouter : Router :=
  { dom := sampleDom, currentSection := "dashboard",
    entries := [{ stateSection := none, fragment := "" }], index := 0, fragment := "", loads := [] }

/-- A change of an element that touches nothing but its class `active`. -/
def Keeps (g : Element → Element) : Prop :=
  ∀ e, (g e).id = e.id ∧ (g e).dataSection = e.dataSection ∧ (g e).isSection = e.isSection ∧
    (g e).hasClass "nav-link" = e.hasClass "nav-link"

/-- The state `duePage` after the warning timer has fired and the user has
dismissed the prompt: the hard-expiry timer is pending, due at 30 minutes. -/
def dismissedPage : Page :=
  { duePage with
    warningShown := true, nextTimer := 3,
    timers := [{ id := 2, due := 1800000, kind := TimerKind.expiry }],
    prompts := [1500000] }

/-- After an activity event at 25 minutes: the hard-expiry timer fires at 30
minutes, the toast is shown, the redirect fires 2 seconds later and the login
page is loaded. -/
def leaveEvents : List Event :=
  [Event.advance 300000, Event.fire 2 false, Event.advance 100, Event.fire 4 false,
    Event.advance 1900, Event.fire 6 false, Event.unload]

/-- The state reached from `dismissedPage` by an activity event followed by
`leaveEvents`: the document is gone while the warning timer set by the activity
event, due at 50 minutes, has not fired. -/
def leftPage : Page :=
  { dismissedPage with
    currentUser := JsValue.null, sessionTimeout := some 3, warningShown := false,
    now := 1802000, nextTimer := 7,
    timers := [{ id := 3, due := 3000000, kind := TimerKind.warning },
               { id := 5, due := 1803000, kind := TimerKind.toastRemove 0 }],
    toasts := [{ id := 0, message := "Your session has expired. Please login again.",
                 type := "warning", shown := true }],
    nextToast := 1,
    notices := [("Your session has expired. Please login again.", "warning")],
    href := some "/student-login.html", unloaded := true }

/-- After the warning, confirmed by the user: the refresh is answered with
`success: false`, the hard-expiry handler runs at once, the redirect fires 2
seconds later and the login page is loaded. -/
def refusedEvents : List Event :=
  [Event.refreshResult (FetchResult.json { success := JsValue.bool false }),
    Event.advance 100, Event.fire 3 false, Event.advance 1900, Event.fire 5 false, Event.unload]

/-- The state reached from `firedPage` by `refusedEvents`: the document is gone
while the hard-expiry timer, due at 30 minutes, has not fired. -/
def refusedPage : Page :=
  { firedPage with
    currentUser := JsValue.null, now := 1502000, nextTimer := 6,
    timers := [{ id := 2, due := 1800000, kind := TimerKind.expiry },
               { id := 4, due := 1503000, kind := TimerKind.toastRemove 0 }],
    toasts := [{ id := 0, message := "Your session has expired. Please login again.",
                 type := "warning", shown := true }],
    nextToast := 1,
    notices := [("Your session has expired. Please login again.", "warning")],
    pendingRefresh := 0,
    href := some "/student-login.html", unloaded := true }

/-- The document after the four steps of `showSection`. -/
def shownDom (dom : List Element) (sectionName : String) : List Element :=
  highlightLink (clearNavLinks (showTarget (hideSections dom) sectionName)) sectionName

/-- The history entry pushed by `showSection(name, true)`. -/
def pushedEntry (name : String) : HistoryEntry :=
  { stateSection := some name, fragment := urlFragment name }

/-- An entry as `showSection` pushes them: if its state carries a section, the
URL fragment is the one made of that section name, a name `showSection` accepts. -/
def HistoryEntry.pushed (e : HistoryEntry) : Prop :=
  ∀ n, e.stateSection = some n → e.fragment = urlFragment n ∧ selectorSafe n = true

/-- The value of `window.location.hash` for a URL fragment: empty when the
fragment is empty, else the fragment after a `#`. -/
def locationHash (fragment : String) : String :=
  if fragment = "" then "" else "#" ++ fragment

/-- The section names the `load` handler recognizes (student-dashboard.js 874). -/
def knownSections : List String := ["dashboard", "exams", "seating", "profile"]

/-- The router after `showSection('exams')` and a back navigation to the first
entry, whose state is null: the entry of `exams` is a forward entry. -/
def backRouter : Router :=
  { dom := [{ id := none, classes := ["nav-link"], dataSection := some "dashboard" },
            { id := none, classes := ["nav-link", "active"], dataSection := some "exams" },
            { id := none, classes := ["nav-link"], dataSection := some "seating" },
            { id := none, classes := ["nav-link"], dataSection := some "profile" },
            { id := some "dashboard-section", classes := ["content-section"], dataSection := none },
            { id := some "exams-section", classes := ["content-section", "active"], dataSection := none },
            { id := some "seating-section", classes := ["content-section"], dataSection := none },
            { id := some "profile-section", classes := ["content-section"], dataSection := none }],
    currentSection := "exams",
    entries := [{ stateSection := none, fragment := "" },
                { stateSection := some "exams", fragment := "exams" }],
    index := 0, fragment := "", loads := [Loader.allExams] }

/-- The nav links that are highlighted, in document order. -/
def activeLinks (dom : List Element) : List Element :=
  dom.filter (fun e => e.hasClass "nav-link" && e.hasClass "active")

/-- The element `document.querySelector('[data-section="name"]')` of a document. -/
def linkElement (dom : List Element) (sectionName : String) : Option Element :=
  dom.find? (fun e => e.dataSection == some sectionName)

/-- Two elements that differ at most in their class `active`. -/
def Element.alike (e x : Element) : Prop :=
  x.id = e.id ∧ x.dataSection = e.dataSection ∧ x.isSection = e.isSection ∧
    x.hasClass "nav-link" = e.hasClass "nav-link"

/-- Two documents whose elements differ, position by position, at most in their
class `active`. -/
def SameShape (l l1 : List Element) : Prop := List.Forall₂ Element.alike l l1

/-! ## Email validation (main.js 429-432) -/

/-- The regular expressions needed to run the pattern of `isValidEmail`: character
classes, concatenation and repetition, with the empty language, the empty word
and alternation, which appear when a pattern is matched character by character. -/
inductive Rx where
  | empty
  | eps
  | cls (p : Char → Bool)
  | seq (a b : Rx)
  | alt (a b : Rx)
  | star (a : Rx)

/-- The quantifier `+` of a pattern: one or more repetitions. -/
def Rx.plus (a : Rx) : Rx := Rx.seq a (Rx.star a)

/-- Whether a pattern matches the empty word. -/
def Rx.nullable : Rx → Bool
  | .empty => false
  | .eps => true
  | .cls _ => false
  | .seq a b => a.nullable && b.nullable
  | .alt a b => a.nullable || b.nullable
  | .star _ => true

/-- The pattern left to match after the character `c` has been read. -/
def Rx.deriv (c : Char) : Rx → Rx
  | .empty => .empty
  | .eps => .empty
  | .cls p => if p c then .eps else .empty
  | .seq a b => if a.nullable then .alt (.seq (a.deriv c) b) (b.deriv c) else .seq (a.deriv c) b
  | .alt a b => .alt (a.deriv c) (b.deriv c)
  | .star a => .seq (a.deriv c) (.star a)

/-- Whether the whole of a word matches a pattern (`^pattern$`). -/
def Rx.matchAll (r : Rx) : List Char → Bool
  | [] => r.nullable
  | c :: s => (r.deriv c).matchAll s

/-- The words of a pattern. -/
inductive Rx.Lang : Rx → List Char → Prop where
  | eps : Rx.Lang .eps []
  | cls {p : Char → Bool} {c : Char} : p c = true → Rx.Lang (.cls p) [c]
  | seq {a b : Rx} {s t : List Char} : Rx.Lang a s → Rx.Lang b t → Rx.Lang (.seq a b) (s ++ t)
  | altLeft {a b : Rx} {s : List Char} : Rx.Lang a s → Rx.Lang (.alt a b) s
  | altRight {a b : Rx} {s : List Char} : Rx.Lang b s → Rx.Lang (.alt a b) s
  | starNil {a : Rx} : Rx.Lang (.star a) []
  | starCons {a : Rx} {s t : List Char} : Rx.Lang a s → Rx.Lang (.star a) t →
      Rx.Lang (.star a) (s ++ t)

/-- The class `\s` of JavaScript patterns: white space and line terminators. -/
def isJsWhitespace (c : Char) : Bool :=
  c.toNat ∈ [0x9, 0xA, 0xB, 0xC, 0xD, 0x20, 0xA0, 0x1680, 0x2028, 0x2029, 0x202F, 0x205F,
    0x3000, 0xFEFF] || (0x2000 ≤ c.toNat && c.toNat ≤ 0x200A)

/-- The class `[^\s@]`. -/
def notSpaceAt (c : Char) : Bool := !isJsWhitespace c && c != '@'

/-- The pattern `/^[^\s@]+@[^\s@]+\.[^\s@]+$/` of main.js 430. -/
def emailRegex : Rx :=
  Rx.seq (Rx.plus (Rx.cls notSpaceAt))
    (Rx.seq (Rx.cls (fun c => c == '@'))
      (Rx.seq (Rx.plus (Rx.cls notSpaceAt))
        (Rx.seq (Rx.cls (fun c => c == '.')) (Rx.plus (Rx.cls notSpaceAt)))))

/-- The function `isValidEmail` (main.js 429-432): `emailRegex.test(email)`. -/
def isValidEmail (email : String) : Bool := emailRegex.matchAll email.data

/-! ## Profile and password forms (student-dashboard.js 662-797) -/

/-- A request as a form handler hands it to `fetch`: the body is the object given
to `JSON.stringify`, a list of properties whose values are strings or null. -/
structure ApiCall where
  url : String
  method : String
  headers : List (String × String)
  body : List (String × Option String)
deriving DecidableEq, Repr

/-- What a form handler does, in order. -/
inductive Effect where
  /-- The call `e.preventDefault()`. -/
  | preventDefault
  /-- The call `ExamSeatingApp.showNotification(message, type)`. -/
  | notify (message type : String)
  /-- The call `ExamSeatingApp.showLoading(message)`. -/
  | showLoading (message : String)
  /-- The call `ExamSeatingApp.hideLoading()`. -/
  | hideLoading
  /-- The call `fetch(url, options)`. -/
  | fetch (call : ApiCall)
  /-- An assignment to the `textContent` of the element with the given id. -/
  | setText (id text : String)
  /-- The call `hideModal` on the element with the given id. -/
  | hideModal (id : String)
deriving DecidableEq, Repr

/-- The requests issued by a handler. -/
def requestsOf : List Effect → List ApiCall
  | [] => []
  | Effect.fetch c :: es => c :: requestsOf es
  | _ :: es => requestsOf es

/-- The notifications shown by a handler: message and type. -/
def notificationsOf : List Effect → List (String × String)
  | [] => []
  | Effect.notify m t :: es => (m, t) :: notificationsOf es
  | _ :: es => notificationsOf es

/-- The truthiness of a value returned by `FormData.get`: a non-empty string
(`none` is the `null` returned for a field the form does not have). -/
def fieldTruthy : Option String → Bool
  | none => false
  | some s => s != ""

/-- The string a field value is converted to where a string is expected. -/
def fieldString : Option String → String
  | none => "null"
  | some s => s

/-- The property `length` of a JavaScript string: its number of UTF-16 code units. -/
def jsLength (s : String) : Nat :=
  (s.data.map (fun c => if c.toNat < 0x10000 then 1 else 2)).sum

/-- The fields the profile form handler reads from the submitted form. -/
structure ProfileForm where
  name : Option String
  email : Option String
  phone : Option String
  address : Option String
deriving DecidableEq, Repr

/-- The function `handleProfileUpdate` (student-dashboard.js 662-686), up to the `fetch` call. -/
def handleProfileUpdate (f : ProfileForm) : List Effect :=
  if !fieldTruthy f.name || !fieldTruthy f.email then
    [Effect.preventDefault, Effect.notify "Name and email are required" "error"]
  else if !isValidEmail (fieldString f.email) then
    [Effect.preventDefault, Effect.notify "Please enter a valid email address" "error"]
  else
    [Effect.preventDefault, Effect.showLoading "Updating profile...",
      Effect.fetch
        { url := "/student/profile", method := "PUT",
          headers := [("Content-Type", "application/json")],
          body := [("name", f.name), ("email", f.email), ("phone", f.phone),
                   ("address", f.address)] }]

/-- The fields of a form response read by the handlers: `success` and `message`. -/
structure FormReply where
  success : JsValue
  message : Option String
deriving DecidableEq, Repr

/-- The handlers of the promise chain of `handleProfileUpdate` (student-dashboard.js 694-714). -/
def onProfileReply (f : ProfileForm) (r : FetchResult FormReply) : List Effect :=
  match r with
  | .json data =>
    if data.success.truthy then
      [Effect.hideLoading, Effect.notify "Profile updated successfully" "success",
        Effect.setText "user-name" (fieldString f.name),
        Effect.setText "profile-name" (fieldString f.name),
        Effect.setText "profile-email" (fieldString f.email)]
    else
      [Effect.hideLoading,
        Effect.notify (if fieldTruthy data.message then fieldString data.message
          else "Failed to update profile") "error"]
  | _ => [Effect.hideLoading, Effect.notify "Error updating profile" "error"]

/-- The fields the password form handler reads from the submitted form. -/
structure PasswordForm where
  currentPassword : Option String
  newPassword : Option String
  confirmPassword : Option String
deriving DecidableEq, Repr

/-- The function `handlePasswordChange` (student-dashboard.js 745-781), up to the `fetch` call. -/
def handlePasswordChange (f : PasswordForm) : List Effect :=
  if !fieldTruthy f.currentPassword || !fieldTruthy f.newPassword ||
      !fieldTruthy f.confirmPassword then
    [Effect.preventDefault, Effect.notify "All password fields are required" "error"]
  else if f.newPassword != f.confirmPassword then
    [Effect.preventDefault, Effect.notify "New passwords do not match" "error"]
  else if jsLength (fieldString f.newPassword) < 8 then
    [Effect.preventDefault,
      Effect.notify "New password must be at least 8 characters long" "error"]
  else
    [Effect.preventDefault, Effect.showLoading "Changing password...",
      Effect.fetch
        { url := "/student/password", method := "PUT",
          headers := [("Content-Type", "application/json")],
          body := [("currentPassword", f.currentPassword), ("newPassword", f.newPassword)] }]

/-- The handlers of the promise chain of `handlePasswordChange` (student-dashboard.js 782-796). -/
def onPasswordReply (r : FetchResult FormReply) : List Effect :=
  match r with
  | .json data =>
    if data.success.truthy then
      [Effect.hideLoading, Effect.notify "Password changed successfully" "success",
        Effect.hideModal "change-password-modal"]
    else
      [Effect.hideLoading,
        Effect.notify (if fieldTruthy data.message then fieldString data.message
          else "Failed to change password") "error"]
  | _ => [Effect.hideLoading, Effect.notify "Error changing password" "error"]

/-- The profile form passes validation: name and email are non-empty strings and
the email is valid. -/
def ProfileForm.valid (f : ProfileForm) : Prop :=
  ∃ n e, f.name = some n ∧ n ≠ "" ∧ f.email = some e ∧ e ≠ "" ∧ isValidEmail e = true

/-- The password form passes validation: the three fields are non-empty strings,
the new password and its confirmation are equal, and the new password has at
least 8 UTF-16 code units. -/
def PasswordForm.valid (f : PasswordForm) : Prop :=
  ∃ c n, f.currentPassword = some c ∧ c ≠ "" ∧ f.newPassword = some n ∧ n ≠ "" ∧
    f.confirmPassword = some n ∧ 8 ≤ jsLength n

/-! ## CSRF protection (main.js 108-122) -/

/-- A plain object used as a dictionary: its properties in order. -/
abbrev Dict := List (String × JsValue)

/-- The assignment `obj[key] = value`: an existing property gets the new value,
otherwise the property is added. -/
def setProp (key : String) (value : JsValue) : Dict → Dict
  | [] => [(key, value)]
  | (k, v) :: rest => if k = key then (key, value) :: rest else (k, v) :: setProp key value rest

/-- The `options` object given to `fetch`, as far as the code reads it: a property
is `none` when the object does not have it; `headers` is a plain object. -/
structure FetchOptions where
  method : Option String
  headers : Option Dict
  credentials : Option String
  body : Option String
deriving DecidableEq, Repr

/-- The comparison `method.toUpperCase() !== 'GET'`, negated.  Upper-casing is done
on the letters a-z: no other character has an upper case in `G`, `E`, `T`. -/
def isGetMethod (method : String) : Bool :=
  method.data.map Char.toUpper == ['G', 'E', 'T']

/-- The function installed as `window.fetch` by `setupCSRFProtection` when the page
has a `csrf-token` meta tag whose `content` attribute is `token` (null when the
tag has no such attribute): the arguments it hands to the original `fetch`. -/
def wrappedFetch (token : JsValue) (url : String) (options : FetchOptions) :
    String × FetchOptions :=
  match options.method with
  | some m =>
    if m != "" && !isGetMethod m then
      (url, { options with headers := some (setProp "X-CSRF-Token" token (options.headers.getD [])) })
    else (url, options)
  | none => (url, options)

/-- The function `window.fetch` after `setupCSRFProtection` (main.js 108-122): `meta` is the
`content` attribute of the `csrf-token` meta tag, `none` when the page has no
such tag. -/
def windowFetch (meta : Option JsValue) (url : String) (options : FetchOptions) :
    String × FetchOptions :=
  match meta with
  | some token => wrappedFetch token url options
  | none => (url, options)

/-! ## Loading overlay and `apiRequest` (main.js 223-246, 363-390) -/

/-- The page together with its loading overlay: whether the overlay has the class
`show`, and the text of its paragraph. -/
structure Screen where
  page : Page
  overlayShown : Bool
  overlayMessage : String
deriving DecidableEq, Repr

/-- The function `showLoading(message)` (main.js 223-234), on a page whose overlay exists. -/
def showLoading (s : Screen) (message : String) : Screen :=
  { s with overlayShown := true, overlayMessage := message }

/-- The function `hideLoading` (main.js 239-246). -/
def hideLoading (s : Screen) : Screen :=
  { s with overlayShown := false }

/-- The error thrown inside `apiRequest`. -/
inductive ApiError where
  /-- The promise of `fetch` rejects, with this reason. -/
  | rejected (reason : String)
  /-- The error `new Error('HTTP error! status: ' + status)` of main.js 377. -/
  | http (status : Nat)
  /-- The promise of `response.json()` rejects, with this reason. -/
  | parse (reason : String)
deriving DecidableEq, Repr

/-- How the request of `apiRequest` ends: `fetch` rejects, or it resolves with a
response whose `ok` flag and status are given and whose body parses to a value
or fails to parse. -/
inductive ApiOutcome where
  | rejected (reason : String)
  | response (ok : Bool) (status : Nat) (body : Except String JsValue)

/-- The options `apiRequest` hands to `fetch` (main.js 367-374): the spread of
`options` comes last. -/
def apiRequestOptions (options : FetchOptions) : FetchOptions :=
  { method := options.method,
    headers := match options.headers with
      | some h => some h
      | none => some [("Content-Type", JsValue.string "application/json")],
    credentials := match options.credentials with
      | some c => some c
      | none => some "include",
    body := options.body }

/-- The function `apiRequest` (main.js 363-390), up to the `fetch` call: the overlay is shown and
the request is handed to `window.fetch`. -/
def apiRequestStart (meta : Option JsValue) (s : Screen) (url : String) (options : FetchOptions) :
    Screen × (String × FetchOptions) :=
  (showLoading s "Loading...", windowFetch meta url (apiRequestOptions options))

/-- The function `apiRequest` from the moment its request has ended, in the state `s` the page
is in by then: the new state, and the value returned or the error thrown. -/
def apiRequestEnd (s : Screen) : ApiOutcome → Screen × Except ApiError JsValue
  | .response true _ (.ok data) => (hideLoading s, .ok data)
  | .response true _ (.error reason) =>
    ({ hideLoading s with
        page := showNotification (hideLoading s).page "Request failed. Please try again." "error" 3000 0 },
      .error (ApiError.parse reason))
  | .response false status _ =>
    ({ hideLoading s with
        page := showNotification (hideLoading s).page "Request failed. Please try again." "error" 3000 0 },
      .error (ApiError.http status))
  | .rejected reason =>
    ({ hideLoading s with
        page := showNotification (hideLoading s).page "Request failed. Please try again." "error" 3000 0 },
      .error (ApiError.rejected reason))

/-! ## Toasts across the events of the page -/

/-- A change of the page made without a call of `showNotification`: the toasts of
the document become `f` of what they were, no toast is created, and every timer
that was not pending before is not a toast removal. -/
structure Still (f : List Toast → List Toast) (s s1 : Page) : Prop where
  toasts : s1.toasts = f s.toasts
  nextToast : s1.nextToast = s.nextToast
  notices : s1.notices = s.notices
  unloaded : s1.unloaded = s.unloaded
  timers : ∀ t ∈ s1.timers, t ∈ s.timers ∨ ∀ j, t.kind ≠ TimerKind.toastRemove j

/-- A change of the page made with one call of `showNotification`, for a message
whose markup creates `n` elements of class `notification-toast`: the new toast
is the only one, and every removal timer that was not pending before is the
one of the new toast. -/
structure OneCall (n : Nat) (s s1 : Page) : Prop where
  toasts : ∃ x, s1.toasts = [x] ∧ x.id = s.nextToast ∧ x.nested = n
  nextToast : s1.nextToast = s.nextToast + 1
  notices : s1.notices.length = s.notices.length + 1
  unloaded : s1.unloaded = s.unloaded
  timers : ∀ t ∈ s1.timers, t ∈ s.timers ∨ ∀ j, t.kind = TimerKind.toastRemove j → j = s.nextToast

/-- The events that leave toast `toast` and its removal timer `timer` alone: not
a click on the close button of that toast, not the firing of that timer, and
not the unloading of the document. -/
def Event.spares (toast timer : Nat) : Event → Bool
  | .closeToast i => i != toast
  | .fire id _ => id != timer
  | .unload => false
  | _ => true

/-- The number of elements of class `notification-toast` in the document: the
toasts and what the markup of their messages has put inside them. -/
def toastElements (s : Page) : Nat := (s.toasts.map (fun x => 1 + x.nested)).sum

/-- The events that bring no markup into a toast: every call of `showNotification`
by another script has a message that creates no element of class
`notification-toast`. -/
def Event.plain : Event → Bool
  | .notify _ _ _ nested => nested == 0
  | _ => true

/-- The state of a page on which toast `k`, created with message `m`, type `ty`
and `j` nested elements by the `n`-th call of `showNotification`, has its
removal timer `r` pending: the toast is the only one of the document, or a
later call has replaced it. -/
structure Shown (k : Nat) (m ty : String) (j : Nat) (r : Timer) (n : Nat) (s : Page) : Prop where
  inv : Inv s
  loaded : s.unloaded = false
  pending : r ∈ s.timers
  kind : r.kind = TimerKind.toastRemove k
  only : ∀ t ∈ s.timers, t.kind = TimerKind.toastRemove k → t = r
  fresh : k < s.nextToast
  one : s.toasts.length ≤ 1
  calls : n ≤ s.notices.length
  state : (∃ x, s.toasts = [x] ∧ x.id = k ∧ x.message = m ∧ x.type = ty ∧ x.nested = j) ∨
    (n < s.notices.length ∧ ∀ x ∈ s.toasts, k < x.id)

/-- A message whose markup is an element of class `notification-toast`. -/
def markupMessage : String := "<div class=notification-toast></div>"

/-- The state of `authedPage` 3 seconds after a notification: the toast has slid
in and its removal timer is due. -/
def toastDuePage : Page :=
  { authedPage with
    now := 3000, nextTimer := 4,
    timers := [{ id := 1, due := 1500000, kind := TimerKind.warning },
               { id := 3, due := 3000, kind := TimerKind.toastRemove 0 }],
    toasts := [{ id := 0, message := "Profile updated successfully", type := "success",
                 shown := true }],
    nextToast := 1, notices := [("Profile updated successfully", "success")] }

/-! ## The object literal of `apiRequest` (main.js 367-374) -/

/-- The own enumerable properties of a value, which is what a spread of the value
copies: none for `undefined`, `null`, a boolean or a number; those of an object
or of a string are looked up in `heap`. -/
def ownProps (heap : JsValue → Dict) : JsValue → Dict
  | .undefined => []
  | .null => []
  | .bool _ => []
  | .number _ => []
  | v => heap v

/-- The spread `...source` in an object literal whose properties so far are `target`:
the properties of `source` are assigned in order. -/
def spread (source target : Dict) : Dict :=
  source.foldl (fun acc p => setProp p.1 p.2 acc) target

/-- A property value of the object `apiRequest` hands to `fetch`: a value that was
given to `apiRequest` in its `options`, or a constant of the code, or the
object built by the inner literal, with its properties. -/
inductive InitValue where
  | given (v : JsValue)
  | literal (props : Dict)
deriving DecidableEq, Repr

/-- An object under construction by the outer literal: its properties in order. -/
abbrev Init := List (String × InitValue)

/-- A property definition `key: value` of the outer literal, or the assignment of a
property by a spread: an existing property gets the new value, otherwise the
property is added. -/
def defineProp (key : String) (value : InitValue) : Init → Init
  | [] => [(key, value)]
  | (k, v) :: rest =>
    if k = key then (key, value) :: rest else (k, v) :: defineProp key value rest

/-- The spread `...options` in the outer literal. -/
def spreadOptions (options : Dict) (target : Init) : Init :=
  options.foldl (fun acc p => defineProp p.1 (InitValue.given p.2) acc) target

/-- The property read `options.key` on an `options` object given by its own
properties (a plain object: it inherits no such property). -/
def readProp (options : Dict) (key : String) : JsValue :=
  (options.lookup key).getD JsValue.undefined

/-- The inner literal `{'Content-Type': 'application/json', ...options.headers}` (main.js 369-372). -/
def mergedHeaders (heap : JsValue → Dict) (options : Dict) : Dict :=
  spread (ownProps heap (readProp options "headers"))
    [("Content-Type", JsValue.string "application/json")]

/-- The object literal `apiRequest` hands to `fetch` (main.js 367-374):
`{credentials: 'include', headers: {...}, ...options}`, evaluated left to right. -/
def apiRequestInit (heap : JsValue → Dict) (options : Dict) : Init :=
  spreadOptions options
    (defineProp "headers" (InitValue.literal (mergedHeaders heap options))
      (defineProp "credentials" (InitValue.given (JsValue.string "include")) []))

/-- A heap in which object 5 is `{Accept: 'text/plain'}`. -/
def sampleHeap : JsValue → Dict
  | .object 5 => [("Accept", JsValue.string "text/plain")]
  | _ => []


/-- The `options` record as an object: its properties in the order method, headers,
credentials, body; the headers object is object 0 of the heap. -/
def FetchOptions.toObject (o : FetchOptions) : Dict :=
  (match o.method with
    | some m => [("method", JsValue.string m)]
    | none => []) ++
  (match o.headers with
    | some _ => [("headers", JsValue.object 0)]
    | none => []) ++
  (match o.credentials with
    | some c => [("credentials", JsValue.string c)]
    | none => []) ++
  (match o.body with
    | some b => [("body", JsValue.string b)]
    | none => [])

/-- The heap of `FetchOptions.toObject`: object 0 is the headers object. -/
def FetchOptions.heap (o : FetchOptions) : JsValue → Dict
  | .object 0 => o.headers.getD []
  | _ => []

/-- A string property of an object handed to `fetch`, if it has it. -/
def stringProp (i : Init) (key : String) : Option String :=
  match i.lookup key with
  | some (InitValue.given (JsValue.string s)) => some s
  | _ => none

/-- The object handed to `fetch`, read as an `options` record. -/
def readInit (heap : JsValue → Dict) (i : Init) : FetchOptions :=
  { method := stringProp i "method",
    headers := match i.lookup "headers" with
      | some (InitValue.given v) => some (heap v)
      | some (InitValue.literal props) => some props
      | none => none,
    credentials := stringProp i "credentials",
    body := stringProp i "body" }

/-! # Properties -/

theorem isWarning_iff (t : Timer) : t.isWarning = true ↔ t.kind = TimerKind.warning := by
  simp [Timer.isWarning]

theorem isExpiry_iff (t : Timer) : t.isExpiry = true ↔ t.kind = TimerKind.expiry := by
  simp [Timer.isExpiry]

/-- Cancelling or firing timers keeps the invariant. -/
theorem InvC.filter {c : Core} (h : InvC c) (p : Timer → Bool) :
    InvC { c with timers := c.timers.filter p } := by
  have hsub : ∀ t, t ∈ c.timers.filter p → t ∈ c.timers := fun t ht => (List.mem_filter.mp ht).1
  refine ⟨h.installed, h.next_pos, ?_, ?_, ?_, ?_, h.handle_lt, ?_, ?_, ?_, ?_, ?_, ?_⟩
  · exact fun t ht => h.id_range t (hsub t ht)
  · exact h.id_nodup.sublist (List.Sublist.map _ (List.filter_sublist _))
  · exact fun t ht => h.warn_handle t (hsub t ht)
  · exact fun t ht => h.handle_warn t (hsub t ht)
  · exact fun t ht => h.due_ge t (hsub t ht)
  · exact fun t ht => h.expiry_le t (hsub t ht)
  · exact fun w hw e he => h.expiry_lt_warn w (hsub w hw) e (hsub e he)
  · exact le_trans ((List.filter_sublist _).countP_le _) h.one_warn
  · exact le_trans ((List.filter_sublist _).countP_le _) h.one_expiry
  · exact fun t ht => h.warn_guard t (hsub t ht)

/-- Scheduling a timer that is neither a warning nor an expiry timer keeps the invariant. -/
theorem InvC.add {c : Core} (h : InvC c) (k : TimerKind) (d : Nat)
    (hw : k ≠ TimerKind.warning) (he : k ≠ TimerKind.expiry) :
    InvC { c with timers := c.timers ++ [{ id := c.nextTimer, due := c.now + d, kind := k }],
                  nextTimer := c.nextTimer + 1 } := by
  refine ⟨h.installed, ?_, ?_, ?_, ?_, ?_, ?_, ?_, ?_, ?_, ?_, ?_, ?_⟩
  · simp
  · intro t ht
    simp only [List.mem_append, List.mem_singleton] at ht
    rcases ht with ht | rfl
    · have := h.id_range t ht
      simp only; omega
    · have := h.next_pos
      simp only; omega
  · simp only [List.map_append, List.map_cons, List.map_nil]
    rw [List.nodup_append]
    refine ⟨h.id_nodup, by simp, ?_⟩
    intro a ha hb
    simp only [List.mem_singleton] at hb
    obtain ⟨t, ht, rfl⟩ := List.mem_map.mp ha
    have := h.id_range t ht
    omega
  · intro t ht hk
    simp only [List.mem_append, List.mem_singleton] at ht
    rcases ht with ht | rfl
    · exact h.warn_handle t ht hk
    · exact absurd hk hw
  · intro t ht hs
    simp only [List.mem_append, List.mem_singleton] at ht
    rcases ht with ht | rfl
    · exact h.handle_warn t ht hs
    · have := h.handle_lt _ hs
      simp at this
  · intro i hi
    have := h.handle_lt i hi
    simp only; omega
  · intro t ht
    simp only [List.mem_append, List.mem_singleton] at ht
    rcases ht with ht | rfl
    · exact h.due_ge t ht
    · simp
  · intro t ht hk
    simp only [List.mem_append, List.mem_singleton] at ht
    rcases ht with ht | rfl
    · exact h.expiry_le t ht hk
    · exact absurd hk he
  · intro w hw1 e he1 hkw hke
    simp only [List.mem_append, List.mem_singleton] at hw1 he1
    rcases hw1 with hw1 | rfl
    · rcases he1 with he1 | rfl
      · exact h.expiry_lt_warn w hw1 e he1 hkw hke
      · exact absurd hke he
    · exact absurd hkw hw
  · have : Timer.isWarning { id := c.nextTimer, due := c.now + d, kind := k } = false := by
      simpa [Timer.isWarning] using hw
    simpa [List.countP_append, List.countP_cons, this] using h.one_warn
  · have : Timer.isExpiry { id := c.nextTimer, due := c.now + d, kind := k } = false := by
      simpa [Timer.isExpiry] using he
    simpa [List.countP_append, List.countP_cons, this] using h.one_expiry
  · intro t ht hk
    simp only [List.mem_append, List.mem_singleton] at ht
    rcases ht with ht | rfl
    · exact h.warn_guard t ht hk
    · exact absurd hk hw

/-- Clearing the flag `warningShown` keeps the invariant. -/
theorem InvC.clearShown {c : Core} (h : InvC c) : InvC { c with warningShown := false } :=
  ⟨h.installed, h.next_pos, h.id_range, h.id_nodup, h.warn_handle, h.handle_warn, h.handle_lt,
    h.due_ge, h.expiry_le, h.expiry_lt_warn, h.one_warn, h.one_expiry, fun _ _ _ => rfl⟩

/-- Letting time pass up to the next due time keeps the invariant. -/
theorem InvC.advance {c : Core} (h : InvC c) (d : Nat) (hd : ∀ t ∈ c.timers, c.now + d ≤ t.due) :
    InvC { c with now := c.now + d } := by
  refine ⟨h.installed, h.next_pos, h.id_range, h.id_nodup, h.warn_handle, h.handle_warn,
    h.handle_lt, hd, ?_, h.expiry_lt_warn, h.one_warn, h.one_expiry, h.warn_guard⟩
  intro t ht hk
  have := h.expiry_le t ht hk
  simp only; omega

/-- Scheduling the warning timer, when none is pending, keeps the invariant. -/
theorem InvC.addWarning {c : Core} (h : InvC c) (hno : ∀ t ∈ c.timers, t.kind ≠ TimerKind.warning) :
    InvC { c with timers := c.timers ++
                    [{ id := c.nextTimer, due := c.now + SESSION_WARNING_TIME, kind := TimerKind.warning }],
                  nextTimer := c.nextTimer + 1,
                  sessionTimeout := some c.nextTimer,
                  warningShown := false } := by
  refine ⟨h.installed, ?_, ?_, ?_, ?_, ?_, ?_, ?_, ?_, ?_, ?_, ?_, fun _ _ _ => rfl⟩
  · simp
  · intro t ht
    simp only [List.mem_append, List.mem_singleton] at ht
    rcases ht with ht | rfl
    · have := h.id_range t ht
      simp only; omega
    · have := h.next_pos
      simp only; omega
  · simp only [List.map_append, List.map_cons, List.map_nil]
    rw [List.nodup_append]
    refine ⟨h.id_nodup, by simp, ?_⟩
    intro a ha hb
    simp only [List.mem_singleton] at hb
    obtain ⟨t, ht, rfl⟩ := List.mem_map.mp ha
    have := h.id_range t ht
    omega
  · intro t ht hk
    simp only [List.mem_append, List.mem_singleton] at ht
    rcases ht with ht | rfl
    · exact absurd hk (hno t ht)
    · rfl
  · intro t ht hs
    simp only [List.mem_append, List.mem_singleton] at ht
    rcases ht with ht | rfl
    · have := h.id_range t ht
      simp only [Option.some.injEq] at hs
      omega
    · rfl
  · intro i hi
    simp only [Option.some.injEq] at hi
    simp only; omega
  · intro t ht
    simp only [List.mem_append, List.mem_singleton] at ht
    rcases ht with ht | rfl
    · exact h.due_ge t ht
    · simp
  · intro t ht hk
    simp only [List.mem_append, List.mem_singleton] at ht
    rcases ht with ht | rfl
    · exact h.expiry_le t ht hk
    · simp at hk
  · intro w hw1 e he1 hkw hke
    simp only [List.mem_append, List.mem_singleton] at hw1 he1
    rcases hw1 with hw1 | rfl
    · exact absurd hkw (hno w hw1)
    · rcases he1 with he1 | rfl
      · have := h.expiry_le e he1 hke
        simp only [SESSION_WARNING_TIME, FINAL_TIMEOUT_DELAY] at this ⊢
        omega
      · simp at hke
  · have h0 : c.timers.countP Timer.isWarning = 0 := by
      rw [List.countP_eq_zero]
      intro t ht
      simpa [Timer.isWarning] using hno t ht
    simp [List.countP_append, List.countP_cons, h0, Timer.isWarning]
  · simpa [List.countP_append, List.countP_cons, Timer.isExpiry] using h.one_expiry

/-- Scheduling the hard-expiry timer, when neither a warning nor an expiry timer is
pending, keeps the invariant. -/
theorem InvC.addExpiry {c : Core} (h : InvC c)
    (hnow : ∀ t ∈ c.timers, t.kind ≠ TimerKind.warning)
    (hnoe : ∀ t ∈ c.timers, t.kind ≠ TimerKind.expiry) :
    InvC { c with timers := c.timers ++
                    [{ id := c.nextTimer, due := c.now + FINAL_TIMEOUT_DELAY, kind := TimerKind.expiry }],
                  nextTimer := c.nextTimer + 1,
                  warningShown := true } := by
  refine ⟨h.installed, ?_, ?_, ?_, ?_, ?_, ?_, ?_, ?_, ?_, ?_, ?_, ?_⟩
  · simp
  · intro t ht
    simp only [List.mem_append, List.mem_singleton] at ht
    rcases ht with ht | rfl
    · have := h.id_range t ht
      simp only; omega
    · have := h.next_pos
      simp only; omega
  · simp only [List.map_append, List.map_cons, List.map_nil]
    rw [List.nodup_append]
    refine ⟨h.id_nodup, by simp, ?_⟩
    intro a ha hb
    simp only [List.mem_singleton] at hb
    obtain ⟨t, ht, rfl⟩ := List.mem_map.mp ha
    have := h.id_range t ht
    omega
  · intro t ht hk
    simp only [List.mem_append, List.mem_singleton] at ht
    rcases ht with ht | rfl
    · exact absurd hk (hnow t ht)
    · simp at hk
  · intro t ht hs
    simp only [List.mem_append, List.mem_singleton] at ht
    rcases ht with ht | rfl
    · exact h.handle_warn t ht hs
    · have := h.handle_lt _ hs
      simp at this
  · intro i hi
    have := h.handle_lt i hi
    simp only; omega
  · intro t ht
    simp only [List.mem_append, List.mem_singleton] at ht
    rcases ht with ht | rfl
    · exact h.due_ge t ht
    · simp
  · intro t ht hk
    simp only [List.mem_append, List.mem_singleton] at ht
    rcases ht with ht | rfl
    · exact absurd hk (hnoe t ht)
    · simp
  · intro w hw1 e he1 hkw hke
    simp only [List.mem_append, List.mem_singleton] at hw1 he1
    rcases hw1 with hw1 | rfl
    · exact absurd hkw (hnow w hw1)
    · simp at hkw
  · simpa [List.countP_append, List.countP_cons, Timer.isWarning] using h.one_warn
  · have h0 : c.timers.countP Timer.isExpiry = 0 := by
      rw [List.countP_eq_zero]
      intro t ht
      simpa [Timer.isExpiry] using hnoe t ht
    simp [List.countP_append, List.countP_cons, h0, Timer.isExpiry]
  · intro t ht hk
    simp only [List.mem_append, List.mem_singleton] at ht
    rcases ht with ht | rfl
    · exact absurd hk (hnow t ht)
    · simp at hk

/-- A notification keeps the invariant. -/
theorem inv_showNotification {s : Page} (h : Inv s) (m ty : String) (d n : Nat) :
    Inv (showNotification s m ty d n) :=
  (InvC.add (InvC.add h (TimerKind.toastShow s.nextToast) 100 (by simp) (by simp))
    (TimerKind.toastRemove s.nextToast) d (by simp) (by simp))

/-- The hard-expiry handler keeps the invariant. -/
theorem inv_handleSessionExpiry {s : Page} (h : Inv s) : Inv (handleSessionExpiry s) :=
  InvC.add (inv_showNotification (s := { s with currentUser := JsValue.null }) h _ _ _ _)
    TimerKind.redirect REDIRECT_DELAY (by simp) (by simp)

/-- A refresh request keeps the invariant. -/
theorem inv_refreshAuthStatus {s : Page} (h : Inv s) : Inv (refreshAuthStatus s) := by
  unfold refreshAuthStatus
  split
  · exact h
  · exact h

/-- After the handle `sessionTimeout` is cleared no warning timer is pending. -/
theorem no_warning_after_clear {s : Page} (h : Inv s) :
    ∀ t ∈ (match s.sessionTimeout with
      | some id => if handleTruthy (some id) then clearTimeout s id else s
      | none => s).timers, t.kind ≠ TimerKind.warning := by
  intro t ht hk
  cases hs : s.sessionTimeout with
  | none =>
    rw [hs] at ht
    have := h.warn_handle t ht hk
    simp [Page.core, hs] at this
  | some id =>
    rw [hs] at ht
    by_cases hid : handleTruthy (some id) = true
    · simp only [hid, if_true, clearTimeout, List.mem_filter] at ht
      have := h.warn_handle t ht.1 hk
      simp only [Page.core, hs, Option.some.injEq] at this
      simp [this] at ht
    · simp only [hid] at ht
      have h1 := h.warn_handle t ht hk
      have h2 := h.id_range t ht
      simp only [Page.core, hs, Option.some.injEq] at h1
      simp only [handleTruthy, bne_iff_ne, ne_eq, not_not] at hid
      omega

/-- Cancelling the handle `sessionTimeout` keeps the invariant. -/
theorem inv_clearHandle {s : Page} (h : Inv s) :
    Inv (match s.sessionTimeout with
      | some id => if handleTruthy (some id) then clearTimeout s id else s
      | none => s) := by
  cases hs : s.sessionTimeout with
  | none => exact h
  | some id =>
    by_cases hid : handleTruthy (some id) = true
    · simp only [hid, if_true]
      exact InvC.filter h _
    · simp only [hid]
      exact h

/-- An activity event keeps the invariant. -/
theorem inv_resetActivity {s : Page} (h : Inv s) : Inv (resetActivity s) := by
  have h1 := inv_clearHandle h
  have h2 := no_warning_after_clear h
  unfold resetActivity
  simp only
  split
  · exact InvC.addWarning h1 h2
  · exact InvC.clearShown h1

/-- A timer found by its handle is pending and carries that handle. -/
theorem find_timer {l : List Timer} {id : Nat} {t : Timer}
    (h : l.find? (fun t => t.id == id) = some t) : t ∈ l ∧ t.id = id := by
  refine ⟨List.mem_of_find?_eq_some h, ?_⟩
  have := List.find?_some h
  simpa using this

/-- The callback of a warning timer that fires when due keeps the invariant. -/
theorem inv_fire_warning {s : Page} (h : Inv s) {t : Timer} (ht : t ∈ s.timers)
    (hk : t.kind = TimerKind.warning) (hdue : t.due ≤ s.now) (answer : Bool) :
    Inv (warningCallback { s with timers := s.timers.filter (fun x => x.id != t.id) } answer) := by
  have hf : Inv { s with timers := s.timers.filter (fun x => x.id != t.id) } := InvC.filter h _
  have hnow : ∀ w ∈ s.timers.filter (fun x => x.id != t.id), w.kind ≠ TimerKind.warning := by
    intro w hw hkw
    rw [List.mem_filter] at hw
    have h1 := h.warn_handle w hw.1 hkw
    have h2 := h.warn_handle t ht hk
    rw [h1] at h2
    simp only [Option.some.injEq] at h2
    simp [h2] at hw
  have hnoe : ∀ e ∈ s.timers.filter (fun x => x.id != t.id), e.kind ≠ TimerKind.expiry := by
    intro e he hke
    rw [List.mem_filter] at he
    have h1 := h.expiry_lt_warn t ht e he.1 hk hke
    have h2 := h.due_ge e he.1
    simp only [Page.core] at h2
    omega
  unfold warningCallback
  split
  · cases answer
    · exact InvC.addExpiry hf hnow hnoe
    · simp only [showSessionWarning, if_true]
      unfold ExamSeating.refreshAuthStatus
      split
      · exact InvC.addExpiry hf hnow hnoe
      · exact InvC.addExpiry hf hnow hnoe
  · exact hf

/-- Handling the answer to a status request keeps the invariant. -/
theorem inv_onStatusResult {s : Page} (h : Inv s) (r : FetchResult StatusData) :
    Inv (onStatusResult s r) := by
  cases r with
  | rejected => exact h
  | invalidBody => exact h
  | json data =>
    simp only [onStatusResult]
    split
    · unfold startSessionTimeout
      split
      · exact inv_resetActivity (s := { s with currentUser := data.user }) h
      · exact h
    · exact h

/-- Handling the answer to a refresh request keeps the invariant. -/
theorem inv_onRefreshResult {s : Page} (h : Inv s) (r : FetchResult RefreshData) :
    Inv (onRefreshResult s r) := by
  cases r with
  | rejected => exact h
  | invalidBody => exact h
  | json data =>
    simp only [onRefreshResult]
    split
    · split
      · exact inv_resetActivity h
      · exact h
    · exact inv_handleSessionExpiry h

/-- A step happens in a loaded document. -/
theorem step_some {s s1 : Page} {e : Event} (h : step s e = some s1) :
    handle s e = some s1 ∧ s.unloaded = false := by
  unfold step at h
  split at h
  · exact absurd h (by simp)
  · rename_i hl
    exact ⟨h, by simpa using hl⟩

/-- In a loaded document a step is the handling of the event. -/
theorem step_loaded {s : Page} (hl : s.unloaded = false) (e : Event) : step s e = handle s e := by
  simp [step, hl]

/-- Every step of the event loop keeps the invariant. -/
theorem inv_step {s s1 : Page} (h : Inv s) (e : Event) (hs : step s e = some s1) : Inv s1 := by
  replace hs := (step_some hs).1
  cases e with
  | activity =>
    simp only [handle, Option.some.injEq] at hs
    subst hs
    split
    · exact inv_resetActivity h
    · exact h
  | visibility hidden =>
    simp only [handle, Option.some.injEq] at hs
    subst hs
    split
    · exact inv_refreshAuthStatus h
    · exact h
  | online =>
    simp only [handle, Option.some.injEq] at hs
    subst hs
    split
    · exact inv_showNotification h _ _ _ _
    · exact h
  | offline =>
    simp only [handle, Option.some.injEq] at hs
    subst hs
    split
    · exact inv_showNotification h _ _ _ _
    · exact h
  | notify m ty d n =>
    simp only [handle, Option.some.injEq] at hs
    subst hs
    exact inv_showNotification h _ _ _ _
  | closeToast i =>
    simp only [handle, Option.some.injEq] at hs
    subst hs
    exact h
  | statusResult r =>
    simp only [handle] at hs
    split at hs
    · exact absurd hs (by simp)
    · simp only [Option.some.injEq] at hs
      subst hs
      exact inv_onStatusResult (s := { s with pendingStatus := s.pendingStatus - 1 }) h r
  | refreshResult r =>
    simp only [handle] at hs
    split at hs
    · exact absurd hs (by simp)
    · simp only [Option.some.injEq] at hs
      subst hs
      exact inv_onRefreshResult (s := { s with pendingRefresh := s.pendingRefresh - 1 }) h r
  | advance d =>
    simp only [handle] at hs
    split at hs
    · rename_i hall
      simp only [Option.some.injEq] at hs
      subst hs
      refine InvC.advance h d ?_
      intro t ht
      have := List.all_eq_true.mp hall t ht
      simpa using this
    · exact absurd hs (by simp)
  | unload =>
    simp only [handle] at hs
    split at hs
    · simp only [Option.some.injEq] at hs
      subst hs
      exact h
    · exact absurd hs (by simp)
  | fire id answer =>
    simp only [handle] at hs
    split at hs
    · exact absurd hs (by simp)
    · rename_i t hfind
      obtain ⟨hmem, hid⟩ := find_timer hfind
      split at hs
      · rename_i hdue
        simp only [Option.some.injEq] at hs
        subst hs
        subst hid
        have hf : Inv { s with timers := s.timers.filter (fun x => x.id != t.id) } :=
          InvC.filter h _
        cases hk : t.kind with
        | warning =>
          simp only [runTimer, hk]
          exact inv_fire_warning h hmem hk hdue answer
        | expiry =>
          simp only [runTimer, hk]
          exact inv_handleSessionExpiry hf
        | redirect =>
          simp only [runTimer, hk]
          exact hf
        | toastShow i =>
          simp only [runTimer, hk]
          exact hf
        | toastRemove i =>
          simp only [runTimer, hk]
          exact hf
      · exact absurd hs (by simp)

/-- Every run of the event loop keeps the invariant. -/
theorem inv_run {es : List Event} : ∀ {s s1 : Page}, Inv s → run s es = some s1 → Inv s1 := by
  induction es with
  | nil =>
    intro s s1 h hr
    simp only [run, Option.some.injEq] at hr
    exact hr ▸ h
  | cons e es ih =>
    intro s s1 h hr
    simp only [run] at hr
    cases hs : step s e with
    | none => simp [hs] at hr
    | some s2 =>
      simp only [hs] at hr
      exact ih (inv_step h e hs) hr

/-- The invariant holds at page load. -/
theorem inv_pageLoad (pathname : String) (t0 : Nat) : Inv (pageLoad pathname t0) := by
  refine ⟨rfl, by simp [pageLoad, domContentLoaded, checkAuthStatus, setupGlobalEventListeners,
      initializeApp, initializeSessionManagement, scriptLoaded, Page.core], ?_, ?_, ?_, ?_, ?_, ?_, ?_, ?_, ?_, ?_, ?_⟩ <;>
    simp [pageLoad, domContentLoaded, checkAuthStatus, setupGlobalEventListeners,
      initializeApp, initializeSessionManagement, scriptLoaded, Page.core]

/-- The invariant holds in every reachable state. -/
theorem inv_of_reachable {s : Page} (h : Reachable s) : Inv s := by
  obtain ⟨pathname, t0, es, hr⟩ := h
  exact inv_run (inv_pageLoad pathname t0) hr

/-! ## Which timers stay pending -/

theorem mem_showNotification {s : Page} {x : Timer} (hx : x ∈ s.timers) (m ty : String)
    (d n : Nat) : x ∈ (showNotification s m ty d n).timers := by
  simp [showNotification, setTimeout, hx]

theorem mem_handleSessionExpiry {s : Page} {x : Timer} (hx : x ∈ s.timers) :
    x ∈ (handleSessionExpiry s).timers := by
  simp [handleSessionExpiry, showNotification, setTimeout, hx]

theorem timers_refreshAuthStatus (s : Page) : (refreshAuthStatus s).timers = s.timers := by
  unfold refreshAuthStatus
  split <;> rfl

theorem mem_warningCallback {s : Page} {x : Timer} (hx : x ∈ s.timers) (answer : Bool) :
    x ∈ (warningCallback s answer).timers := by
  unfold warningCallback
  split
  · cases answer <;>
      simp [showSessionWarning, setTimeout, timers_refreshAuthStatus, hx]
  · exact hx

/-- Function `resetActivity` cancels no timer other than a warning timer. -/
theorem mem_resetActivity {s : Page} (h : Inv s) {x : Timer} (hx : x ∈ s.timers)
    (hk : x.kind ≠ TimerKind.warning) : x ∈ (resetActivity s).timers := by
  have h1 : x ∈ (match s.sessionTimeout with
      | some id => if handleTruthy (some id) then clearTimeout s id else s
      | none => s).timers := by
    cases hs : s.sessionTimeout with
    | none => exact hx
    | some id =>
      by_cases hid : handleTruthy (some id) = true
      · simp only [hid, if_true, clearTimeout, List.mem_filter]
        refine ⟨hx, ?_⟩
        have : x.id ≠ id := by
          intro he
          exact hk (h.handle_warn x hx (by simp [Page.core, hs, he]))
        simpa using this
      · simp only [hid]
        exact hx
  unfold resetActivity
  simp only
  split
  · simp [setTimeout, h1]
  · exact h1

theorem mem_onStatusResult {s : Page} (h : Inv s) {x : Timer} (hx : x ∈ s.timers)
    (hk : x.kind ≠ TimerKind.warning) (r : FetchResult StatusData) :
    x ∈ (onStatusResult s r).timers := by
  cases r with
  | rejected => exact hx
  | invalidBody => exact hx
  | json data =>
    simp only [onStatusResult]
    split
    · unfold startSessionTimeout
      split
      · exact mem_resetActivity (s := { s with currentUser := data.user }) h hx hk
      · exact hx
    · exact hx

theorem mem_onRefreshResult {s : Page} (h : Inv s) {x : Timer} (hx : x ∈ s.timers)
    (hk : x.kind ≠ TimerKind.warning) (r : FetchResult RefreshData) :
    x ∈ (onRefreshResult s r).timers := by
  cases r with
  | rejected => exact hx
  | invalidBody => exact hx
  | json data =>
    simp only [onRefreshResult]
    split
    · split
      · exact mem_resetActivity h hx hk
      · exact hx
    · exact mem_handleSessionExpiry hx

theorem mem_runTimer {s : Page} {x : Timer} (hx : x ∈ s.timers) (t : Timer) (answer : Bool) :
    x ∈ (runTimer s t answer).timers := by
  cases hk : t.kind with
  | warning => simp only [runTimer, hk]; exact mem_warningCallback hx answer
  | expiry => simp only [runTimer, hk]; exact mem_handleSessionExpiry hx
  | redirect => simp only [runTimer, hk]; exact hx
  | toastShow i => simp only [runTimer, hk]; exact hx
  | toastRemove i => simp only [runTimer, hk]; exact hx

/-- A pending timer that is not a warning timer stays pending through every
step of the event loop except its own firing. -/
theorem step_keeps {s s1 : Page} (h : Inv s) {x : Timer} (hx : x ∈ s.timers)
    (hk : x.kind ≠ TimerKind.warning) (e : Event) (hne : e.fires x.id = false)
    (hs : step s e = some s1) : x ∈ s1.timers := by
  replace hs := (step_some hs).1
  cases e with
  | activity =>
    simp only [handle, Option.some.injEq] at hs
    subst hs
    split
    · exact mem_resetActivity h hx hk
    · exact hx
  | visibility hidden =>
    simp only [handle, Option.some.injEq] at hs
    subst hs
    split
    · rw [timers_refreshAuthStatus]; exact hx
    · exact hx
  | online =>
    simp only [handle, Option.some.injEq] at hs
    subst hs
    split
    · exact mem_showNotification hx _ _ _ _
    · exact hx
  | offline =>
    simp only [handle, Option.some.injEq] at hs
    subst hs
    split
    · exact mem_showNotification hx _ _ _ _
    · exact hx
  | notify m ty d n =>
    simp only [handle, Option.some.injEq] at hs
    subst hs
    exact mem_showNotification hx _ _ _ _
  | closeToast i =>
    simp only [handle, Option.some.injEq] at hs
    subst hs
    exact hx
  | statusResult r =>
    simp only [handle] at hs
    split at hs
    · exact absurd hs (by simp)
    · simp only [Option.some.injEq] at hs
      subst hs
      exact mem_onStatusResult (s := { s with pendingStatus := s.pendingStatus - 1 }) h hx hk r
  | refreshResult r =>
    simp only [handle] at hs
    split at hs
    · exact absurd hs (by simp)
    · simp only [Option.some.injEq] at hs
      subst hs
      exact mem_onRefreshResult (s := { s with pendingRefresh := s.pendingRefresh - 1 }) h hx hk r
  | advance d =>
    simp only [handle] at hs
    split at hs
    · simp only [Option.some.injEq] at hs
      subst hs
      exact hx
    · exact absurd hs (by simp)
  | unload =>
    simp only [handle] at hs
    split at hs
    · simp only [Option.some.injEq] at hs
      subst hs
      exact hx
    · exact absurd hs (by simp)
  | fire id answer =>
    simp only [handle] at hs
    split at hs
    · exact absurd hs (by simp)
    · rename_i t hfind
      split at hs
      · simp only [Option.some.injEq] at hs
        subst hs
        apply mem_runTimer
        simp only [List.mem_filter]
        refine ⟨hx, ?_⟩
        simp only [Event.fires, beq_eq_false_iff_ne, ne_eq] at hne
        simp only [bne_iff_ne, ne_eq]
        exact fun he => hne he.symm
      · exact absurd hs (by simp)

/-! ## Session timers: C1, C2, C3 -/

theorem warnedPage_reachable : Reachable warnedPage :=
  ⟨"/student/dashboard.html", 0, warnedEvents, by decide⟩

/-- C1: in every state reachable from page load by any interleaving of activity
events, auth-status results, refresh results and timer firings (timers firing
at their due time), at most one warning timer and at most one hard-expiry
timer are pending. -/
theorem C1_at_most_one_timer_pair (s : Page) (h : Reachable s) :
    pendingWarnings s ≤ 1 ∧ pendingExpiries s ≤ 1 :=
  ⟨(inv_of_reachable h).one_warn, (inv_of_reachable h).one_expiry⟩

theorem C1_at_most_one_timer_pair_witness :
    Reachable warnedPage ∧ pendingWarnings warnedPage ≤ 1 ∧ pendingExpiries warnedPage ≤ 1 :=
  ⟨warnedPage_reachable, C1_at_most_one_timer_pair warnedPage warnedPage_reachable⟩

/-- C2 as stated fails: in the reachable state `warnedPage` the hard-expiry timer
(handle 2, due at 30 minutes) is pending, and it is still pending after
`resetActivity`. -/
theorem C2_expiry_not_cancelled :
    ¬ (∀ s : Page, Reachable s → ∀ t ∈ s.timers, t.kind = TimerKind.expiry →
        t ∉ (resetActivity s).timers) := by
  intro hall
  exact hall warnedPage warnedPage_reachable { id := 2, due := 1800000, kind := TimerKind.expiry }
    (by decide) rfl (by decide)

/-- The warning timers pending after `resetActivity`. -/
theorem warnings_resetActivity {s : Page} (h : Inv s) :
    (resetActivity s).timers.filter Timer.isWarning =
      if s.currentUser.truthy then
        [{ id := s.nextTimer, due := s.now + SESSION_WARNING_TIME, kind := TimerKind.warning }]
      else [] := by
  have h2 := no_warning_after_clear h
  have h0 : ∀ l : List Timer, (∀ t ∈ l, t.kind ≠ TimerKind.warning) → l.filter Timer.isWarning = [] := by
    intro l hl
    rw [List.filter_eq_nil_iff]
    intro t ht
    simpa [Timer.isWarning] using hl t ht
  have hnext : (match s.sessionTimeout with
      | some id => if handleTruthy (some id) then clearTimeout s id else s
      | none => s).nextTimer = s.nextTimer := by
    cases s.sessionTimeout with
    | none => rfl
    | some id => simp only; split <;> rfl
  have hnow : (match s.sessionTimeout with
      | some id => if handleTruthy (some id) then clearTimeout s id else s
      | none => s).now = s.now := by
    cases s.sessionTimeout with
    | none => rfl
    | some id => simp only; split <;> rfl
  have huser : (match s.sessionTimeout with
      | some id => if handleTruthy (some id) then clearTimeout s id else s
      | none => s).currentUser = s.currentUser := by
    cases s.sessionTimeout with
    | none => rfl
    | some id => simp only; split <;> rfl
  unfold resetActivity
  simp only [huser]
  split
  · simp only [setTimeout, List.filter_append, h0 _ h2, List.nil_append, hnext, hnow]
    simp [Timer.isWarning]
  · exact h0 _ h2

/-- C2, amended: for every call of `resetActivity` in a reachable state, every
hard-expiry timer that was pending before the call is still pending after it;
an activity event cancels only the pending warning timer: a timer pending
before the call is still pending after it exactly when it is not a warning
timer. -/
theorem C2_resetActivity_keeps_expiry (s : Page) (h : Reachable s) (t : Timer)
    (ht : t ∈ s.timers) :
    (t.kind = TimerKind.expiry → t ∈ (resetActivity s).timers) ∧
    (t ∈ (resetActivity s).timers ↔ t.kind ≠ TimerKind.warning) := by
  have hinv := inv_of_reachable h
  refine ⟨fun hk => mem_resetActivity hinv ht (by simp [hk]), ?_, mem_resetActivity hinv ht⟩
  intro hmem hk
  have hin : t ∈ (resetActivity s).timers.filter Timer.isWarning :=
    List.mem_filter.mpr ⟨hmem, by simp [Timer.isWarning, hk]⟩
  rw [warnings_resetActivity hinv] at hin
  split at hin
  · simp only [List.mem_singleton] at hin
    have := (hinv.id_range t ht).2
    rw [hin] at this
    simp [Page.core] at this
  · simp at hin

theorem C2_resetActivity_keeps_expiry_witness :
    Reachable warnedPage ∧
    ({ id := 2, due := 1800000, kind := TimerKind.expiry } : Timer) ∈ warnedPage.timers ∧
    ({ id := 2, due := 1800000, kind := TimerKind.expiry } : Timer) ∈ (resetActivity warnedPage).timers :=
  ⟨warnedPage_reachable, by decide,
    (C2_resetActivity_keeps_expiry warnedPage warnedPage_reachable _ (by decide)).1 rfl⟩

/-- C3: for every reachable state, after `resetActivity` the flag `warningShown`
is false, every warning timer pending before is cancelled, and: if
`currentUser` is set (truthy) exactly one warning timer is pending, due exactly
25 minutes (1,500,000 ms) after the call; otherwise no warning timer is pending. -/
theorem C3_resetActivity_warning_timer (s : Page) (h : Reachable s) :
    (resetActivity s).warningShown = false ∧
    (∀ t ∈ s.timers, t.kind = TimerKind.warning → t ∉ (resetActivity s).timers) ∧
    (s.currentUser.truthy = true →
      (resetActivity s).timers.filter Timer.isWarning =
        [{ id := s.nextTimer, due := s.now + 1500000, kind := TimerKind.warning }] ∧
      pendingWarnings (resetActivity s) = 1) ∧
    (s.currentUser.truthy = false →
      (resetActivity s).timers.filter Timer.isWarning = [] ∧
      pendingWarnings (resetActivity s) = 0) := by
  have hinv := inv_of_reachable h
  have hw := warnings_resetActivity hinv
  refine ⟨?_, ?_, ?_, ?_⟩
  · unfold resetActivity
    simp only
    split <;> rfl
  · intro t ht hk hmem
    have hin : t ∈ (resetActivity s).timers.filter Timer.isWarning :=
      List.mem_filter.mpr ⟨hmem, by simp [Timer.isWarning, hk]⟩
    rw [hw] at hin
    split at hin
    · simp only [List.mem_singleton] at hin
      have := (hinv.id_range t ht).2
      rw [hin] at this
      simp [Page.core] at this
    · simp at hin
  · intro hu
    have hw1 : (resetActivity s).timers.filter Timer.isWarning =
        [{ id := s.nextTimer, due := s.now + 1500000, kind := TimerKind.warning }] := by
      rw [hw, hu]; rfl
    refine ⟨hw1, ?_⟩
    rw [pendingWarnings, List.countP_eq_length_filter, hw1]; rfl
  · intro hu
    have hw1 : (resetActivity s).timers.filter Timer.isWarning = [] := by
      rw [hw, hu]; rfl
    refine ⟨hw1, ?_⟩
    rw [pendingWarnings, List.countP_eq_length_filter, hw1]; rfl

theorem C3_resetActivity_warning_timer_witness :
    Reachable warnedPage ∧
    (resetActivity warnedPage).warningShown = false ∧
    (resetActivity warnedPage).timers.filter Timer.isWarning =
      [{ id := 4, due := 3000000, kind := TimerKind.warning }] :=
  ⟨warnedPage_reachable,
    (C3_resetActivity_warning_timer warnedPage warnedPage_reachable).1,
    ((C3_resetActivity_warning_timer warnedPage warnedPage_reachable).2.2.1 rfl).1⟩

/-! ## Frame lemmas -/

theorem frame_refreshAuthStatus (s : Page) :
    (refreshAuthStatus s).currentUser = s.currentUser ∧
    (refreshAuthStatus s).pendingStatus = s.pendingStatus ∧
    (refreshAuthStatus s).prompts = s.prompts ∧
    (refreshAuthStatus s).now = s.now ∧
    (refreshAuthStatus s).warningShown = s.warningShown := by
  unfold refreshAuthStatus
  split <;> exact ⟨rfl, rfl, rfl, rfl, rfl⟩

theorem frame_resetActivity (s : Page) :
    (resetActivity s).currentUser = s.currentUser ∧
    (resetActivity s).pendingStatus = s.pendingStatus ∧
    (resetActivity s).prompts = s.prompts ∧
    (resetActivity s).now = s.now := by
  unfold resetActivity
  cases s.sessionTimeout with
  | none =>
    simp only
    split <;> exact ⟨rfl, rfl, rfl, rfl⟩
  | some id =>
    simp only
    split <;> split <;> exact ⟨rfl, rfl, rfl, rfl⟩

theorem frame_handleSessionExpiry (s : Page) :
    (handleSessionExpiry s).currentUser = JsValue.null ∧
    (handleSessionExpiry s).pendingStatus = s.pendingStatus ∧
    (handleSessionExpiry s).prompts = s.prompts ∧
    (handleSessionExpiry s).now = s.now :=
  ⟨rfl, rfl, rfl, rfl⟩

theorem frame_warningCallback (s : Page) (answer : Bool) :
    (warningCallback s answer).currentUser = s.currentUser ∧
    (warningCallback s answer).pendingStatus = s.pendingStatus ∧
    (warningCallback s answer).now = s.now := by
  unfold warningCallback
  split
  · cases answer
    · exact ⟨rfl, rfl, rfl⟩
    · have h := frame_refreshAuthStatus { s with prompts := s.prompts ++ [s.now] }
      simp only [showSessionWarning, if_true, setTimeout]
      exact ⟨h.1, h.2.1, h.2.2.2.1⟩
  · exact ⟨rfl, rfl, rfl⟩

theorem frame_onRefreshResult (s : Page) (r : FetchResult RefreshData) :
    ((onRefreshResult s r).currentUser = s.currentUser ∨
      (onRefreshResult s r).currentUser = JsValue.null) ∧
    (onRefreshResult s r).pendingStatus = s.pendingStatus := by
  cases r with
  | rejected => exact ⟨Or.inl rfl, rfl⟩
  | invalidBody => exact ⟨Or.inl rfl, rfl⟩
  | json data =>
    simp only [onRefreshResult]
    split
    · split
      · exact ⟨Or.inl (frame_resetActivity s).1, (frame_resetActivity s).2.1⟩
      · exact ⟨Or.inl rfl, rfl⟩
    · exact ⟨Or.inr rfl, rfl⟩

theorem frame_onStatusResult (s : Page) (r : FetchResult StatusData) :
    (onStatusResult s r).pendingStatus = s.pendingStatus := by
  cases r with
  | rejected => rfl
  | invalidBody => rfl
  | json data =>
    simp only [onStatusResult]
    split
    · unfold startSessionTimeout
      split
      · exact (frame_resetActivity _).2.1
      · rfl
    · rfl

theorem frame_runTimer (s : Page) (t : Timer) (answer : Bool) :
    ((runTimer s t answer).currentUser = s.currentUser ∨
      (runTimer s t answer).currentUser = JsValue.null) ∧
    (runTimer s t answer).pendingStatus = s.pendingStatus ∧
    (runTimer s t answer).now = s.now := by
  cases hk : t.kind with
  | warning =>
    simp only [runTimer, hk]
    exact ⟨Or.inl (frame_warningCallback s answer).1, (frame_warningCallback s answer).2⟩
  | expiry => simp only [runTimer, hk]; exact ⟨Or.inr rfl, rfl, rfl⟩
  | redirect => simp only [runTimer, hk]; exact ⟨Or.inl rfl, rfl, rfl⟩
  | toastShow i => simp [runTimer, hk]
  | toastRemove i => simp [runTimer, hk]

/-- What a step does to the pending status request and to `currentUser`: apart
from the answer to the status request, a step leaves both or signs the user out. -/
theorem frame_step {s s1 : Page} (e : Event) (hs : step s e = some s1) :
    (s1.pendingStatus = s.pendingStatus ∧
      (s1.currentUser = s.currentUser ∨ s1.currentUser = JsValue.null)) ∨
    (s1.pendingStatus + 1 = s.pendingStatus ∧ ∃ r, e = Event.statusResult r) := by
  replace hs := (step_some hs).1
  cases e with
  | activity =>
    simp only [handle, Option.some.injEq] at hs
    subst hs
    split
    · exact Or.inl ⟨(frame_resetActivity s).2.1, Or.inl (frame_resetActivity s).1⟩
    · exact Or.inl ⟨rfl, Or.inl rfl⟩
  | visibility hidden =>
    simp only [handle, Option.some.injEq] at hs
    subst hs
    split
    · exact Or.inl ⟨(frame_refreshAuthStatus s).2.1, Or.inl (frame_refreshAuthStatus s).1⟩
    · exact Or.inl ⟨rfl, Or.inl rfl⟩
  | online =>
    simp only [handle, Option.some.injEq] at hs
    subst hs
    split <;> exact Or.inl ⟨rfl, Or.inl rfl⟩
  | offline =>
    simp only [handle, Option.some.injEq] at hs
    subst hs
    split <;> exact Or.inl ⟨rfl, Or.inl rfl⟩
  | notify m ty d n =>
    simp only [handle, Option.some.injEq] at hs
    subst hs
    exact Or.inl ⟨rfl, Or.inl rfl⟩
  | closeToast i =>
    simp only [handle, Option.some.injEq] at hs
    subst hs
    exact Or.inl ⟨rfl, Or.inl rfl⟩
  | statusResult r =>
    simp only [handle] at hs
    split at hs
    · exact absurd hs (by simp)
    · rename_i hp
      simp only [Option.some.injEq] at hs
      subst hs
      refine Or.inr ⟨?_, r, rfl⟩
      rw [frame_onStatusResult]
      simp only
      omega
  | refreshResult r =>
    simp only [handle] at hs
    split at hs
    · exact absurd hs (by simp)
    · simp only [Option.some.injEq] at hs
      subst hs
      have := frame_onRefreshResult { s with pendingRefresh := s.pendingRefresh - 1 } r
      exact Or.inl ⟨this.2, this.1⟩
  | advance d =>
    simp only [handle] at hs
    split at hs
    · simp only [Option.some.injEq] at hs
      subst hs
      exact Or.inl ⟨rfl, Or.inl rfl⟩
    · exact absurd hs (by simp)
  | unload =>
    simp only [handle] at hs
    split at hs
    · simp only [Option.some.injEq] at hs
      subst hs
      exact Or.inl ⟨rfl, Or.inl rfl⟩
    · exact absurd hs (by simp)
  | fire id answer =>
    simp only [handle] at hs
    split at hs
    · exact absurd hs (by simp)
    · rename_i t hfind
      split at hs
      · simp only [Option.some.injEq] at hs
        subst hs
        have := frame_runTimer { s with timers := s.timers.filter (fun x => x.id != id) } t answer
        exact Or.inl ⟨this.2.1, this.1⟩
      · exact absurd hs (by simp)

theorem statusInv_step {s s1 : Page} (h : StatusInv s) (e : Event) (hs : step s e = some s1) :
    StatusInv s1 := by
  rcases frame_step e hs with ⟨hp, hu⟩ | ⟨hp, _⟩
  · rcases h with h0 | ⟨h1, hf⟩
    · exact Or.inl (by omega)
    · refine Or.inr ⟨by omega, ?_⟩
      rcases hu with hu | hu
      · rw [hu]; exact hf
      · rw [hu]; rfl
  · rcases h with h0 | ⟨h1, _⟩
    · omega
    · exact Or.inl (by omega)

theorem statusInv_run {es : List Event} :
    ∀ {s s1 : Page}, StatusInv s → run s es = some s1 → StatusInv s1 := by
  induction es with
  | nil =>
    intro s s1 h hr
    simp only [run, Option.some.injEq] at hr
    exact hr ▸ h
  | cons e es ih =>
    intro s s1 h hr
    simp only [run] at hr
    cases hs : step s e with
    | none => simp [hs] at hr
    | some s2 =>
      simp only [hs] at hr
      exact ih (statusInv_step h e hs) hr

/-- Once a user is signed in, no status request is in flight. -/
theorem no_status_pending {s : Page} (h : Reachable s) (hu : s.currentUser.truthy = true) :
    s.pendingStatus = 0 := by
  obtain ⟨pathname, t0, es, hr⟩ := h
  have h0 : StatusInv (pageLoad pathname t0) := Or.inr ⟨rfl, rfl⟩
  rcases statusInv_run h0 hr with h1 | ⟨_, hf⟩
  · exact h1
  · rw [hu] at hf
    exact absurd hf (by simp)

/-! ## Idle periods -/

/-- Two pending timers with the same handle are the same timer. -/
theorem timer_eq_of_id {s : Page} (h : Inv s) {a b : Timer} (ha : a ∈ s.timers)
    (hb : b ∈ s.timers) (hid : a.id = b.id) : a = b :=
  List.inj_on_of_nodup_map h.id_nodup ha hb hid

theorem nowarn_showNotification {s : Page} (h : ∀ t ∈ s.timers, t.kind ≠ TimerKind.warning)
    (m ty : String) (d n : Nat) :
    ∀ t ∈ (showNotification s m ty d n).timers, t.kind ≠ TimerKind.warning := by
  intro t ht
  simp only [showNotification, setTimeout, List.mem_append, List.mem_singleton] at ht
  rcases ht with (ht | rfl) | rfl
  · exact h t ht
  · simp
  · simp

theorem nowarn_handleSessionExpiry {s : Page} (h : ∀ t ∈ s.timers, t.kind ≠ TimerKind.warning) :
    ∀ t ∈ (handleSessionExpiry s).timers, t.kind ≠ TimerKind.warning := by
  intro t ht
  simp only [handleSessionExpiry, setTimeout, List.mem_append, List.mem_singleton] at ht
  rcases ht with ht | rfl
  · exact nowarn_showNotification (s := { s with currentUser := JsValue.null }) h _ _ _ _ t ht
  · simp

/-- A callback other than the warning callback opens no prompt and schedules no
warning timer. -/
theorem runTimer_not_warning {s : Page} {t : Timer} (hk : t.kind ≠ TimerKind.warning)
    (answer : Bool) :
    (runTimer s t answer).prompts = s.prompts ∧
    ((∀ x ∈ s.timers, x.kind ≠ TimerKind.warning) →
      ∀ x ∈ (runTimer s t answer).timers, x.kind ≠ TimerKind.warning) := by
  cases hk1 : t.kind with
  | warning => exact absurd hk1 hk
  | expiry =>
    simp only [runTimer, hk1]
    exact ⟨rfl, fun h => nowarn_handleSessionExpiry h⟩
  | redirect => simp only [runTimer, hk1]; exact ⟨rfl, fun h => h⟩
  | toastShow i => simp only [runTimer, hk1]; exact ⟨trivial, fun h => h⟩
  | toastRemove i => simp only [runTimer, hk1]; exact ⟨trivial, fun h => h⟩

/-- The warning callback with the guard `!warningShown` true: the prompt is shown
now, and the only timer added is the hard-expiry timer. -/
theorem warningCallback_open {s : Page} (hg : s.warningShown = false) (answer : Bool) :
    (warningCallback s answer).prompts = s.prompts ++ [s.now] ∧
    (warningCallback s answer).timers =
      s.timers ++ [{ id := s.nextTimer, due := s.now + FINAL_TIMEOUT_DELAY, kind := TimerKind.expiry }] := by
  unfold warningCallback
  simp only [hg, Bool.not_false, if_true]
  cases answer
  · exact ⟨rfl, rfl⟩
  · simp only [showSessionWarning, if_true, setTimeout]
    unfold ExamSeating.refreshAuthStatus
    split <;> exact ⟨rfl, rfl⟩

theorem pending_zero_step {s s1 : Page} (hp : s.pendingStatus = 0) (e : Event)
    (hs : step s e = some s1) : s1.pendingStatus = 0 := by
  rcases frame_step e hs with ⟨h, _⟩ | ⟨h, _⟩ <;> omega

/-- While the warning timer `w` is pending, a step of an idle period either
keeps it pending and opens no prompt, or is its firing: then the prompt is
opened at the due time of `w` and no warning timer is left. -/
theorem idle_step_pending {s s1 : Page} (h : Inv s) (hp : s.pendingStatus = 0) {w : Timer}
    (hw : w ∈ s.timers) (hk : w.kind = TimerKind.warning) (e : Event) (hq : e.quiet = true)
    (hs : step s e = some s1) :
    (w ∈ s1.timers ∧ s1.prompts = s.prompts) ∨
    ((∀ t ∈ s1.timers, t.kind ≠ TimerKind.warning) ∧ s1.prompts = s.prompts ++ [w.due] ∧
      s1.now = w.due) := by
  replace hs := (step_some hs).1
  cases e with
  | activity => simp [Event.quiet] at hq
  | refreshResult r => simp [Event.quiet] at hq
  | statusResult r => simp [handle, hp] at hs
  | visibility hidden =>
    simp only [handle, Option.some.injEq] at hs
    subst hs
    left
    split
    · exact ⟨by rw [timers_refreshAuthStatus]; exact hw, (frame_refreshAuthStatus s).2.2.1⟩
    · exact ⟨hw, rfl⟩
  | online =>
    simp only [handle, Option.some.injEq] at hs
    subst hs
    left
    split
    · exact ⟨mem_showNotification hw _ _ _ _, rfl⟩
    · exact ⟨hw, rfl⟩
  | offline =>
    simp only [handle, Option.some.injEq] at hs
    subst hs
    left
    split
    · exact ⟨mem_showNotification hw _ _ _ _, rfl⟩
    · exact ⟨hw, rfl⟩
  | notify m ty d n =>
    simp only [handle, Option.some.injEq] at hs
    subst hs
    exact Or.inl ⟨mem_showNotification hw _ _ _ _, rfl⟩
  | closeToast i =>
    simp only [handle, Option.some.injEq] at hs
    subst hs
    exact Or.inl ⟨hw, rfl⟩
  | advance d =>
    simp only [handle] at hs
    split at hs
    · simp only [Option.some.injEq] at hs
      subst hs
      exact Or.inl ⟨hw, rfl⟩
    · exact absurd hs (by simp)
  | unload =>
    simp only [handle] at hs
    split at hs
    · simp only [Option.some.injEq] at hs
      subst hs
      exact Or.inl ⟨hw, rfl⟩
    · exact absurd hs (by simp)
  | fire id answer =>
    simp only [handle] at hs
    split at hs
    · exact absurd hs (by simp)
    · rename_i t hfind
      obtain ⟨hmem, hid⟩ := find_timer hfind
      split at hs
      · rename_i hdue
        simp only [Option.some.injEq] at hs
        subst hs
        by_cases hkt : t.kind = TimerKind.warning
        · right
          have hsame : t.id = w.id := by
            have h1 := h.warn_handle t hmem hkt
            have h2 := h.warn_handle w hw hk
            rw [h1] at h2
            simpa using h2
          have htw : t = w := timer_eq_of_id h hmem hw hsame
          subst htw
          have hnow : s.now = t.due := le_antisymm (h.due_ge t hmem) hdue
          have hg : s.warningShown = false := h.warn_guard t hmem hkt
          have ho := warningCallback_open
            (s := { s with timers := s.timers.filter (fun x => x.id != id) }) hg answer
          simp only [runTimer, hkt]
          refine ⟨?_, ?_, ?_⟩
          · rw [ho.2]
            intro x hx
            simp only [List.mem_append, List.mem_filter, List.mem_singleton] at hx
            rcases hx with ⟨hx, hne⟩ | rfl
            · intro hkx
              have h1 := h.warn_handle x hx hkx
              have h2 := h.warn_handle t hmem hkt
              rw [h1] at h2
              simp only [Option.some.injEq] at h2
              simp [h2, hid] at hne
            · simp
          · rw [ho.1, ← hnow]
          · rw [(frame_warningCallback _ answer).2.2]
            exact hnow
        · left
          have hne : w.id ≠ id := by
            intro he
            have : t = w := timer_eq_of_id h hmem hw (by rw [hid, he])
            exact hkt (this ▸ hk)
          refine ⟨mem_runTimer ?_ t answer, (runTimer_not_warning hkt answer).1⟩
          simp only [List.mem_filter]
          exact ⟨hw, by simpa using hne⟩
      · exact absurd hs (by simp)

/-- While no warning timer is pending, a step of an idle period schedules none
and opens no prompt. -/
theorem idle_step_done {s s1 : Page} (hp : s.pendingStatus = 0)
    (hno : ∀ t ∈ s.timers, t.kind ≠ TimerKind.warning) (e : Event) (hq : e.quiet = true)
    (hs : step s e = some s1) :
    (∀ t ∈ s1.timers, t.kind ≠ TimerKind.warning) ∧ s1.prompts = s.prompts ∧ s.now ≤ s1.now := by
  replace hs := (step_some hs).1
  cases e with
  | activity => simp [Event.quiet] at hq
  | refreshResult r => simp [Event.quiet] at hq
  | statusResult r => simp [handle, hp] at hs
  | visibility hidden =>
    simp only [handle, Option.some.injEq] at hs
    subst hs
    split
    · refine ⟨by rw [timers_refreshAuthStatus]; exact hno, (frame_refreshAuthStatus s).2.2.1, ?_⟩
      rw [(frame_refreshAuthStatus s).2.2.2.1]
    · exact ⟨hno, rfl, le_refl _⟩
  | online =>
    simp only [handle, Option.some.injEq] at hs
    subst hs
    split
    · exact ⟨nowarn_showNotification hno _ _ _ _, rfl, le_refl _⟩
    · exact ⟨hno, rfl, le_refl _⟩
  | offline =>
    simp only [handle, Option.some.injEq] at hs
    subst hs
    split
    · exact ⟨nowarn_showNotification hno _ _ _ _, rfl, le_refl _⟩
    · exact ⟨hno, rfl, le_refl _⟩
  | notify m ty d n =>
    simp only [handle, Option.some.injEq] at hs
    subst hs
    exact ⟨nowarn_showNotification hno _ _ _ _, rfl, le_refl _⟩
  | closeToast i =>
    simp only [handle, Option.some.injEq] at hs
    subst hs
    exact ⟨hno, rfl, le_refl _⟩
  | advance d =>
    simp only [handle] at hs
    split at hs
    · simp only [Option.some.injEq] at hs
      subst hs
      exact ⟨hno, rfl, Nat.le_add_right _ _⟩
    · exact absurd hs (by simp)
  | unload =>
    simp only [handle] at hs
    split at hs
    · simp only [Option.some.injEq] at hs
      subst hs
      exact ⟨hno, rfl, le_refl _⟩
    · exact absurd hs (by simp)
  | fire id answer =>
    simp only [handle] at hs
    split at hs
    · exact absurd hs (by simp)
    · rename_i t hfind
      obtain ⟨hmem, hid⟩ := find_timer hfind
      split at hs
      · simp only [Option.some.injEq] at hs
        subst hs
        have hkt := hno t hmem
        have hr := runTimer_not_warning
          (s := { s with timers := s.timers.filter (fun x => x.id != id) }) hkt answer
        refine ⟨hr.2 (fun x hx => hno x (List.mem_filter.mp hx).1), hr.1, ?_⟩
        rw [(frame_runTimer _ t answer).2.2]
      · exact absurd hs (by simp)

theorem idle_run_done {es : List Event} : ∀ {s s2 : Page}, s.pendingStatus = 0 →
    (∀ t ∈ s.timers, t.kind ≠ TimerKind.warning) → (∀ e ∈ es, e.quiet = true) →
    run s es = some s2 →
    (∀ t ∈ s2.timers, t.kind ≠ TimerKind.warning) ∧ s2.prompts = s.prompts ∧ s.now ≤ s2.now := by
  induction es with
  | nil =>
    intro s s2 _ hno _ hr
    simp only [run, Option.some.injEq] at hr
    subst hr
    exact ⟨hno, rfl, le_refl _⟩
  | cons e es ih =>
    intro s s2 hp hno hq hr
    simp only [run] at hr
    cases hs : step s e with
    | none => simp [hs] at hr
    | some s1 =>
      simp only [hs] at hr
      have h1 := idle_step_done hp hno e (hq e (List.mem_cons_self _ _)) hs
      have h2 := ih (pending_zero_step hp e hs) h1.1
        (fun x hx => hq x (List.mem_cons_of_mem _ hx)) hr
      exact ⟨h2.1, h2.2.1.trans h1.2.1, le_trans h1.2.2 h2.2.2⟩

theorem idle_run_pending {es : List Event} : ∀ {s s2 : Page}, Inv s → s.pendingStatus = 0 →
    ∀ {w : Timer}, w ∈ s.timers → w.kind = TimerKind.warning → (∀ e ∈ es, e.quiet = true) →
    run s es = some s2 →
    (w ∈ s2.timers ∧ s2.prompts = s.prompts ∧ Inv s2) ∨
    ((∀ t ∈ s2.timers, t.kind ≠ TimerKind.warning) ∧ s2.prompts = s.prompts ++ [w.due] ∧
      w.due ≤ s2.now) := by
  induction es with
  | nil =>
    intro s s2 h _ w hw _ _ hr
    simp only [run, Option.some.injEq] at hr
    subst hr
    exact Or.inl ⟨hw, rfl, h⟩
  | cons e es ih =>
    intro s s2 h hp w hw hk hq hr
    simp only [run] at hr
    cases hs : step s e with
    | none => simp [hs] at hr
    | some s1 =>
      simp only [hs] at hr
      have hp1 := pending_zero_step hp e hs
      have hq1 : ∀ x ∈ es, x.quiet = true := fun x hx => hq x (List.mem_cons_of_mem _ hx)
      rcases idle_step_pending h hp hw hk e (hq e (List.mem_cons_self _ _)) hs with
        ⟨hw1, hpr⟩ | ⟨hno, hpr, hnow⟩
      · rcases ih (inv_step h e hs) hp1 hw1 hk hq1 hr with ⟨a, b, c⟩ | ⟨a, b, c⟩
        · exact Or.inl ⟨a, b.trans hpr, c⟩
        · exact Or.inr ⟨a, by rw [b, hpr], c⟩
      · have h2 := idle_run_done hp1 hno hq1 hr
        exact Or.inr ⟨h2.1, by rw [h2.2.1, hpr], by rw [← hnow]; exact h2.2.2⟩

/-- After `resetActivity` with a user signed in, the new warning timer is pending. -/
theorem new_warning_pending {s : Page} (h : Inv s) (hauth : s.currentUser.truthy = true) :
    ({ id := s.nextTimer, due := s.now + 1500000, kind := TimerKind.warning } : Timer) ∈
      (resetActivity s).timers := by
  have hw := warnings_resetActivity h
  rw [hauth] at hw
  have : ({ id := s.nextTimer, due := s.now + 1500000, kind := TimerKind.warning } : Timer) ∈
      (resetActivity s).timers.filter Timer.isWarning := by
    rw [hw]; simp [SESSION_WARNING_TIME]
  exact (List.mem_filter.mp this).1

/-- C4, amended: let the last activity event of an authenticated session happen in
the reachable state `s`, at time `t = s.now`, and be followed by any events
among which there is no activity event and no completed refresh.  Then, as long
as the warning timer has not fired, the time is at most `t + 25 min`, no prompt
has been shown, the warning timer is pending with its guard `!warningShown`
true, and at `t + 25 min`, if the document has not been unloaded by a redirect,
it fires and shows the prompt; once it has fired, exactly one prompt has been
shown since `t`, at `t + 25 min`, and no warning timer is left to show another. -/
theorem C4_one_prompt_after_idle (s : Page) (h : Reachable s)
    (hauth : s.currentUser.truthy = true) (es : List Event) (hq : ∀ e ∈ es, e.quiet = true)
    (s2 : Page) (hr : run s (Event.activity :: es) = some s2) :
    (s2.prompts = s.prompts ∧
      ({ id := s.nextTimer, due := s.now + 1500000, kind := TimerKind.warning } : Timer) ∈ s2.timers ∧
      s2.warningShown = false ∧ s2.now ≤ s.now + 1500000 ∧
      (s2.now = s.now + 1500000 → s2.unloaded = false → ∀ answer : Bool, ∃ s3 : Page,
        step s2 (Event.fire s.nextTimer answer) = some s3 ∧
        s3.prompts = s.prompts ++ [s.now + 1500000])) ∨
    (s2.prompts = s.prompts ++ [s.now + 1500000] ∧ s.now + 1500000 ≤ s2.now ∧
      pendingWarnings s2 = 0) := by
  have hinv := inv_of_reachable h
  have hinst : s.resetInstalled = true := hinv.installed
  have hr : run (resetActivity s) es = some s2 := by
    simp only [run] at hr
    cases hs : step s Event.activity with
    | none => simp [hs] at hr
    | some s1 =>
      simp only [hs] at hr
      have := (step_some hs).1
      simp only [handle, hinst, if_true, Option.some.injEq] at this
      rw [this]
      exact hr
  have hinv1 : Inv (resetActivity s) := inv_resetActivity hinv
  have hp1 : (resetActivity s).pendingStatus = 0 := by
    rw [(frame_resetActivity s).2.1]
    exact no_status_pending h hauth
  have hw1 : ({ id := s.nextTimer, due := s.now + 1500000, kind := TimerKind.warning } : Timer) ∈
      (resetActivity s).timers := by
    have := (new_warning_pending hinv hauth)
    exact this
  rcases idle_run_pending hinv1 hp1 hw1 rfl hq hr with ⟨a, b, c⟩ | ⟨a, b, c⟩
  · left
    have hb : s2.prompts = s.prompts := b.trans (frame_resetActivity s).2.2.1
    have hdue := c.due_ge _ a
    simp only [Page.core] at hdue
    refine ⟨hb, a, c.warn_guard _ a rfl, hdue, ?_⟩
    intro hnow hl answer
    rw [step_loaded hl]
    simp only [handle]
    cases hf : s2.timers.find? (fun t => t.id == s.nextTimer) with
    | none =>
      rw [List.find?_eq_none] at hf
      exact absurd (hf _ a) (by simp)
    | some t =>
      obtain ⟨hmem, hid⟩ := find_timer hf
      have ht := timer_eq_of_id c hmem a hid
      subst ht
      have hle : ({ id := s.nextTimer, due := s.now + 1500000, kind := TimerKind.warning } : Timer).due
          ≤ s2.now := by simp [hnow]
      simp only [if_pos hle]
      refine ⟨_, rfl, ?_⟩
      simp only [runTimer]
      have ho := warningCallback_open
        (s := { s2 with timers := s2.timers.filter (fun x => x.id != s.nextTimer) })
        (c.warn_guard _ a rfl) answer
      rw [ho.1]
      show s2.prompts ++ [s2.now] = _
      rw [hb, hnow]
  · right
    refine ⟨?_, c, ?_⟩
    · rw [b, (frame_resetActivity s).2.2.1]
    · rw [pendingWarnings, List.countP_eq_zero]
      intro t ht
      simpa [Timer.isWarning] using a t ht

/-! ## The hard-expiry timer: C5 -/

/-- A pending timer that is not a warning timer stays pending through every run
in which it does not fire. -/
theorem run_keeps {es : List Event} : ∀ {s s2 : Page}, Inv s → ∀ {x : Timer}, x ∈ s.timers →
    x.kind ≠ TimerKind.warning → (∀ e ∈ es, e.fires x.id = false) → run s es = some s2 →
    x ∈ s2.timers ∧ Inv s2 := by
  induction es with
  | nil =>
    intro s s2 h x hx _ _ hr
    simp only [run, Option.some.injEq] at hr
    subst hr
    exact ⟨hx, h⟩
  | cons e es ih =>
    intro s s2 h x hx hk hne hr
    simp only [run] at hr
    cases hs : step s e with
    | none => simp [hs] at hr
    | some s1 =>
      simp only [hs] at hr
      exact ih (inv_step h e hs) (step_keeps h hx hk e (hne e (List.mem_cons_self _ _)) hs) hk
        (fun y hy => hne y (List.mem_cons_of_mem _ hy)) hr

/-- The hard-expiry handler sets `currentUser` to null and schedules the redirect
2000 ms later. -/
theorem handleSessionExpiry_effect (s : Page) :
    (handleSessionExpiry s).currentUser = JsValue.null ∧
    ({ id := s.nextTimer + 2, due := s.now + 2000, kind := TimerKind.redirect } : Timer) ∈
      (handleSessionExpiry s).timers := by
  refine ⟨rfl, ?_⟩
  simp [handleSessionExpiry, showNotification, setTimeout, REDIRECT_DELAY]

/-- C5, amended: let the warning timer `w` fire in the reachable state `s` (at time
`s.now`), with either answer to the prompt.  Then a hard-expiry timer due 5
minutes later is pending, and after every sequence of events other than its own
firing (activity events, refresh results, successful or not, other timers) it
is still pending, no operation cancels it, and the time is at most
`s.now + 5 min`; at `s.now + 5 min`, if the document has not been unloaded by a
redirect, it fires, running `handleSessionExpiry`: `currentUser` becomes null
and the redirect is scheduled exactly 2000 ms later. -/
theorem C5_expiry_unconditional (s : Page) (h : Reachable s) (w : Timer) (hw : w ∈ s.timers)
    (hk : w.kind = TimerKind.warning) (answer : Bool) (s1 : Page)
    (hfire : step s (Event.fire w.id answer) = some s1)
    (es : List Event) (hne : ∀ e ∈ es, e.fires s.nextTimer = false)
    (s2 : Page) (hr : run s1 es = some s2) :
    ({ id := s.nextTimer, due := s.now + 300000, kind := TimerKind.expiry } : Timer) ∈ s2.timers ∧
    s2.now ≤ s.now + 300000 ∧
    (s2.now = s.now + 300000 → s2.unloaded = false → ∀ a : Bool, ∃ s3 : Page,
      step s2 (Event.fire s.nextTimer a) = some s3 ∧
      s3 = handleSessionExpiry
        { s2 with timers := s2.timers.filter (fun x => x.id != s.nextTimer) } ∧
      s3.currentUser = JsValue.null ∧
      ({ id := s2.nextTimer + 2, due := s.now + 300000 + 2000, kind := TimerKind.redirect } : Timer) ∈
        s3.timers) := by
  have hinv := inv_of_reachable h
  have hinv1 : Inv s1 := inv_step hinv _ hfire
  have hx1 : ({ id := s.nextTimer, due := s.now + 300000, kind := TimerKind.expiry } : Timer) ∈
      s1.timers := by
    replace hfire := (step_some hfire).1
    simp only [handle] at hfire
    cases hf : s.timers.find? (fun t => t.id == w.id) with
    | none => simp [hf] at hfire
    | some t =>
      obtain ⟨hmem, hid⟩ := find_timer hf
      have ht := timer_eq_of_id hinv hmem hw hid
      subst ht
      simp only [hf] at hfire
      split at hfire
      · simp only [Option.some.injEq] at hfire
        subst hfire
        simp only [runTimer, hk]
        have ho := warningCallback_open
          (s := { s with timers := s.timers.filter (fun x => x.id != t.id) })
          (hinv.warn_guard t hmem hk) answer
        rw [ho.2]
        simp [FINAL_TIMEOUT_DELAY]
      · exact absurd hfire (by simp)
  obtain ⟨hx2, hinv2⟩ := run_keeps hinv1 hx1 (by simp) hne hr
  have hdue := hinv2.due_ge _ hx2
  simp only [Page.core] at hdue
  refine ⟨hx2, hdue, ?_⟩
  intro hnow hl a
  rw [step_loaded hl]
  simp only [handle]
  cases hf : s2.timers.find? (fun t => t.id == s.nextTimer) with
  | none =>
    rw [List.find?_eq_none] at hf
    exact absurd (hf _ hx2) (by simp)
  | some t =>
    obtain ⟨hmem, hid⟩ := find_timer hf
    have ht := timer_eq_of_id hinv2 hmem hx2 hid
    subst ht
    have hle : ({ id := s.nextTimer, due := s.now + 300000, kind := TimerKind.expiry } : Timer).due
        ≤ s2.now := by simp [hnow]
    simp only [if_pos hle]
    refine ⟨_, rfl, ?_, ?_, ?_⟩
    · simp only [runTimer]
    · simp only [runTimer]
      exact (handleSessionExpiry_effect _).1
    · simp only [runTimer]
      have := (handleSessionExpiry_effect
        { s2 with timers := s2.timers.filter (fun x => x.id != s.nextTimer) }).2
      rw [← hnow]
      exact this

theorem authedPage_reachable : Reachable authedPage :=
  ⟨"/student/dashboard.html", 0, [Event.statusResult (FetchResult.json authOk)], by decide⟩

theorem duePage_reachable : Reachable duePage :=
  ⟨"/student/dashboard.html", 0,
    [Event.statusResult (FetchResult.json authOk), Event.advance 1500000], by decide⟩

/-- C4 as stated fails: in the reachable state `dismissedPage` a user is signed in
and the hard-expiry timer of an earlier warning is pending.  An activity event
at `t = 25 min` is followed by events without activity or refresh: the expiry
timer fires at 30 minutes, the redirect 2 seconds later, and the login page is
loaded.  No prompt has been shown since `t`, the time is before `t + 25 min`,
and nothing can happen in the document any more. -/
theorem C4_redirected_before_prompt :
    Reachable dismissedPage ∧ dismissedPage.currentUser.truthy = true ∧
    (∀ e ∈ leaveEvents, e.quiet = true) ∧
    run dismissedPage (Event.activity :: leaveEvents) = some leftPage ∧
    leftPage.prompts = dismissedPage.prompts ∧
    leftPage.now < dismissedPage.now + 1500000 ∧
    (∀ e : Event, step leftPage e = none) :=
  ⟨⟨"/student/dashboard.html", 0,
      [Event.statusResult (FetchResult.json authOk), Event.advance 1500000, Event.fire 1 false],
      by decide⟩,
    rfl, by decide, by decide, rfl, by decide, fun _ => rfl⟩

theorem C4_one_prompt_after_idle_witness :
    Reachable authedPage ∧ authedPage.currentUser.truthy = true ∧
    (∀ e ∈ idleEvents, e.quiet = true) ∧
    run authedPage (Event.activity :: idleEvents) = some promptedPage ∧
    ((promptedPage.prompts = [] ∧
      ({ id := 2, due := 0 + 1500000, kind := TimerKind.warning } : Timer) ∈ promptedPage.timers ∧
      promptedPage.warningShown = false ∧ promptedPage.now ≤ 0 + 1500000 ∧
      (promptedPage.now = 0 + 1500000 → promptedPage.unloaded = false → ∀ answer : Bool,
        ∃ s3 : Page, step promptedPage (Event.fire 2 answer) = some s3 ∧
        s3.prompts = [] ++ [0 + 1500000])) ∨
    (promptedPage.prompts = [] ++ [0 + 1500000] ∧ 0 + 1500000 ≤ promptedPage.now ∧
      pendingWarnings promptedPage = 0)) :=
  ⟨authedPage_reachable, rfl, by decide, by decide,
    C4_one_prompt_after_idle authedPage authedPage_reachable rfl idleEvents (by decide)
      promptedPage (by decide)⟩

/-- C5 as stated fails: in the reachable state `duePage` the warning timer fires
at `t = 25 min` and the user confirms; the refresh is answered with
`success: false`, so the hard-expiry handler runs at once, the redirect fires 2
seconds later and the login page is loaded.  The hard-expiry timer is still
pending, but nothing can happen in the document any more: the handler does not
run at `t + 5 min`. -/
theorem C5_redirected_before_expiry :
    Reachable duePage ∧
    step duePage (Event.fire 1 true) = some firedPage ∧
    (∀ e ∈ refusedEvents, e.fires 2 = false) ∧
    run firedPage refusedEvents = some refusedPage ∧
    ({ id := 2, due := 1500000 + 300000, kind := TimerKind.expiry } : Timer) ∈ refusedPage.timers ∧
    refusedPage.now < 1500000 + 300000 ∧
    (∀ e : Event, step refusedPage e = none) :=
  ⟨duePage_reachable, by decide, by decide, by decide, by decide, by decide, fun _ => rfl⟩

theorem C5_expiry_unconditional_witness :
    Reachable duePage ∧
    ({ id := 1, due := 1500000, kind := TimerKind.warning } : Timer) ∈ duePage.timers ∧
    step duePage (Event.fire 1 true) = some firedPage ∧
    (∀ e ∈ graceEvents, e.fires 2 = false) ∧
    run firedPage graceEvents = some graceEndPage ∧
    ({ id := 2, due := 1500000 + 300000, kind := TimerKind.expiry } : Timer) ∈ graceEndPage.timers ∧
    graceEndPage.now ≤ 1500000 + 300000 ∧
    (graceEndPage.now = 1500000 + 300000 → graceEndPage.unloaded = false → ∀ a : Bool,
      ∃ s3 : Page, step graceEndPage (Event.fire 2 a) = some s3 ∧
      s3 = handleSessionExpiry
        { graceEndPage with timers := graceEndPage.timers.filter (fun x => x.id != 2) } ∧
      s3.currentUser = JsValue.null ∧
      ({ id := 5 + 2, due := 1500000 + 300000 + 2000, kind := TimerKind.redirect } : Timer) ∈
        s3.timers) :=
  ⟨duePage_reachable, by decide, by decide, by decide, by decide,
    C5_expiry_unconditional duePage duePage_reachable
      { id := 1, due := 1500000, kind := TimerKind.warning } (by decide) rfl true firedPage
      (by decide) graceEvents (by decide) graceEndPage (by decide)⟩

/-! ## Redirect target: C6 -/

theorem startsWith_iff : ∀ (l pat : List Char), startsWith l pat = true ↔ ∃ suf, l = pat ++ suf := by
  intro l pat
  induction pat generalizing l with
  | nil => simp [startsWith]
  | cons p pat ih =>
    cases l with
    | nil => simp [startsWith]
    | cons c l =>
      simp only [startsWith, Bool.and_eq_true, beq_iff_eq, ih, List.cons_append, List.cons.injEq]
      constructor
      · rintro ⟨rfl, suf, rfl⟩
        exact ⟨suf, rfl, rfl⟩
      · rintro ⟨suf, rfl, rfl⟩
        exact ⟨rfl, suf, rfl⟩

theorem occursIn_iff : ∀ (l pat : List Char),
    occursIn l pat = true ↔ ∃ pre suf, l = pre ++ pat ++ suf := by
  intro l pat
  induction l with
  | nil =>
    simp only [occursIn, startsWith_iff]
    constructor
    · rintro ⟨suf, h⟩
      exact ⟨[], suf, h⟩
    · rintro ⟨pre, suf, h⟩
      have h1 : pre = [] := by
        cases pre with
        | nil => rfl
        | cons a pre => simp at h
      subst h1
      exact ⟨suf, h⟩
  | cons c l ih =>
    simp only [occursIn, Bool.or_eq_true, startsWith_iff, ih]
    constructor
    · rintro (⟨suf, h⟩ | ⟨pre, suf, h⟩)
      · exact ⟨[], suf, h⟩
      · exact ⟨c :: pre, suf, by rw [h]; rfl⟩
    · rintro ⟨pre, suf, h⟩
      cases pre with
      | nil => exact Or.inl ⟨suf, h⟩
      | cons a pre =>
        simp only [List.cons_append, List.cons.injEq] at h
        exact Or.inr ⟨pre, suf, h.2⟩

/-- Function `includes` decides whether the pattern occurs in the string. -/
theorem includes_iff (s pat : String) : includes s pat = true ↔ Contains s pat :=
  occursIn_iff s.data pat.data

/-- C6: for every current path, the expiry redirect target is
`/student-login.html` if the path contains `student` or `Student`; otherwise
`/teacher-login.html` if it contains `teacher` or `Teacher`; otherwise
`/index.html`.  In particular `/teacher/dashboard.html` goes to the teacher
login, `/student/dashboard.html` to the student login, and a path containing
both a student and a teacher keyword goes to the student login.  The redirect
callback assigns this target to `window.location.href`. -/
theorem C6_redirect_target (path : String) :
    ((Contains path "student" ∨ Contains path "Student") →
      redirectTarget path = "/student-login.html") ∧
    (¬ (Contains path "student" ∨ Contains path "Student") →
      (Contains path "teacher" ∨ Contains path "Teacher") →
      redirectTarget path = "/teacher-login.html") ∧
    (¬ (Contains path "student" ∨ Contains path "Student") →
      ¬ (Contains path "teacher" ∨ Contains path "Teacher") →
      redirectTarget path = "/index.html") ∧
    redirectTarget "/teacher/dashboard.html" = "/teacher-login.html" ∧
    redirectTarget "/student/dashboard.html" = "/student-login.html" ∧
    (∀ s : Page, s.pathname = path → (redirectCallback s).href = some (redirectTarget path)) := by
  refine ⟨?_, ?_, ?_, by decide, by decide, ?_⟩
  · intro h
    have : (includes path "student" || includes path "Student") = true := by
      simpa [Bool.or_eq_true, includes_iff] using h
    simp [redirectTarget, this]
  · intro h1 h2
    have a : (includes path "student" || includes path "Student") = false := by
      rw [Bool.eq_false_iff]
      simpa [Bool.or_eq_true, includes_iff] using h1
    have b : (includes path "teacher" || includes path "Teacher") = true := by
      simpa [Bool.or_eq_true, includes_iff] using h2
    simp [redirectTarget, a, b]
  · intro h1 h2
    have a : (includes path "student" || includes path "Student") = false := by
      rw [Bool.eq_false_iff]
      simpa [Bool.or_eq_true, includes_iff] using h1
    have b : (includes path "teacher" || includes path "Teacher") = false := by
      rw [Bool.eq_false_iff]
      simpa [Bool.or_eq_true, includes_iff] using h2
    simp [redirectTarget, a, b]
  · intro s hs
    simp [redirectCallback, hs]

theorem C6_redirect_target_witness :
    Contains "/Teacher/student.html" "student" ∧ Contains "/Teacher/student.html" "Teacher" ∧
    redirectTarget "/Teacher/student.html" = "/student-login.html" :=
  ⟨⟨"/Teacher/".data, ".html".data, by decide⟩, ⟨"/".data, "/student.html".data, by decide⟩,
    (C6_redirect_target "/Teacher/student.html").1
      (Or.inl ⟨"/Teacher/".data, ".html".data, by decide⟩)⟩

/-! ## Refresh and status requests: C7, C8, C9 -/

/-- C7 as stated fails: in the reachable state `warnedPage` a user is signed in
and a refresh request is in flight; when that request is rejected the user is
still signed in, no notification is shown and no redirect timer is scheduled. -/
theorem C7_refresh_failure_keeps_session :
    Reachable warnedPage ∧ warnedPage.currentUser.truthy = true ∧
    step warnedPage (Event.refreshResult FetchResult.rejected) =
      some { warnedPage with pendingRefresh := 0 } ∧
    ({ warnedPage with pendingRefresh := 0 } : Page).currentUser = JsValue.object 1 ∧
    ({ warnedPage with pendingRefresh := 0 } : Page).timers.countP Timer.isRedirect = 0 ∧
    ({ warnedPage with pendingRefresh := 0 } : Page).notices = [] :=
  ⟨warnedPage_reachable, rfl, by decide, rfl, by decide, rfl⟩

/-- C7, amended: if a refresh request issued by `refreshAuthStatus` fails at the
network/transport level (the request rejects or its body is not JSON), the
error is only logged: apart from the request no longer being in flight the
state is unchanged, so `currentUser`, the timers, the notifications and
`window.location.href` stay as they were. -/
theorem C7_refresh_failure_only_logged (s : Page) (hl : s.unloaded = false)
    (hp : s.pendingRefresh ≠ 0)
    (r : FetchResult RefreshData) (hr : r = FetchResult.rejected ∨ r = FetchResult.invalidBody) :
    step s (Event.refreshResult r) = some { s with pendingRefresh := s.pendingRefresh - 1 } := by
  rcases hr with rfl | rfl <;> simp [step, handle, hl, hp, onRefreshResult]

theorem C7_refresh_failure_only_logged_witness :
    warnedPage.unloaded = false ∧ warnedPage.pendingRefresh ≠ 0 ∧
    step warnedPage (Event.refreshResult FetchResult.invalidBody) =
      some { warnedPage with pendingRefresh := warnedPage.pendingRefresh - 1 } :=
  ⟨rfl, by decide, C7_refresh_failure_only_logged warnedPage rfl (by decide)
    FetchResult.invalidBody (Or.inr rfl)⟩

/-- The timer state after `resetActivity` does not depend on the requests in flight. -/
theorem core_resetActivity_pending (s : Page) (n : Nat) :
    (resetActivity { s with pendingRefresh := n }).core = (resetActivity s).core := by
  obtain ⟨cu, st, ws, ri, gl, now, nt, ts, toasts, ntoast, nots, prm, reqs, ps, pr, path, href,
    ul⟩ := s
  cases st with
  | none =>
    by_cases h2 : cu.truthy = true <;> simp [resetActivity, h2, setTimeout, Page.core]
  | some id =>
    by_cases h1 : handleTruthy (some id) = true <;> by_cases h2 : cu.truthy = true <;>
      simp [resetActivity, h1, h2, clearTimeout, setTimeout, Page.core]

/-- C8: in every reachable state of a loaded document, `refreshAuthStatus` with no user signed in
issues no request and changes no state; with a user signed in it issues exactly
one `POST /auth/refresh` and changes nothing else.  A response with a truthy
`success` runs `resetActivity`, leaving the timer state exactly as a call of
`resetActivity` would; a response with a falsy `success` runs the hard-expiry
handler: `currentUser` is null and the redirect is scheduled 2000 ms later. -/
theorem C8_refreshAuthStatus (s : Page) (h : Reachable s) (hl : s.unloaded = false) :
    (s.currentUser.truthy = false → refreshAuthStatus s = s) ∧
    (s.currentUser.truthy = true →
      refreshAuthStatus s =
        { s with requests := s.requests ++
                   [{ url := "/auth/refresh", method := "POST", credentials := "include" }],
                 pendingRefresh := s.pendingRefresh + 1 }) ∧
    (∀ data : RefreshData, s.pendingRefresh ≠ 0 → data.success.truthy = true →
      ∃ s1, step s (Event.refreshResult (FetchResult.json data)) = some s1 ∧
        s1 = resetActivity { s with pendingRefresh := s.pendingRefresh - 1 } ∧
        s1.core = (resetActivity s).core) ∧
    (∀ data : RefreshData, s.pendingRefresh ≠ 0 → data.success.truthy = false →
      ∃ s1, step s (Event.refreshResult (FetchResult.json data)) = some s1 ∧
        s1 = handleSessionExpiry { s with pendingRefresh := s.pendingRefresh - 1 } ∧
        s1.currentUser = JsValue.null ∧
        ({ id := s.nextTimer + 2, due := s.now + 2000, kind := TimerKind.redirect } : Timer) ∈
          s1.timers) := by
  have hinst : s.resetInstalled = true := (inv_of_reachable h).installed
  refine ⟨?_, ?_, ?_, ?_⟩
  · intro hu
    simp [refreshAuthStatus, hu]
  · intro hu
    simp [refreshAuthStatus, hu]
  · intro data hp hd
    refine ⟨_, by rw [step_loaded hl]; simp only [handle, hp, if_false, onRefreshResult, hd, hinst,
      if_true], rfl, ?_⟩
    exact core_resetActivity_pending s _
  · intro data hp hd
    refine ⟨_, by rw [step_loaded hl]; simp [handle, hp, onRefreshResult, hd], rfl, ?_⟩
    exact handleSessionExpiry_effect { s with pendingRefresh := s.pendingRefresh - 1 }

theorem C8_refreshAuthStatus_witness :
    Reachable warnedPage ∧ warnedPage.unloaded = false ∧ warnedPage.currentUser.truthy = true ∧
    refreshAuthStatus warnedPage =
      { warnedPage with
        requests := warnedPage.requests ++
          [{ url := "/auth/refresh", method := "POST", credentials := "include" }],
        pendingRefresh := warnedPage.pendingRefresh + 1 } :=
  ⟨warnedPage_reachable, rfl, rfl,
    (C8_refreshAuthStatus warnedPage warnedPage_reachable rfl).2.1 rfl⟩

/-- C9 as stated fails: at page load, a status response with `authenticated` true
whose `user` is null leaves `currentUser` null and schedules no timer. -/
theorem C9_authenticated_without_user :
    ∃ s1 : Page,
      step (pageLoad "/student/dashboard.html" 0)
        (Event.statusResult (FetchResult.json
          { authenticated := JsValue.bool true, user := JsValue.null })) = some s1 ∧
      s1.currentUser = JsValue.null ∧ s1.timers = [] :=
  ⟨_, rfl, by decide, by decide⟩

/-- C9, amended: in every reachable state of a loaded document in which the status
request is in flight: for every `/auth/status` response with a truthy `authenticated` and a
truthy `user`, after `checkAuthStatus` processes it `currentUser` is that user
(non-null) and exactly one warning timer is pending, due 25 minutes later; for
every response with a falsy `authenticated`, `currentUser` is null and no timer
is scheduled; when the request fails, nothing changes but the request being no
longer in flight: no notification is shown and no redirect is scheduled. -/
theorem C9_checkAuthStatus_result (s : Page) (h : Reachable s) (hl : s.unloaded = false)
    (hp : s.pendingStatus ≠ 0) :
    (∀ data : StatusData, data.authenticated.truthy = true → data.user.truthy = true →
      ∃ s1, step s (Event.statusResult (FetchResult.json data)) = some s1 ∧
        s1.currentUser = data.user ∧ s1.currentUser ≠ JsValue.null ∧
        s1.timers.filter Timer.isWarning =
          [{ id := s.nextTimer, due := s.now + 1500000, kind := TimerKind.warning }]) ∧
    (∀ data : StatusData, data.authenticated.truthy = false →
      step s (Event.statusResult (FetchResult.json data)) =
        some { s with pendingStatus := s.pendingStatus - 1, currentUser := JsValue.null }) ∧
    (∀ r : FetchResult StatusData, r = FetchResult.rejected ∨ r = FetchResult.invalidBody →
      step s (Event.statusResult r) = some { s with pendingStatus := s.pendingStatus - 1 }) := by
  have hinv := inv_of_reachable h
  have hinst : s.resetInstalled = true := hinv.installed
  refine ⟨?_, ?_, ?_⟩
  · intro data ha hu
    have hinv1 : Inv { s with pendingStatus := s.pendingStatus - 1, currentUser := data.user } :=
      hinv
    have hw := warnings_resetActivity hinv1
    simp only [hu, if_true] at hw
    refine ⟨_, by rw [step_loaded hl]; simp only [handle, hp, if_false, onStatusResult, ha, if_true,
      startSessionTimeout, hinst], ?_, ?_, hw⟩
    · exact (frame_resetActivity _).1
    · rw [(frame_resetActivity _).1]
      intro hn
      simp only at hn
      rw [hn] at hu
      exact absurd hu (by decide)
  · intro data ha
    simp [step, handle, hl, hp, onStatusResult, ha]
  · intro r hr
    rcases hr with rfl | rfl <;> simp [step, handle, hl, hp, onStatusResult]

theorem C9_checkAuthStatus_result_witness :
    Reachable (pageLoad "/student/dashboard.html" 0) ∧
    (pageLoad "/student/dashboard.html" 0).unloaded = false ∧
    (pageLoad "/student/dashboard.html" 0).pendingStatus ≠ 0 ∧
    step (pageLoad "/student/dashboard.html" 0)
        (Event.statusResult FetchResult.rejected) =
      some { pageLoad "/student/dashboard.html" 0 with
        pendingStatus := (pageLoad "/student/dashboard.html" 0).pendingStatus - 1 } :=
  ⟨⟨"/student/dashboard.html", 0, [], rfl⟩, rfl, by decide,
    (C9_checkAuthStatus_result (pageLoad "/student/dashboard.html" 0)
      ⟨"/student/dashboard.html", 0, [], rfl⟩ rfl (by decide)).2.2 FetchResult.rejected
      (Or.inl rfl)⟩

/-! ## Section views: C10 -/

theorem hasClass_removeClass (e : Element) (c d : String) :
    (e.removeClass d).hasClass c = (e.hasClass c && c != d) := by
  simp only [Element.hasClass, Element.removeClass, List.mem_filter]
  by_cases h1 : c ∈ e.classes <;> by_cases h2 : c = d <;> simp [h1, h2]

theorem hasClass_addClass (e : Element) (c d : String) :
    (e.addClass d).hasClass c = (e.hasClass c || c == d) := by
  unfold Element.addClass
  split
  · rename_i hd
    by_cases h2 : c = d
    · subst h2; simp [Element.hasClass, hd]
    · simp [h2]
  · simp only [Element.hasClass, List.mem_append, List.mem_singleton]
    by_cases h1 : c ∈ e.classes <;> by_cases h2 : c = d <;> simp [h1, h2]

theorem id_removeClass (e : Element) (d : String) : (e.removeClass d).id = e.id := rfl

theorem dataSection_removeClass (e : Element) (d : String) :
    (e.removeClass d).dataSection = e.dataSection := rfl

theorem id_addClass (e : Element) (d : String) : (e.addClass d).id = e.id := by
  unfold Element.addClass
  split <;> rfl

theorem dataSection_addClass (e : Element) (d : String) :
    (e.addClass d).dataSection = e.dataSection := by
  unfold Element.addClass
  split <;> rfl

theorem mem_modifyAt {f : Element → Element} : ∀ {l : List Element} {i : Nat} {x : Element},
    x ∈ modifyAt f l i → x ∈ l ∨ ∃ e ∈ l, x = f e := by
  intro l
  induction l with
  | nil => intro i x hx; simp [modifyAt] at hx
  | cons a l ih =>
    intro i x hx
    cases i with
    | zero =>
      simp only [modifyAt, List.mem_cons] at hx
      rcases hx with rfl | hx
      · exact Or.inr ⟨a, List.mem_cons_self _ _, rfl⟩
      · exact Or.inl (List.mem_cons_of_mem _ hx)
    | succ i =>
      simp only [modifyAt, List.mem_cons] at hx
      rcases hx with rfl | hx
      · exact Or.inl (List.mem_cons_self _ _)
      · rcases ih hx with h | ⟨e, he, rfl⟩
        · exact Or.inl (List.mem_cons_of_mem _ h)
        · exact Or.inr ⟨e, List.mem_cons_of_mem _ he, rfl⟩

/-- The element found by `firstIndex` is the one found by `List.find?`. -/
theorem firstIndex_eq_some {p : Element → Bool} : ∀ {l : List Element} {i : Nat},
    firstIndex p l = some i → ∃ e, l.find? p = some e ∧ l[i]? = some e ∧ p e = true := by
  intro l
  induction l with
  | nil => intro i h; simp [firstIndex] at h
  | cons a l ih =>
    intro i h
    simp only [firstIndex] at h
    by_cases hp : p a = true
    · simp only [hp, if_true, Option.some.injEq] at h
      subst h
      exact ⟨a, by simp [List.find?, hp], by simp, hp⟩
    · simp only [hp, Bool.false_eq_true, if_false, Option.map_eq_some'] at h
      obtain ⟨j, hj, rfl⟩ := h
      obtain ⟨e, h1, h2, h3⟩ := ih hj
      refine ⟨e, ?_, by simpa using h2, h3⟩
      simp only [Bool.not_eq_true] at hp
      simp [List.find?, hp, h1]

theorem firstIndex_eq_none {p : Element → Bool} : ∀ {l : List Element},
    firstIndex p l = none → l.find? p = none := by
  intro l
  induction l with
  | nil => intro _; rfl
  | cons a l ih =>
    intro h
    simp only [firstIndex] at h
    by_cases hp : p a = true
    · simp [hp] at h
    · simp only [hp, Bool.false_eq_true, if_false, Option.map_eq_none'] at h
      simp only [Bool.not_eq_true] at hp
      simp [List.find?, hp, ih h]

/-- Modifying one element of a document without active view: at most the
modified element is an active view afterwards. -/
theorem activeViews_modifyAt {f : Element → Element} : ∀ {l : List Element} {i : Nat},
    (∀ e ∈ l, e.isActiveView = false) →
    activeViews (modifyAt f l i) =
      match l[i]? with
      | some e => if (f e).isActiveView then [f e] else []
      | none => [] := by
  intro l
  induction l with
  | nil => intro i _; simp [modifyAt, activeViews]
  | cons a l ih =>
    intro i h
    have ha : a.isActiveView = false := h a (List.mem_cons_self _ _)
    have hl : ∀ e ∈ l, e.isActiveView = false := fun e he => h e (List.mem_cons_of_mem _ he)
    have hl0 : List.filter Element.isActiveView l = [] := by
      rw [List.filter_eq_nil_iff]
      intro e he
      simp [hl e he]
    cases i with
    | zero =>
      simp only [modifyAt, activeViews, List.getElem?_cons_zero, List.filter_cons, hl0]
    | succ i =>
      have := ih (i := i) hl
      simp only [activeViews] at this
      simp only [modifyAt, activeViews, List.getElem?_cons_succ, List.filter_cons, ha,
        Bool.false_eq_true, if_false, this]

/-- Modifying an element that is not a section view, into one that is not a
section view, leaves the active views as they are. -/
theorem activeViews_modifyAt_other {f : Element → Element} : ∀ {l : List Element} {i : Nat} {e : Element},
    l[i]? = some e → e.isSection = false → (f e).isSection = false →
    activeViews (modifyAt f l i) = activeViews l := by
  intro l
  induction l with
  | nil => intro i e h; simp at h
  | cons a l ih =>
    intro i e h h1 h2
    cases i with
    | zero =>
      simp only [List.getElem?_cons_zero, Option.some.injEq] at h
      subst h
      simp [modifyAt, activeViews, List.filter_cons, Element.isActiveView, h1, h2]
    | succ i =>
      simp only [List.getElem?_cons_succ] at h
      have := ih h h1 h2
      simp only [activeViews] at this
      simp only [modifyAt, activeViews, List.filter_cons, this]

/-- Mapping a function that fixes section views and keeps other elements from
becoming section views leaves the active views as they are. -/
theorem activeViews_map {g : Element → Element} : ∀ {l : List Element},
    (∀ e ∈ l, (e.isSection = true → g e = e) ∧ (e.isSection = false → (g e).isSection = false)) →
    activeViews (l.map g) = activeViews l := by
  intro l
  induction l with
  | nil => intro _; rfl
  | cons a l ih =>
    intro h
    have ha := h a (List.mem_cons_self _ _)
    have := ih (fun e he => h e (List.mem_cons_of_mem _ he))
    simp only [activeViews] at this
    simp only [activeViews, List.map_cons, List.filter_cons, this]
    by_cases hs : a.isSection = true
    · rw [ha.1 hs]
    · simp only [Bool.not_eq_true] at hs
      simp [Element.isActiveView, hs, ha.2 hs]

theorem isSection_removeClass (e : Element) : (e.removeClass "active").isSection = e.isSection := by
  have : ("content-section" != "active") = true := by decide
  simp [Element.isSection, hasClass_removeClass, this]

theorem isSection_addClass (e : Element) : (e.addClass "active").isSection = e.isSection := by
  have : ("content-section" == "active") = false := by decide
  simp [Element.isSection, hasClass_addClass, this]

theorem navLink_removeClass (e : Element) :
    (e.removeClass "active").hasClass "nav-link" = e.hasClass "nav-link" := by
  have : ("nav-link" != "active") = true := by decide
  simp [hasClass_removeClass, this]

theorem navLink_addClass (e : Element) :
    (e.addClass "active").hasClass "nav-link" = e.hasClass "nav-link" := by
  have : ("nav-link" == "active") = false := by decide
  simp [hasClass_addClass, this]

theorem keeps_addActive : Keeps (fun e => e.addClass "active") :=
  fun e => ⟨id_addClass e _, dataSection_addClass e _, isSection_addClass e, navLink_addClass e⟩

theorem keeps_removeActive_if (c : String) :
    Keeps (fun e => if e.hasClass c then e.removeClass "active" else e) := by
  intro e
  by_cases h : e.hasClass c = true
  · simp only [h, if_true]
    exact ⟨rfl, rfl, isSection_removeClass e, navLink_removeClass e⟩
  · simp [h]

theorem viewsApart_map {g : Element → Element} (hg : Keeps g) {l : List Element} {name : String}
    (h : viewsApart l name) : viewsApart (l.map g) name := by
  intro x hx hs
  obtain ⟨e, he, rfl⟩ := List.mem_map.mp hx
  obtain ⟨_, h2, h3, h4⟩ := hg e
  rw [h3] at hs
  rw [h4, h2]
  exact h e he hs

theorem viewsApart_modifyAt {f : Element → Element} (hf : Keeps f) {l : List Element}
    {name : String} (i : Nat) (h : viewsApart l name) : viewsApart (modifyAt f l i) name := by
  intro x hx hs
  rcases mem_modifyAt hx with hx | ⟨e, he, rfl⟩
  · exact h x hx hs
  · obtain ⟨_, h2, h3, h4⟩ := hf e
    rw [h3] at hs
    rw [h4, h2]
    exact h e he hs

theorem viewsApart_showTarget {l : List Element} {name : String} (target : String)
    (h : viewsApart l name) : viewsApart (showTarget l target) name := by
  unfold showTarget
  split
  · exact viewsApart_modifyAt keeps_addActive _ h
  · exact h

/-- After `hideSections` no section view is active. -/
theorem hideSections_none_active (l : List Element) :
    ∀ e ∈ hideSections l, e.isActiveView = false := by
  intro x hx
  obtain ⟨e, _, rfl⟩ := List.mem_map.mp hx
  by_cases h : e.hasClass "content-section" = true
  · simp only [h, if_true, Element.isActiveView, hasClass_removeClass]
    simp
  · simp only [h, Bool.false_eq_true, if_false, Element.isActiveView, Element.isSection]
    simp only [Bool.not_eq_true] at h
    simp [h]

/-- The element found by id after `hideSections` is the one found before, with
its class `active` removed if it is a section view. -/
theorem targetElement_hideSections (l : List Element) (name : String) :
    targetElement (hideSections l) name =
      (targetElement l name).map
        (fun e => if e.hasClass "content-section" then e.removeClass "active" else e) := by
  unfold targetElement hideSections
  rw [List.find?_map]
  congr 1
  congr 1
  funext e
  simp only [Function.comp]
  rw [(keeps_removeActive_if "content-section" e).1]

/-- The active section views after the four steps of `showSection`: the element
with id `name + '-section'` if it is a section view, and nothing else. -/
theorem activeViews_showSection (l : List Element) (name : String) (h : viewsApart l name) :
    activeViews (highlightLink (clearNavLinks (showTarget (hideSections l) name)) name) =
      match targetElement l name with
      | some e => if e.isSection then [(e.removeClass "active").addClass "active"] else []
      | none => [] := by
  have h1 : viewsApart (hideSections l) name := viewsApart_map (keeps_removeActive_if _) h
  have h2 : viewsApart (showTarget (hideSections l) name) name := viewsApart_showTarget name h1
  have h3 : viewsApart (clearNavLinks (showTarget (hideSections l) name)) name :=
    viewsApart_map (keeps_removeActive_if _) h2
  -- the link step
  have e4 : activeViews (highlightLink (clearNavLinks (showTarget (hideSections l) name)) name) =
      activeViews (clearNavLinks (showTarget (hideSections l) name)) := by
    unfold highlightLink
    split
    · rename_i i hq
      obtain ⟨e, _, hi, hp⟩ := firstIndex_eq_some hq
      have hns : e.isSection = false := by
        by_cases hs : e.isSection = true
        · have := (h3 e (List.getElem?_mem hi) hs).2
          simp only [beq_iff_eq] at hp
          exact absurd hp this
        · simpa using hs
      exact activeViews_modifyAt_other hi hns (by rw [isSection_addClass]; exact hns)
    · rfl
  -- the nav-link step
  have e3 : activeViews (clearNavLinks (showTarget (hideSections l) name)) =
      activeViews (showTarget (hideSections l) name) := by
    apply activeViews_map
    intro e he
    constructor
    · intro hs
      simp [(h2 e he hs).1]
    · intro hs
      rw [(keeps_removeActive_if "nav-link" e).2.2.1]
      exact hs
  -- the target step
  have e2 : activeViews (showTarget (hideSections l) name) =
      match targetElement (hideSections l) name with
      | some e => if e.isSection then [e.addClass "active"] else []
      | none => [] := by
    unfold showTarget getElementById
    cases hq : firstIndex (fun e => e.id == some (name ++ "-section")) (hideSections l) with
    | none =>
      have hn := firstIndex_eq_none hq
      simp only [targetElement, hn, activeViews]
      rw [List.filter_eq_nil_iff]
      intro e he
      simp [hideSections_none_active l e he]
    | some i =>
      obtain ⟨e, hf, hi, _⟩ := firstIndex_eq_some hq
      simp only [targetElement, hf]
      rw [activeViews_modifyAt (hideSections_none_active l), hi]
      simp only [Element.isActiveView, isSection_addClass, hasClass_addClass]
      simp
  rw [e4, e3, e2, targetElement_hideSections]
  cases targetElement l name with
  | none => rfl
  | some e =>
    simp only [Option.map_some']
    by_cases hs : e.isSection = true
    · have hc : e.hasClass "content-section" = true := hs
      simp only [hc, if_true, isSection_removeClass, hs]
    · simp only [Bool.not_eq_true] at hs
      have hc : e.hasClass "content-section" = false := hs
      simp [hc, hs]

/-- The document after `showSection`, whether or not a history entry is pushed. -/
theorem showSection_eq_some {r r1 : Router} {name : String} {push : Bool}
    (h : showSection r name push = some r1) :
    r1.dom = highlightLink (clearNavLinks (showTarget (hideSections r.dom) name)) name ∧
    r1.currentSection = name := by
  unfold showSection at h
  split at h
  · simp only [Option.some.injEq] at h
    subst h
    cases push <;> exact ⟨rfl, rfl⟩
  · exact absurd h (by simp)

/-- C10 as stated fails: on the sample dashboard, `showSection('settings')`, a name
for which the page has no view, leaves no section view active, while
`currentSection` becomes `settings`. -/
theorem C10_unknown_section_no_active_view :
    ∃ r1 : Router, showSection sampleRouter "settings" true = some r1 ∧
      r1.currentSection = "settings" ∧ activeViews r1.dom = [] :=
  ⟨_, rfl, rfl, by decide⟩

/-- C10, amended: on a page whose section views are neither nav links nor carry
the shown name in a `data-section` attribute, for every section name free of
quote, backslash, line-break and NUL characters and either `pushState` value,
`showSection` returns with `currentSection` set to the name, and: if the
element with id `name + '-section'` is a section view, exactly one section view
is active and it is that view, the view of `currentSection`; if there is no
such element, or it is not a section view, no section view is active. -/
theorem C10_showSection_active_view (r : Router) (name : String) (push : Bool)
    (hsafe : selectorSafe name = true) (hdom : viewsApart r.dom name) :
    ∃ r1 : Router, showSection r name push = some r1 ∧ r1.currentSection = name ∧
      (∀ e, targetElement r.dom name = some e → e.isSection = true →
        (activeViews r1.dom).length = 1 ∧
        ∀ v ∈ activeViews r1.dom, v.id = some (r1.currentSection ++ "-section")) ∧
      ((∀ e, targetElement r.dom name = some e → e.isSection = false) →
        activeViews r1.dom = []) := by
  have hsome : ∃ r1, showSection r name push = some r1 := by
    simp [showSection, hsafe]
  obtain ⟨r1, hr1⟩ := hsome
  obtain ⟨hd, hc⟩ := showSection_eq_some hr1
  have hv := activeViews_showSection r.dom name hdom
  rw [← hd] at hv
  refine ⟨r1, hr1, hc, ?_, ?_⟩
  · intro e he hs
    rw [hv, he]
    simp only [hs, if_true, List.length_singleton, List.mem_singleton, true_and]
    intro v hvv
    subst hvv
    rw [id_addClass, id_removeClass, hc]
    have := List.find?_some he
    simpa using this
  · intro hall
    rw [hv]
    cases he : targetElement r.dom name with
    | none => rfl
    | some e => simp [hall e he]

theorem C10_showSection_active_view_witness :
    selectorSafe "exams" = true ∧ viewsApart sampleRouter.dom "exams" ∧
    ∃ r1 : Router, showSection sampleRouter "exams" true = some r1 ∧ r1.currentSection = "exams" ∧
      (∀ e, targetElement sampleRouter.dom "exams" = some e → e.isSection = true →
        (activeViews r1.dom).length = 1 ∧
        ∀ v ∈ activeViews r1.dom, v.id = some (r1.currentSection ++ "-section")) ∧
      ((∀ e, targetElement sampleRouter.dom "exams" = some e → e.isSection = false) →
        activeViews r1.dom = []) :=
  ⟨by decide, by unfold viewsApart; decide,
    C10_showSection_active_view sampleRouter "exams" true (by decide)
      (by unfold viewsApart; decide)⟩

/-! ## Router transitions: C11, C12 -/

theorem inFragmentSet_of_controlOrSpace {c : Char} (h : isControlOrSpace c = true) :
    inFragmentSet c = true := by
  simp only [isControlOrSpace, decide_eq_true_eq] at h
  simp only [inFragmentSet, Bool.or_eq_true, decide_eq_true_eq, beq_iff_eq]
  omega

theorem inFragmentSet_of_tabOrNewline {c : Char} (h : isTabOrNewline c = true) :
    inFragmentSet c = true := by
  simp only [isTabOrNewline, Bool.or_eq_true, beq_iff_eq] at h
  simp only [inFragmentSet, Bool.or_eq_true, decide_eq_true_eq, beq_iff_eq]
  omega

theorem dropWhile_eq_self_of_all {p : Char → Bool} : ∀ {l : List Char},
    (∀ c ∈ l, p c = false) → l.dropWhile p = l := by
  intro l
  cases l with
  | nil => intro _; rfl
  | cons a l =>
    intro h
    simp [List.dropWhile, h a (List.mem_cons_self _ _)]

theorem flatten_map_encode_plain : ∀ {l : List Char}, (∀ c ∈ l, inFragmentSet c = false) →
    (l.map encodeFragmentChar).flatten = l := by
  intro l
  induction l with
  | nil => intro _; rfl
  | cons a l ih =>
    intro h
    have ha := h a (List.mem_cons_self _ _)
    simp only [List.map_cons, List.flatten_cons, encodeFragmentChar, ha]
    rw [ih (fun c hc => h c (List.mem_cons_of_mem _ hc))]
    rfl

/-- The URL parser leaves a plain name as it is. -/
theorem urlFragment_plain {name : String} (h : urlPlain name = true) : urlFragment name = name := by
  have hall : ∀ c ∈ name.data, inFragmentSet c = false := by
    intro c hc
    simp only [urlPlain, List.all_eq_true] at h
    simpa using h c hc
  have h1 : (name.data.reverse.dropWhile isControlOrSpace).reverse = name.data := by
    rw [dropWhile_eq_self_of_all, List.reverse_reverse]
    intro c hc
    cases hcs : isControlOrSpace c with
    | false => rfl
    | true =>
      have := inFragmentSet_of_controlOrSpace hcs
      rw [hall c (List.mem_reverse.1 hc)] at this
      exact absurd this (by simp)
  have h2 : name.data.filter (fun c => !isTabOrNewline c) = name.data := by
    rw [List.filter_eq_self]
    intro c hc
    cases hcs : isTabOrNewline c with
    | false => rfl
    | true =>
      have := inFragmentSet_of_tabOrNewline hcs
      rw [hall c hc] at this
      exact absurd this (by simp)
  unfold urlFragment
  simp only
  rw [h1, h2, flatten_map_encode_plain hall]

theorem hexDigit_plain {n : Nat} (h : n < 16) : inFragmentSet (hexDigit n) = false := by
  interval_cases n <;> decide

theorem utf8Bytes_lt {n : Nat} (h : n < 0x110000) : ∀ b ∈ utf8Bytes n, b < 256 := by
  intro b hb
  unfold utf8Bytes at hb
  split at hb
  · simp only [List.mem_singleton] at hb
    omega
  · split at hb
    · simp only [List.mem_cons, List.mem_singleton, List.not_mem_nil, or_false] at hb
      omega
    · split at hb
      · simp only [List.mem_cons, List.mem_singleton, List.not_mem_nil, or_false] at hb
        omega
      · simp only [List.mem_cons, List.mem_singleton, List.not_mem_nil, or_false] at hb
        omega

theorem char_toNat_lt (c : Char) : c.toNat < 0x110000 := by
  have := c.valid
  simp only [Char.toNat]
  rcases this with h | ⟨_, h⟩
  · have : c.val.toNat < 0xd800 := h
    omega
  · exact h

/-- Every character of a fragment written by the URL parser is outside the
fragment percent-encode set. -/
theorem urlFragment_chars (name : String) :
    ∀ c ∈ (urlFragment name).data, inFragmentSet c = false := by
  intro c hc
  simp only [urlFragment, List.mem_flatten, List.mem_map] at hc
  obtain ⟨l, ⟨a, _, rfl⟩, hcl⟩ := hc
  unfold encodeFragmentChar at hcl
  split at hcl
  · simp only [List.mem_flatten, List.mem_map] at hcl
    obtain ⟨l2, ⟨b, hb, rfl⟩, hc2⟩ := hcl
    have hb256 := utf8Bytes_lt (char_toNat_lt a) b hb
    simp only [percentByte, List.mem_cons, List.mem_singleton, List.not_mem_nil, or_false] at hc2
    rcases hc2 with rfl | rfl | rfl
    · decide
    · exact hexDigit_plain (by omega)
    · exact hexDigit_plain (by omega)
  · rename_i hn
    simp only [List.mem_singleton] at hcl
    subst hcl
    simpa using hn

/-- The fragment the URL parser makes of a name is the name exactly when the name
is plain. -/
theorem urlFragment_eq_iff (name : String) : urlFragment name = name ↔ urlPlain name = true := by
  constructor
  · intro h
    have := urlFragment_chars name
    rw [h] at this
    simp only [urlPlain, List.all_eq_true]
    intro c hc
    simp [this c hc]
  · exact urlFragment_plain

/-- Function `showSection` returns exactly for the names it accepts, with this result. -/
theorem showSection_spec (r : Router) (name : String) (push : Bool)
    (hsafe : selectorSafe name = true) :
    showSection r name push =
      some (loadSectionData
        { (if push then pushState { r with dom := shownDom r.dom name } name
            else { r with dom := shownDom r.dom name }) with currentSection := name } name) := by
  simp [showSection, hsafe, shownDom]

/-- The history and the URL fragment after `showSection(name, true)`. -/
theorem showSection_push (r : Router) (name : String) (hsafe : selectorSafe name = true) :
    ∃ r1, showSection r name true = some r1 ∧ r1.dom = shownDom r.dom name ∧
      r1.currentSection = name ∧ r1.fragment = urlFragment name ∧
      r1.entries = r.entries.take (r.index + 1) ++ [pushedEntry name] ∧
      r1.index = (r.entries.take (r.index + 1)).length :=
  ⟨_, showSection_spec r name true hsafe, rfl, rfl, rfl, rfl, rfl⟩

/-- The history and the URL fragment after `showSection(name, false)`. -/
theorem showSection_keep (r : Router) (name : String) (hsafe : selectorSafe name = true) :
    ∃ r1, showSection r name false = some r1 ∧ r1.dom = shownDom r.dom name ∧
      r1.currentSection = name ∧ r1.fragment = r.fragment ∧
      r1.entries = r.entries ∧ r1.index = r.index :=
  ⟨_, showSection_spec r name false hsafe, rfl, rfl, rfl, rfl, rfl⟩

theorem knownSections_safe {name : String} (h : name ∈ knownSections) :
    selectorSafe name = true := by
  simp only [knownSections, List.mem_cons, List.mem_singleton, List.not_mem_nil, or_false] at h
  rcases h with rfl | rfl | rfl | rfl <;> decide

/-- The function `removeFirstHash` undoes the `#` that `locationHash` puts before a fragment. -/
theorem removeFirstHash_locationHash (fragment : String) :
    String.mk (removeFirstHash (locationHash fragment).data) = fragment := by
  unfold locationHash
  split
  · rename_i h
    subst h
    rfl
  · show String.mk (removeFirstHash ("#" ++ fragment).data) = fragment
    have : ("#" ++ fragment).data = '#' :: fragment.data := rfl
    rw [this]
    simp [removeFirstHash]

/-- What the `load` handler does, by cases on the fragment. -/
theorem onLoad_eq (r : Router) (lh : String) :
    onLoad r lh =
      if String.mk (removeFirstHash lh.data) ∈ knownSections then
        showSection r (String.mk (removeFirstHash lh.data)) false
      else showSection r "dashboard" false := by
  unfold onLoad
  simp only
  generalize String.mk (removeFirstHash lh.data) = h
  by_cases hk : h ∈ knownSections
  · have hne : (h != "") = true := by
      simp only [knownSections, List.mem_cons, List.mem_singleton, List.not_mem_nil,
        or_false] at hk
      rcases hk with h1 | h1 | h1 | h1 <;> rw [h1] <;> decide
    have hc : (["dashboard", "exams", "seating", "profile"].contains h) = true := by
      simpa [knownSections] using hk
    rw [if_pos hk, if_pos (by rw [hne, hc]; rfl)]
  · have hc : (["dashboard", "exams", "seating", "profile"].contains h) = false := by
      simpa [knownSections] using hk
    rw [if_neg hk, if_neg (by rw [hc]; simp)]

/-- C11 as stated fails: boot resolution on a URL without fragment shows the
dashboard: `currentSection` is `dashboard` while the URL fragment stays empty. -/
theorem C11_boot_without_fragment :
    ∃ r1 : Router, onLoad sampleRouter (locationHash sampleRouter.fragment) = some r1 ∧
      r1.currentSection = "dashboard" ∧ r1.fragment = "" ∧ r1.fragment ≠ r1.currentSection :=
  ⟨_, rfl, rfl, rfl, by decide⟩

/-- C11, amended: for every section name `showSection` accepts (no quote,
backslash, line break or NUL), after `showSection(name, true)` `currentSection`
is the name and the URL fragment is the name as the URL parser writes it; the
two are equal exactly when the name is plain, that is printable ASCII without
space, `<`, `>` and grave accent, as the four section names are.
`showSection(name, false)` sets `currentSection` and leaves the URL fragment
as it was.  So after a history-pop to an entry pushed by `showSection` with a
non-empty name the fragment is again that name as the URL parser writes it,
equal to `currentSection` exactly for a plain name, and after boot resolution
on a fragment that names a recognized section the fragment equals
`currentSection`; after boot resolution on another fragment `currentSection`
is `dashboard` and the fragment is unchanged, and a history-pop to an entry
without section state changes the fragment only. -/
theorem C11_fragment_and_currentSection (r : Router) :
    (∀ name, selectorSafe name = true →
      ∃ r1, showSection r name true = some r1 ∧ r1.currentSection = name ∧
        r1.fragment = urlFragment name ∧
        (r1.fragment = r1.currentSection ↔ urlPlain name = true)) ∧
    (∀ name, selectorSafe name = true →
      ∃ r1, showSection r name false = some r1 ∧ r1.currentSection = name ∧
        r1.fragment = r.fragment) ∧
    (∀ k entry name, r.entries[k]? = some entry → entry.pushed →
      entry.stateSection = some name → name ≠ "" →
      ∃ r1, traverse r k = some r1 ∧ r1.currentSection = name ∧
        r1.fragment = urlFragment name ∧
        (r1.fragment = r1.currentSection ↔ urlPlain name = true)) ∧
    (∀ k entry, r.entries[k]? = some entry → entry.stateSection = none →
      traverse r k = some { r with index := k, fragment := entry.fragment }) ∧
    (r.fragment ∈ knownSections →
      ∃ r1, onLoad r (locationHash r.fragment) = some r1 ∧ r1.fragment = r1.currentSection) ∧
    (r.fragment ∉ knownSections →
      ∃ r1, onLoad r (locationHash r.fragment) = some r1 ∧ r1.currentSection = "dashboard" ∧
        r1.fragment = r.fragment) := by
  refine ⟨?_, ?_, ?_, ?_, ?_, ?_⟩
  · intro name hsafe
    obtain ⟨r1, h1, _, h3, h4, _⟩ := showSection_push r name hsafe
    exact ⟨r1, h1, h3, h4, by rw [h3, h4]; exact urlFragment_eq_iff name⟩
  · intro name hsafe
    obtain ⟨r1, h1, _, h3, h4, _⟩ := showSection_keep r name hsafe
    exact ⟨r1, h1, h3, h4⟩
  · intro k entry name hk hp hs hne
    obtain ⟨hf, hsafe⟩ := hp name hs
    obtain ⟨r1, h1, _, h3, h4, _⟩ :=
      showSection_keep { r with index := k, fragment := entry.fragment } name hsafe
    have h5 : r1.fragment = urlFragment name := by
      rw [h4]
      exact hf
    refine ⟨r1, ?_, h3, h5, by rw [h3, h5]; exact urlFragment_eq_iff name⟩
    simp only [traverse, hk, onPopState, hs]
    have : (name != "") = true := by simpa using hne
    simp only [this, if_true]
    exact h1
  · intro k entry hk hs
    simp [traverse, hk, onPopState, hs]
  · intro hk
    obtain ⟨r1, h1, _, h3, h4, _⟩ := showSection_keep r r.fragment (knownSections_safe hk)
    refine ⟨r1, ?_, by rw [h3, h4]⟩
    rw [onLoad_eq, removeFirstHash_locationHash, if_pos hk]
    exact h1
  · intro hk
    obtain ⟨r1, h1, _, h3, h4, _⟩ := showSection_keep r "dashboard" (by decide)
    refine ⟨r1, ?_, h3, h4⟩
    rw [onLoad_eq, removeFirstHash_locationHash, if_neg hk]
    exact h1

/-- C11, amended, on samples: `showSection('exams', true)` leaves the fragment
`exams`, equal to `currentSection`; `showSection('a b', true)` leaves the
fragment `a%20b` while `currentSection` is `a b`. -/
theorem C11_fragment_and_currentSection_witness :
    selectorSafe "exams" = true ∧ selectorSafe "a b" = true ∧
    (∃ r1, showSection sampleRouter "exams" true = some r1 ∧ r1.currentSection = "exams" ∧
      r1.fragment = urlFragment "exams" ∧
      (r1.fragment = r1.currentSection ↔ urlPlain "exams" = true)) ∧
    urlFragment "exams" = "exams" ∧
    (∃ r1, showSection sampleRouter "a b" true = some r1 ∧ r1.currentSection = "a b" ∧
      r1.fragment = urlFragment "a b" ∧
      (r1.fragment = r1.currentSection ↔ urlPlain "a b" = true)) ∧
    urlFragment "a b" = "a%20b" ∧ urlPlain "a b" = false :=
  ⟨by decide, by decide, (C11_fragment_and_currentSection sampleRouter).1 "exams" (by decide),
    by decide, (C11_fragment_and_currentSection sampleRouter).1 "a b" (by decide),
    by decide, by decide⟩

theorem backRouter_reached :
    (showSection sampleRouter "exams" true).bind (fun r => traverse r 0) = some backRouter := by
  decide

/-- C12 as stated fails: after `showSection('exams')` and a back navigation the
history has two entries, the first one current.  `showSection('seating', true)`
then leaves a history of two entries again: the entry of `exams` is dropped and
the stack is not the old stack with one entry appended. -/
theorem C12_push_drops_forward_entries :
    ∃ r1 : Router, showSection backRouter "seating" true = some r1 ∧
      r1.entries = [{ stateSection := none, fragment := "" }, pushedEntry "seating"] ∧
      r1.entries.length = backRouter.entries.length ∧
      r1.entries ≠ backRouter.entries ++ [pushedEntry "seating"] :=
  ⟨_, rfl, by decide, by decide, by decide⟩

/-- C12, amended: for every section name `showSection` accepts (no quote,
backslash, line break or NUL) and every router state, `showSection(name, true)`
pushes exactly one history entry, carrying state `{section: name}` and the URL
fragment the URL parser makes of `'#' + name`, right after the current entry:
the entries after the current one are dropped, the new entry becomes current,
and the URL fragment becomes that fragment, which is `name` itself when the
name is plain (printable ASCII without space, `<`, `>` and grave accent);
when the current entry is the last one the stack is the old stack with that
entry appended.  `showSection(name, false)` leaves the history stack, the
current entry and the URL fragment unchanged.  Both set `currentSection` to
`name`. -/
theorem C12_showSection_history (r : Router) (name : String) (hsafe : selectorSafe name = true) :
    (∃ r1, showSection r name true = some r1 ∧
      r1.entries = r.entries.take (r.index + 1) ++
        [{ stateSection := some name, fragment := urlFragment name }] ∧
      r1.entries[r1.index]? = some { stateSection := some name, fragment := urlFragment name } ∧
      r1.fragment = urlFragment name ∧ r1.currentSection = name ∧
      (urlPlain name = true → r1.fragment = name) ∧
      (r.index + 1 = r.entries.length →
        r1.entries = r.entries ++ [{ stateSection := some name, fragment := urlFragment name }] ∧
        r1.entries.length = r.entries.length + 1)) ∧
    (∃ r1, showSection r name false = some r1 ∧
      r1.entries = r.entries ∧ r1.index = r.index ∧ r1.fragment = r.fragment ∧
      r1.currentSection = name) := by
  constructor
  · obtain ⟨r1, h1, _, h3, h4, h5, h6⟩ := showSection_push r name hsafe
    refine ⟨r1, h1, h5, ?_, h4, h3, ?_, ?_⟩
    · rw [h5, h6]
      simp [pushedEntry]
    · intro hp
      rw [h4]
      exact urlFragment_plain hp
    · intro hlast
      have ht : r.entries.take (r.index + 1) = r.entries := by
        rw [hlast]
        exact List.take_length _
      rw [h5, ht]
      exact ⟨rfl, by simp [pushedEntry]⟩
  · obtain ⟨r1, h1, _, h3, h4, h5, h6⟩ := showSection_keep r name hsafe
    exact ⟨r1, h1, h5, h6, h4, h3⟩

/-- C12, amended, on a sample: `showSection('exams', true)` on a fresh page
appends the entry of `exams`, with fragment `exams`. -/
theorem C12_showSection_history_witness :
    selectorSafe "exams" = true ∧ sampleRouter.index + 1 = sampleRouter.entries.length ∧
    urlPlain "exams" = true ∧ urlFragment "exams" = "exams" ∧
    ∃ r1, showSection sampleRouter "exams" true = some r1 ∧
      r1.entries = sampleRouter.entries.take (sampleRouter.index + 1) ++
        [{ stateSection := some "exams", fragment := urlFragment "exams" }] ∧
      r1.entries[r1.index]? = some { stateSection := some "exams", fragment := urlFragment "exams" } ∧
      r1.fragment = urlFragment "exams" ∧ r1.currentSection = "exams" ∧
      (urlPlain "exams" = true → r1.fragment = "exams") ∧
      (sampleRouter.index + 1 = sampleRouter.entries.length →
        r1.entries = sampleRouter.entries ++
          [{ stateSection := some "exams", fragment := urlFragment "exams" }] ∧
        r1.entries.length = sampleRouter.entries.length + 1) :=
  ⟨by decide, by decide, by decide, by decide,
    (C12_showSection_history sampleRouter "exams" (by decide)).1⟩

/-! ## Boot resolution: C14 -/

/-- C14: for every value of `window.location.hash` at page load, with `name` the
hash with its first `#` removed: if `name` is one of dashboard, exams, seating,
profile the `load` handler calls `showSection(name, false)`, otherwise
`showSection('dashboard', false)`.  The call returns, `currentSection` is the
section chosen, no history entry is pushed (history, current entry and URL
fragment are unchanged), and on a page where the view of the chosen section
exists (and section views are neither nav links nor carry its name in
`data-section`) exactly that view is active. -/
theorem C14_boot_resolution (r : Router) (lh : String) :
    (String.mk (removeFirstHash lh.data) ∈ knownSections →
      onLoad r lh = showSection r (String.mk (removeFirstHash lh.data)) false) ∧
    (String.mk (removeFirstHash lh.data) ∉ knownSections →
      onLoad r lh = showSection r "dashboard" false) ∧
    (∃ r1, onLoad r lh = some r1 ∧
      r1.currentSection = (if String.mk (removeFirstHash lh.data) ∈ knownSections then
        String.mk (removeFirstHash lh.data) else "dashboard") ∧
      r1.entries = r.entries ∧ r1.index = r.index ∧ r1.fragment = r.fragment ∧
      (viewsApart r.dom r1.currentSection →
        ∀ e, targetElement r.dom r1.currentSection = some e → e.isSection = true →
          (activeViews r1.dom).length = 1 ∧
          ∀ v ∈ activeViews r1.dom, v.id = some (r1.currentSection ++ "-section"))) := by
  have key : ∀ name, selectorSafe name = true →
      ∃ r1, showSection r name false = some r1 ∧ r1.currentSection = name ∧
        r1.entries = r.entries ∧ r1.index = r.index ∧ r1.fragment = r.fragment ∧
        (viewsApart r.dom r1.currentSection →
          ∀ e, targetElement r.dom r1.currentSection = some e → e.isSection = true →
            (activeViews r1.dom).length = 1 ∧
            ∀ v ∈ activeViews r1.dom, v.id = some (r1.currentSection ++ "-section")) := by
    intro name hsafe
    obtain ⟨r1, h1, h2, h3, h4, h5, h6⟩ := showSection_keep r name hsafe
    refine ⟨r1, h1, h3, h5, h6, h4, ?_⟩
    rw [h3]
    intro hdom e he hs
    have hv := activeViews_showSection r.dom name hdom
    rw [h2, shownDom, hv, he]
    simp only [hs, if_true, List.length_singleton, List.mem_singleton, true_and]
    intro v hvv
    subst hvv
    rw [id_addClass, id_removeClass]
    have := List.find?_some he
    simpa using this
  refine ⟨fun hk => by rw [onLoad_eq, if_pos hk], fun hk => by rw [onLoad_eq, if_neg hk], ?_⟩
  rw [onLoad_eq]
  by_cases hk : String.mk (removeFirstHash lh.data) ∈ knownSections
  · simp only [if_pos hk]
    exact key _ (knownSections_safe hk)
  · simp only [if_neg hk]
    exact key "dashboard" (by decide)

theorem C14_boot_resolution_witness :
    String.mk (removeFirstHash "#exams".data) ∈ knownSections ∧
    onLoad sampleRouter "#exams" = showSection sampleRouter "exams" false :=
  ⟨by decide, (C14_boot_resolution sampleRouter "#exams").1 (by decide)⟩

/-! ## Two calls of `showSection`: C13 -/

theorem sameShape_refl (l : List Element) : SameShape l l := by
  induction l with
  | nil => exact List.Forall₂.nil
  | cons a l ih => exact List.Forall₂.cons ⟨rfl, rfl, rfl, rfl⟩ ih

theorem sameShape_trans {l l1 l2 : List Element} (h1 : SameShape l l1) (h2 : SameShape l1 l2) :
    SameShape l l2 := by
  induction h1 generalizing l2 with
  | nil => cases h2; exact List.Forall₂.nil
  | cons ha _ ih =>
    cases h2 with
    | cons hb hr =>
      refine List.Forall₂.cons ?_ (ih hr)
      exact ⟨hb.1.trans ha.1, hb.2.1.trans ha.2.1, hb.2.2.1.trans ha.2.2.1,
        hb.2.2.2.trans ha.2.2.2⟩

theorem sameShape_map {g : Element → Element} (hg : Keeps g) (l : List Element) :
    SameShape l (l.map g) := by
  induction l with
  | nil => exact List.Forall₂.nil
  | cons a l ih => exact List.Forall₂.cons (hg a) ih

theorem sameShape_modifyAt {f : Element → Element} (hf : Keeps f) :
    ∀ (l : List Element) (i : Nat), SameShape l (modifyAt f l i) := by
  intro l
  induction l with
  | nil => intro i; exact List.Forall₂.nil
  | cons a l ih =>
    intro i
    cases i with
    | zero => exact List.Forall₂.cons (hf a) (sameShape_refl l)
    | succ i => exact List.Forall₂.cons ⟨rfl, rfl, rfl, rfl⟩ (ih i)

theorem sameShape_showTarget (l : List Element) (name : String) :
    SameShape l (showTarget l name) := by
  unfold showTarget
  split
  · exact sameShape_modifyAt keeps_addActive l _
  · exact sameShape_refl l

theorem sameShape_highlightLink (l : List Element) (name : String) :
    SameShape l (highlightLink l name) := by
  unfold highlightLink
  split
  · exact sameShape_modifyAt keeps_addActive l _
  · exact sameShape_refl l

/-- Up to `clearNavLinks` the steps of `showSection` keep the shape of the document. -/
theorem sameShape_cleared (l : List Element) (name : String) :
    SameShape l (clearNavLinks (showTarget (hideSections l) name)) :=
  sameShape_trans
    (sameShape_trans (sameShape_map (keeps_removeActive_if _) l)
      (sameShape_showTarget _ name))
    (sameShape_map (keeps_removeActive_if _) _)

/-- The four steps of `showSection` keep the shape of the document. -/
theorem sameShape_shownDom (l : List Element) (name : String) : SameShape l (shownDom l name) :=
  sameShape_trans (sameShape_cleared l name) (sameShape_highlightLink _ name)

theorem viewsApart_sameShape {l l1 : List Element} {name : String} (h : SameShape l l1)
    (hv : viewsApart l name) : viewsApart l1 name := by
  induction h with
  | nil => intro e he; simp at he
  | @cons a b l l1 ha _ ih =>
    intro e he hs
    rcases List.mem_cons.mp he with rfl | he
    · rw [ha.2.2.1] at hs
      rw [ha.2.2.2, ha.2.1]
      exact hv a (List.mem_cons_self _ _) hs
    · exact ih (fun x hx => hv x (List.mem_cons_of_mem _ hx)) e he hs

/-- The element found by its `data-section` in a document of the same shape. -/
theorem linkElement_sameShape {l l1 : List Element} {name : String} (h : SameShape l l1)
    {e : Element} (he : linkElement l name = some e) :
    ∃ x, linkElement l1 name = some x ∧ e.alike x := by
  induction h with
  | nil => simp [linkElement] at he
  | @cons a b l l1 ha _ ih =>
    unfold linkElement at he ⊢
    by_cases hp : (a.dataSection == some name) = true
    · have hq : (b.dataSection == some name) = true := by rw [ha.2.1]; exact hp
      simp only [List.find?, hp, Option.some.injEq] at he
      subst he
      exact ⟨b, by simp [List.find?, hq], ha⟩
    · simp only [Bool.not_eq_true] at hp
      have hq : (b.dataSection == some name) = false := by rw [ha.2.1]; exact hp
      simp only [List.find?, hp] at he
      obtain ⟨x, hx, hax⟩ := ih he
      exact ⟨x, by simpa [List.find?, hq, linkElement] using hx, hax⟩

/-- The element found by its id in a document of the same shape. -/
theorem targetElement_sameShape {l l1 : List Element} {name : String} (h : SameShape l l1)
    {e : Element} (he : targetElement l name = some e) :
    ∃ x, targetElement l1 name = some x ∧ e.alike x := by
  induction h with
  | nil => simp [targetElement] at he
  | @cons a b l l1 ha _ ih =>
    unfold targetElement at he ⊢
    by_cases hp : (a.id == some (name ++ "-section")) = true
    · have hq : (b.id == some (name ++ "-section")) = true := by rw [ha.1]; exact hp
      simp only [List.find?, hp, Option.some.injEq] at he
      subst he
      exact ⟨b, by simp [List.find?, hq], ha⟩
    · simp only [Bool.not_eq_true] at hp
      have hq : (b.id == some (name ++ "-section")) = false := by rw [ha.1]; exact hp
      simp only [List.find?, hp] at he
      obtain ⟨x, hx, hax⟩ := ih he
      exact ⟨x, by simpa [List.find?, hq, targetElement] using hx, hax⟩


/-- Modifying one element of a list in which nothing satisfies `p`: at most the
modified element satisfies `p` afterwards. -/
theorem filter_modifyAt {f : Element → Element} {p : Element → Bool} :
    ∀ {l : List Element} {i : Nat}, (∀ e ∈ l, p e = false) →
    (modifyAt f l i).filter p =
      match l[i]? with
      | some e => if p (f e) then [f e] else []
      | none => [] := by
  intro l
  induction l with
  | nil => intro i _; simp [modifyAt]
  | cons a l ih =>
    intro i h
    have ha : p a = false := h a (List.mem_cons_self _ _)
    have hl : ∀ e ∈ l, p e = false := fun e he => h e (List.mem_cons_of_mem _ he)
    have hl0 : List.filter p l = [] := by
      rw [List.filter_eq_nil_iff]
      intro e he
      simp [hl e he]
    cases i with
    | zero =>
      simp only [modifyAt, List.getElem?_cons_zero, List.filter_cons, hl0]
    | succ i =>
      have := ih (i := i) hl
      simp only [modifyAt, List.getElem?_cons_succ, List.filter_cons, ha,
        Bool.false_eq_true, if_false, this]

/-- After `clearNavLinks` no nav link is highlighted. -/
theorem clearNavLinks_none_active (l : List Element) :
    ∀ e ∈ clearNavLinks l, (e.hasClass "nav-link" && e.hasClass "active") = false := by
  intro x hx
  obtain ⟨e, _, rfl⟩ := List.mem_map.mp hx
  by_cases h : e.hasClass "nav-link" = true
  · simp only [h, if_true, hasClass_removeClass]
    simp
  · simp only [Bool.not_eq_true] at h
    simp [h]

/-- The nav links highlighted after the four steps of `showSection`: if the first
element carrying the name in `data-section` is a nav link, that link and nothing
else. -/
theorem activeLinks_shownDom (l : List Element) (name : String) {e : Element}
    (he : linkElement l name = some e) (hn : e.hasClass "nav-link" = true) :
    ∃ x, activeLinks (shownDom l name) = [x] ∧ x.dataSection = some name ∧
      x.hasClass "nav-link" = true := by
  obtain ⟨l3, h3, hal⟩ := linkElement_sameShape (sameShape_cleared l name) he
  have hds : e.dataSection = some name := by
    have := List.find?_some he
    simpa using this
  unfold shownDom highlightLink queryDataSection
  cases hq : firstIndex (fun e => e.dataSection == some name)
      (clearNavLinks (showTarget (hideSections l) name)) with
  | none =>
    have := firstIndex_eq_none hq
    rw [linkElement] at h3
    rw [h3] at this
    exact absurd this (by simp)
  | some i =>
    obtain ⟨x, hf, hi, _⟩ := firstIndex_eq_some hq
    rw [linkElement] at h3
    rw [h3, Option.some.injEq] at hf
    subst hf
    refine ⟨l3.addClass "active", ?_, ?_, ?_⟩
    · simp only [activeLinks]
      rw [filter_modifyAt (clearNavLinks_none_active _), hi]
      simp only [navLink_addClass, hasClass_addClass, hal.2.2.2, hn]
      simp
    · rw [dataSection_addClass, hal.2.1, hds]
    · rw [navLink_addClass, hal.2.2.2, hn]


/-- C13 as stated fails: after `showSection('exams')` and a back navigation
(`backRouter`: two history entries, the first one current), the calls
`showSection('exams')` and `showSection('dashboard', false)` leave a history of
two entries, not one more than before the two calls: the first call drops the
entry after the current one and pushes one. -/
theorem C13_history_not_longer :
    (showSection sampleRouter "exams" true).bind (fun r => traverse r 0) = some backRouter ∧
    ∃ r1 r2 : Router, showSection backRouter "exams" true = some r1 ∧
      showSection r1 "dashboard" false = some r2 ∧
      r2.currentSection = "dashboard" ∧
      backRouter.entries.length = 2 ∧ r2.entries.length = 2 :=
  ⟨by decide, _, _, rfl, rfl, by decide, by decide, by decide⟩

/-- C13, amended: let `a` and `b` be section names `showSection` accepts, on a page
where the element with id `b + '-section'` is a section view, the first element
carrying `data-section = b` is a nav link, and section views are neither nav
links nor carry `b` in `data-section`.  Then `showSection(a)` followed by
`showSection(b, false)` leaves exactly the view of `b` active and exactly the
nav link of `b` highlighted, sets `currentSection` to `b`, and the second call
pushes nothing: the history is the one left by the first call, the entries up
to the current one followed by the entry of `a`; it is exactly one entry longer
than before the two calls when the current entry was the last one. -/
theorem C13_two_calls (r : Router) (a b : String)
    (ha : selectorSafe a = true) (hb : selectorSafe b = true)
    (hdom : viewsApart r.dom b)
    (v : Element) (hv : targetElement r.dom b = some v) (hvs : v.isSection = true)
    (l : Element) (hl : linkElement r.dom b = some l) (hln : l.hasClass "nav-link" = true) :
    ∃ r1 r2 : Router, showSection r a true = some r1 ∧ showSection r1 b false = some r2 ∧
      ((activeViews r2.dom).length = 1 ∧
        ∀ x ∈ activeViews r2.dom, x.id = some (b ++ "-section")) ∧
      (∃ x, activeLinks r2.dom = [x] ∧ x.dataSection = some b ∧ x.hasClass "nav-link" = true) ∧
      r2.currentSection = b ∧
      r2.entries = r1.entries ∧
      r2.entries = r.entries.take (r.index + 1) ++ [{ stateSection := some a, fragment := urlFragment a }] ∧
      (r.index + 1 = r.entries.length → r2.entries.length = r.entries.length + 1) := by
  obtain ⟨r1, h1, hd1, _, _, he1, _⟩ := showSection_push r a ha
  obtain ⟨r2, h2, hd2, hc2, _, he2, _⟩ := showSection_keep r1 b hb
  have hshape : SameShape r.dom r1.dom := by
    rw [hd1]
    exact sameShape_shownDom r.dom a
  have hdom1 : viewsApart r1.dom b := viewsApart_sameShape hshape hdom
  obtain ⟨v1, hv1, hav⟩ := targetElement_sameShape hshape hv
  obtain ⟨l1, hl1, hal⟩ := linkElement_sameShape hshape hl
  have hvid : v.id = some (b ++ "-section") := by
    have := List.find?_some hv
    simpa using this
  refine ⟨r1, r2, h1, h2, ?_, ?_, hc2, he2, ?_, ?_⟩
  · have hviews := activeViews_showSection r1.dom b hdom1
    rw [hd2, shownDom, hviews, hv1]
    simp only [hav.2.2.1, hvs, if_true, List.length_singleton, List.mem_singleton, true_and]
    intro x hx
    subst hx
    rw [id_addClass, id_removeClass, hav.1, hvid]
  · rw [hd2]
    exact activeLinks_shownDom r1.dom b hl1 (by rw [hal.2.2.2, hln])
  · rw [he2, he1]
    rfl
  · intro hlast
    rw [he2, he1]
    have ht : r.entries.take (r.index + 1) = r.entries := by
      rw [hlast]
      exact List.take_length _
    rw [ht]
    simp

theorem C13_two_calls_witness :
    selectorSafe "exams" = true ∧ selectorSafe "dashboard" = true ∧
    viewsApart sampleRouter.dom "dashboard" ∧
    targetElement sampleRouter.dom "dashboard" =
      some { id := some "dashboard-section", classes := ["content-section", "active"],
             dataSection := none } ∧
    linkElement sampleRouter.dom "dashboard" =
      some { id := none, classes := ["nav-link", "active"], dataSection := some "dashboard" } ∧
    ∃ r1 r2 : Router, showSection sampleRouter "exams" true = some r1 ∧
      showSection r1 "dashboard" false = some r2 ∧
      ((activeViews r2.dom).length = 1 ∧
        ∀ x ∈ activeViews r2.dom, x.id = some ("dashboard" ++ "-section")) ∧
      (∃ x, activeLinks r2.dom = [x] ∧ x.dataSection = some "dashboard" ∧
        x.hasClass "nav-link" = true) ∧
      r2.currentSection = "dashboard" ∧
      r2.entries = r1.entries ∧
      r2.entries = sampleRouter.entries.take (sampleRouter.index + 1) ++
        [{ stateSection := some "exams", fragment := "exams" }] ∧
      (sampleRouter.index + 1 = sampleRouter.entries.length →
        r2.entries.length = sampleRouter.entries.length + 1) :=
  ⟨by decide, by decide, by unfold viewsApart; decide, by decide, by decide,
    C13_two_calls sampleRouter "exams" "dashboard" (by decide) (by decide)
      (by unfold viewsApart; decide)
      { id := some "dashboard-section", classes := ["content-section", "active"],
        dataSection := none } (by decide) (by decide)
      { id := none, classes := ["nav-link", "active"], dataSection := some "dashboard" }
      (by decide) (by decide)⟩

/-! ## Email validation: C17 -/

theorem Rx.lang_empty_false {s : List Char} : ¬ Rx.Lang Rx.empty s := by
  intro h
  cases h

theorem Rx.lang_eps_iff {s : List Char} : Rx.Lang Rx.eps s ↔ s = [] := by
  constructor
  · intro h
    cases h
    rfl
  · rintro rfl
    exact Rx.Lang.eps

theorem Rx.lang_cls_iff {p : Char → Bool} {s : List Char} :
    Rx.Lang (Rx.cls p) s ↔ ∃ c, s = [c] ∧ p c = true := by
  constructor
  · intro h
    cases h with
    | cls hp => exact ⟨_, rfl, hp⟩
  · rintro ⟨c, rfl, hp⟩
    exact Rx.Lang.cls hp

theorem Rx.lang_seq_iff {a b : Rx} {s : List Char} :
    Rx.Lang (Rx.seq a b) s ↔ ∃ u v, s = u ++ v ∧ Rx.Lang a u ∧ Rx.Lang b v := by
  constructor
  · intro h
    cases h with
    | seq ha hb => exact ⟨_, _, rfl, ha, hb⟩
  · rintro ⟨u, v, rfl, ha, hb⟩
    exact Rx.Lang.seq ha hb

theorem Rx.lang_alt_iff {a b : Rx} {s : List Char} :
    Rx.Lang (Rx.alt a b) s ↔ Rx.Lang a s ∨ Rx.Lang b s := by
  constructor
  · intro h
    cases h with
    | altLeft ha => exact Or.inl ha
    | altRight hb => exact Or.inr hb
  · rintro (h | h)
    · exact Rx.Lang.altLeft h
    · exact Rx.Lang.altRight h

/-- A non-empty word of a repetition starts with a non-empty word of the
repeated pattern. -/
theorem Rx.lang_star_cons {a : Rx} {c : Char} {s : List Char}
    (h : Rx.Lang (Rx.star a) (c :: s)) :
    ∃ u v, s = u ++ v ∧ Rx.Lang a (c :: u) ∧ Rx.Lang (Rx.star a) v := by
  generalize hr : Rx.star a = r at h
  generalize hw : c :: s = w at h
  induction h generalizing s with
  | eps => cases hr
  | cls _ => cases hr
  | seq _ _ => cases hr
  | altLeft _ => cases hr
  | altRight _ => cases hr
  | starNil => cases hw
  | @starCons a1 u v hu hv _ ih =>
    cases hr
    cases u with
    | nil =>
      simp only [List.nil_append] at hw
      exact ih rfl hw
    | cons d u =>
      simp only [List.cons_append, List.cons.injEq] at hw
      obtain ⟨rfl, rfl⟩ := hw
      exact ⟨u, v, rfl, hu, hv⟩

theorem Rx.nullable_iff (r : Rx) : r.nullable = true ↔ Rx.Lang r [] := by
  induction r with
  | empty => simp [Rx.nullable, Rx.lang_empty_false]
  | eps => simp [Rx.nullable, Rx.lang_eps_iff]
  | cls p => simp [Rx.nullable, Rx.lang_cls_iff]
  | seq a b iha ihb =>
    simp only [Rx.nullable, Bool.and_eq_true, iha, ihb, Rx.lang_seq_iff]
    constructor
    · rintro ⟨ha, hb⟩
      exact ⟨[], [], rfl, ha, hb⟩
    · rintro ⟨u, v, h, ha, hb⟩
      have hu : u = [] := by
        cases u with
        | nil => rfl
        | cons _ _ => simp at h
      have hv : v = [] := by
        cases v with
        | nil => rfl
        | cons _ _ => simp [hu] at h
      subst hu hv
      exact ⟨ha, hb⟩
  | alt a b iha ihb => simp [Rx.nullable, iha, ihb, Rx.lang_alt_iff]
  | star a _ => simp [Rx.nullable, Rx.Lang.starNil]

theorem Rx.deriv_iff (r : Rx) (c : Char) :
    ∀ s : List Char, Rx.Lang (r.deriv c) s ↔ Rx.Lang r (c :: s) := by
  induction r with
  | empty => intro s; simp [Rx.deriv, Rx.lang_empty_false]
  | eps => intro s; simp [Rx.deriv, Rx.lang_empty_false, Rx.lang_eps_iff]
  | cls p =>
    intro s
    simp only [Rx.deriv, Rx.lang_cls_iff]
    by_cases hp : p c = true
    · simp only [hp, if_true, Rx.lang_eps_iff]
      constructor
      · rintro rfl
        exact ⟨c, rfl, hp⟩
      · rintro ⟨d, h, _⟩
        simp only [List.cons.injEq] at h
        exact h.2
    · simp only [hp, Bool.false_eq_true, if_false]
      constructor
      · intro h
        exact absurd h Rx.lang_empty_false
      · rintro ⟨d, h, hd⟩
        simp only [List.cons.injEq] at h
        rw [← h.1] at hd
        exact absurd hd hp
  | seq a b iha ihb =>
    intro s
    have key : Rx.Lang (Rx.seq (a.deriv c) b) s ↔
        ∃ u v, s = u ++ v ∧ Rx.Lang a (c :: u) ∧ Rx.Lang b v := by
      simp only [Rx.lang_seq_iff, iha]
    have hseq : Rx.Lang (Rx.seq a b) (c :: s) ↔
        (∃ u v, s = u ++ v ∧ Rx.Lang a (c :: u) ∧ Rx.Lang b v) ∨
        (Rx.Lang a [] ∧ Rx.Lang b (c :: s)) := by
      rw [Rx.lang_seq_iff]
      constructor
      · rintro ⟨u, v, h, ha, hb⟩
        cases u with
        | nil =>
          simp only [List.nil_append] at h
          subst h
          exact Or.inr ⟨ha, hb⟩
        | cons d u =>
          simp only [List.cons_append, List.cons.injEq] at h
          obtain ⟨rfl, rfl⟩ := h
          exact Or.inl ⟨u, v, rfl, ha, hb⟩
      · rintro (⟨u, v, rfl, ha, hb⟩ | ⟨ha, hb⟩)
        · exact ⟨c :: u, v, rfl, ha, hb⟩
        · exact ⟨[], c :: s, rfl, ha, hb⟩
    simp only [Rx.deriv]
    by_cases hn : a.nullable = true
    · rw [if_pos hn, Rx.lang_alt_iff, key, ihb, hseq]
      have hnil := (Rx.nullable_iff a).mp hn
      constructor
      · rintro (h | h)
        · exact Or.inl h
        · exact Or.inr ⟨hnil, h⟩
      · rintro (h | ⟨_, h⟩)
        · exact Or.inl h
        · exact Or.inr h
    · rw [if_neg hn, key, hseq]
      have hnil : ¬ Rx.Lang a [] := fun h => hn ((Rx.nullable_iff a).mpr h)
      constructor
      · intro h
        exact Or.inl h
      · rintro (h | ⟨h, _⟩)
        · exact h
        · exact absurd h hnil
  | alt a b iha ihb =>
    intro s
    simp only [Rx.deriv, Rx.lang_alt_iff, iha, ihb]
  | star a iha =>
    intro s
    simp only [Rx.deriv, Rx.lang_seq_iff, iha]
    constructor
    · rintro ⟨u, v, rfl, ha, hv⟩
      exact Rx.Lang.starCons ha hv
    · intro h
      exact Rx.lang_star_cons h

/-- Matching character by character decides the language of a pattern. -/
theorem Rx.matchAll_iff (r : Rx) (s : List Char) : r.matchAll s = true ↔ Rx.Lang r s := by
  induction s generalizing r with
  | nil => exact Rx.nullable_iff r
  | cons c s ih => rw [Rx.matchAll, ih, Rx.deriv_iff]


theorem Rx.lang_star_cls {p : Char → Bool} {s : List Char} :
    Rx.Lang (Rx.star (Rx.cls p)) s ↔ ∀ c ∈ s, p c = true := by
  constructor
  · intro h
    generalize hr : Rx.star (Rx.cls p) = r at h
    induction h with
    | eps => cases hr
    | cls _ => cases hr
    | seq _ _ => cases hr
    | altLeft _ => cases hr
    | altRight _ => cases hr
    | starNil => intro c hc; simp at hc
    | @starCons a1 u v hu _ _ ih =>
      cases hr
      obtain ⟨d, rfl, hd⟩ := Rx.lang_cls_iff.mp hu
      intro c hc
      simp only [List.singleton_append, List.mem_cons] at hc
      rcases hc with rfl | hc
      · exact hd
      · exact ih rfl c hc
  · intro h
    induction s with
    | nil => exact Rx.Lang.starNil
    | cons c s ih =>
      have h1 : Rx.Lang (Rx.cls p) [c] := Rx.Lang.cls (h c (List.mem_cons_self _ _))
      exact Rx.Lang.starCons h1 (ih (fun d hd => h d (List.mem_cons_of_mem _ hd)))

theorem Rx.lang_plus_cls {p : Char → Bool} {s : List Char} :
    Rx.Lang (Rx.plus (Rx.cls p)) s ↔ s ≠ [] ∧ ∀ c ∈ s, p c = true := by
  simp only [Rx.plus, Rx.lang_seq_iff, Rx.lang_cls_iff, Rx.lang_star_cls]
  constructor
  · rintro ⟨u, v, rfl, ⟨c, rfl, hc⟩, hv⟩
    refine ⟨by simp, ?_⟩
    intro d hd
    simp only [List.singleton_append, List.mem_cons] at hd
    rcases hd with rfl | hd
    · exact hc
    · exact hv d hd
  · rintro ⟨hne, h⟩
    cases s with
    | nil => exact absurd rfl hne
    | cons c s =>
      exact ⟨[c], s, rfl, ⟨c, rfl, h c (List.mem_cons_self _ _)⟩,
        fun d hd => h d (List.mem_cons_of_mem _ hd)⟩

/-- The words of `emailRegex`: three non-empty runs of characters that are neither
white space nor `@`, the first two separated by `@`, the last two by `.`. -/
theorem lang_emailRegex (s : List Char) :
    Rx.Lang emailRegex s ↔
      ∃ a b c : List Char, s = a ++ '@' :: (b ++ '.' :: c) ∧
        (a ≠ [] ∧ ∀ x ∈ a, notSpaceAt x = true) ∧
        (b ≠ [] ∧ ∀ x ∈ b, notSpaceAt x = true) ∧
        (c ≠ [] ∧ ∀ x ∈ c, notSpaceAt x = true) := by
  simp only [emailRegex, Rx.lang_seq_iff, Rx.lang_plus_cls, Rx.lang_cls_iff]
  constructor
  · rintro ⟨a, r1, rfl, ha, r2, r3, rfl, ⟨x, rfl, hx⟩, b, r4, rfl, hb, r5, c, rfl,
      ⟨y, rfl, hy⟩, hc⟩
    simp only [beq_iff_eq] at hx hy
    subst hx hy
    exact ⟨a, b, c, by simp, ha, hb, hc⟩
  · rintro ⟨a, b, c, rfl, ha, hb, hc⟩
    exact ⟨a, _, rfl, ha, ['@'], _, rfl, ⟨'@', rfl, by simp⟩, b, _, rfl, hb, ['.'], c, rfl,
      ⟨'.', rfl, by simp⟩, hc⟩

/-- C17: `isValidEmail(s)` is true if and only if `s` contains no white-space
character (the class `\s`), contains exactly one `@`, has at least one
character before the `@`, and the part after the `@` contains a `.` that is
neither its first nor its last character; in particular
`isValidEmail('not-an-email')` is false. -/
theorem C17_isValidEmail (s : String) :
    (isValidEmail s = true ↔
      (∀ c ∈ s.data, isJsWhitespace c = false) ∧ s.data.count '@' = 1 ∧
      ∃ before after : List Char, s.data = before ++ '@' :: after ∧ before ≠ [] ∧
        ∃ x y : List Char, after = x ++ '.' :: y ∧ x ≠ [] ∧ y ≠ []) ∧
    isValidEmail "not-an-email" = false := by
  refine ⟨?_, by decide⟩
  rw [isValidEmail, Rx.matchAll_iff, lang_emailRegex]
  have hat : isJsWhitespace '@' = false := by decide
  have hdot : isJsWhitespace '.' = false := by decide
  have hns : ∀ x, notSpaceAt x = true ↔ isJsWhitespace x = false ∧ x ≠ '@' := by
    intro x
    simp [notSpaceAt]
  constructor
  · rintro ⟨a, b, c, hs, ⟨ha0, ha⟩, ⟨hb0, hb⟩, ⟨hc0, hc⟩⟩
    have hna : '@' ∉ a := fun h => ((hns _).mp (ha _ h)).2 rfl
    have hnb : '@' ∉ b := fun h => ((hns _).mp (hb _ h)).2 rfl
    have hnc : '@' ∉ c := fun h => ((hns _).mp (hc _ h)).2 rfl
    refine ⟨?_, ?_, a, b ++ '.' :: c, hs, ha0, b, c, rfl, hb0, hc0⟩
    · intro x hx
      rw [hs] at hx
      simp only [List.mem_append, List.mem_cons] at hx
      rcases hx with hx | rfl | hx | rfl | hx
      · exact ((hns _).mp (ha _ hx)).1
      · exact hat
      · exact ((hns _).mp (hb _ hx)).1
      · exact hdot
      · exact ((hns _).mp (hc _ hx)).1
    · rw [hs]
      have h1 := List.count_eq_zero.mpr hna
      have h2 := List.count_eq_zero.mpr hnb
      have h3 := List.count_eq_zero.mpr hnc
      have h4 : ('.' == '@') = false := by decide
      simp [List.count_append, List.count_cons, h1, h2, h3, h4]
  · rintro ⟨hws, hcount, a, rest, hs, ha0, b, c, rfl, hb0, hc0⟩
    rw [hs] at hcount hws
    have h4 : ('.' == '@') = false := by decide
    simp only [List.count_append, List.count_cons, beq_self_eq_true, if_true, h4,
      Bool.false_eq_true, if_false] at hcount
    have h1 : List.count '@' a = 0 := by omega
    have h2 : List.count '@' b = 0 := by omega
    have h3 : List.count '@' c = 0 := by omega
    rw [List.count_eq_zero] at h1 h2 h3
    refine ⟨a, b, c, hs, ⟨ha0, ?_⟩, ⟨hb0, ?_⟩, ⟨hc0, ?_⟩⟩
    · intro x hx
      exact (hns x).mpr ⟨hws x (by simp [hx]), fun h => h1 (h ▸ hx)⟩
    · intro x hx
      exact (hns x).mpr ⟨hws x (by simp [hx]), fun h => h2 (h ▸ hx)⟩
    · intro x hx
      exact (hns x).mpr ⟨hws x (by simp [hx]), fun h => h3 (h ▸ hx)⟩

theorem C17_isValidEmail_witness :
    isValidEmail "ann@example.org" = true ∧
    "ann@example.org".data.count '@' = 1 :=
  ⟨by decide, ((C17_isValidEmail "ann@example.org").1.mp (by decide)).2.1⟩

/-! ## Form validation: C15, C16 -/

theorem fieldTruthy_iff (v : Option String) : fieldTruthy v = true ↔ ∃ s, v = some s ∧ s ≠ "" := by
  cases v with
  | none => simp [fieldTruthy]
  | some s => simp [fieldTruthy]

theorem profile_valid_iff (f : ProfileForm) :
    f.valid ↔ fieldTruthy f.name = true ∧ fieldTruthy f.email = true ∧
      isValidEmail (fieldString f.email) = true := by
  rw [fieldTruthy_iff, fieldTruthy_iff]
  constructor
  · rintro ⟨n, e, hn, hn0, he, he0, hv⟩
    exact ⟨⟨n, hn, hn0⟩, ⟨e, he, he0⟩, by rw [he]; exact hv⟩
  · rintro ⟨⟨n, hn, hn0⟩, ⟨e, he, he0⟩, hv⟩
    rw [he] at hv
    exact ⟨n, e, hn, hn0, he, he0, hv⟩

/-- C15: the profile form handler issues a network request if and only if the
submitted name is non-empty, the email is non-empty and `isValidEmail(email)`
holds: then it issues exactly one request, `PUT /student/profile`, and shows no
notification; in every other case it shows exactly one error notification and
issues zero network requests (so with the email `not-an-email`). -/
theorem C15_profile_validation (f : ProfileForm) :
    (requestsOf (handleProfileUpdate f) ≠ [] ↔ f.valid) ∧
    (f.valid →
      requestsOf (handleProfileUpdate f) =
        [{ url := "/student/profile", method := "PUT",
           headers := [("Content-Type", "application/json")],
           body := [("name", f.name), ("email", f.email), ("phone", f.phone),
                    ("address", f.address)] }] ∧
      notificationsOf (handleProfileUpdate f) = []) ∧
    (¬ f.valid →
      requestsOf (handleProfileUpdate f) = [] ∧
      ∃ m, notificationsOf (handleProfileUpdate f) = [(m, "error")]) ∧
    (f.email = some "not-an-email" →
      requestsOf (handleProfileUpdate f) = [] ∧
      ∃ m, notificationsOf (handleProfileUpdate f) = [(m, "error")]) := by
  have hyes : f.valid →
      requestsOf (handleProfileUpdate f) =
        [{ url := "/student/profile", method := "PUT",
           headers := [("Content-Type", "application/json")],
           body := [("name", f.name), ("email", f.email), ("phone", f.phone),
                    ("address", f.address)] }] ∧
      notificationsOf (handleProfileUpdate f) = [] := by
    intro hv
    obtain ⟨h1, h2, h3⟩ := (profile_valid_iff f).mp hv
    simp [handleProfileUpdate, h1, h2, h3, requestsOf, notificationsOf]
  have hno : ¬ f.valid →
      requestsOf (handleProfileUpdate f) = [] ∧
      ∃ m, notificationsOf (handleProfileUpdate f) = [(m, "error")] := by
    intro hv
    rw [profile_valid_iff] at hv
    by_cases h12 : fieldTruthy f.name = true ∧ fieldTruthy f.email = true
    · have h3 : isValidEmail (fieldString f.email) = false := by
        by_cases h : isValidEmail (fieldString f.email) = true
        · exact absurd ⟨h12.1, h12.2, h⟩ hv
        · simpa using h
      simp [handleProfileUpdate, h12.1, h12.2, h3, requestsOf, notificationsOf]
    · have h : (!fieldTruthy f.name || !fieldTruthy f.email) = true := by
        by_cases h1 : fieldTruthy f.name = true
        · by_cases h2 : fieldTruthy f.email = true
          · exact absurd ⟨h1, h2⟩ h12
          · simp [h2]
        · simp [h1]
      simp [handleProfileUpdate, h, requestsOf, notificationsOf]
  refine ⟨?_, hyes, hno, ?_⟩
  · constructor
    · intro hr
      by_cases hv : f.valid
      · exact hv
      · exact absurd (hno hv).1 hr
    · intro hv
      rw [(hyes hv).1]
      simp
  · intro he
    apply hno
    rintro ⟨n, e, _, _, he1, _, hv⟩
    rw [he, Option.some.injEq] at he1
    subst he1
    exact absurd hv (by decide)

theorem C15_profile_validation_witness :
    requestsOf (handleProfileUpdate
      { name := some "Ann", email := some "not-an-email", phone := none, address := none }) = [] ∧
    ∃ m, notificationsOf (handleProfileUpdate
      { name := some "Ann", email := some "not-an-email", phone := none, address := none }) =
      [(m, "error")] :=
  (C15_profile_validation
    { name := some "Ann", email := some "not-an-email", phone := none, address := none }).2.2.2 rfl

theorem password_valid_iff (f : PasswordForm) :
    f.valid ↔ fieldTruthy f.currentPassword = true ∧ fieldTruthy f.newPassword = true ∧
      fieldTruthy f.confirmPassword = true ∧ f.newPassword = f.confirmPassword ∧
      8 ≤ jsLength (fieldString f.newPassword) := by
  rw [fieldTruthy_iff, fieldTruthy_iff, fieldTruthy_iff]
  constructor
  · rintro ⟨c, n, hc, hc0, hn, hn0, hk, h8⟩
    exact ⟨⟨c, hc, hc0⟩, ⟨n, hn, hn0⟩, ⟨n, hk, hn0⟩, by rw [hn, hk], by rw [hn]; exact h8⟩
  · rintro ⟨⟨c, hc, hc0⟩, ⟨n, hn, hn0⟩, _, heq, h8⟩
    rw [hn] at h8 heq
    exact ⟨c, n, hc, hc0, hn, hn0, heq.symm, h8⟩

/-- C16: the password form handler issues a network request if and only if
`currentPassword`, `newPassword` and `confirmPassword` are all non-empty,
`newPassword` equals `confirmPassword`, and `newPassword` has length at least
8: then it issues exactly one request, `PUT /student/password`, whose body
contains exactly `currentPassword` and `newPassword`, and shows no
notification; in every other case (so with a new password of length 7, or with
a mismatched confirmation) it shows exactly one error notification and issues
zero network requests. -/
theorem C16_password_validation (f : PasswordForm) :
    (requestsOf (handlePasswordChange f) ≠ [] ↔ f.valid) ∧
    (f.valid →
      requestsOf (handlePasswordChange f) =
        [{ url := "/student/password", method := "PUT",
           headers := [("Content-Type", "application/json")],
           body := [("currentPassword", f.currentPassword),
                    ("newPassword", f.newPassword)] }] ∧
      notificationsOf (handlePasswordChange f) = []) ∧
    (¬ f.valid →
      requestsOf (handlePasswordChange f) = [] ∧
      ∃ m, notificationsOf (handlePasswordChange f) = [(m, "error")]) ∧
    (∀ n, f.newPassword = some n → jsLength n = 7 →
      requestsOf (handlePasswordChange f) = [] ∧
      ∃ m, notificationsOf (handlePasswordChange f) = [(m, "error")]) ∧
    (f.newPassword ≠ f.confirmPassword →
      requestsOf (handlePasswordChange f) = [] ∧
      ∃ m, notificationsOf (handlePasswordChange f) = [(m, "error")]) := by
  have hyes : f.valid →
      requestsOf (handlePasswordChange f) =
        [{ url := "/student/password", method := "PUT",
           headers := [("Content-Type", "application/json")],
           body := [("currentPassword", f.currentPassword),
                    ("newPassword", f.newPassword)] }] ∧
      notificationsOf (handlePasswordChange f) = [] := by
    intro hv
    obtain ⟨h1, h2, h3, h4, h5⟩ := (password_valid_iff f).mp hv
    have h6 : ¬ jsLength (fieldString f.newPassword) < 8 := by omega
    have hb : (f.newPassword != f.confirmPassword) = false := by simp [h4]
    simp [handlePasswordChange, h1, h2, h3, hb, h6, requestsOf, notificationsOf]
  have hno : ¬ f.valid →
      requestsOf (handlePasswordChange f) = [] ∧
      ∃ m, notificationsOf (handlePasswordChange f) = [(m, "error")] := by
    intro hv
    rw [password_valid_iff] at hv
    by_cases h123 : fieldTruthy f.currentPassword = true ∧ fieldTruthy f.newPassword = true ∧
        fieldTruthy f.confirmPassword = true
    · obtain ⟨h1, h2, h3⟩ := h123
      by_cases h4 : f.newPassword = f.confirmPassword
      · have h5 : jsLength (fieldString f.newPassword) < 8 := by
          by_contra h
          exact hv ⟨h1, h2, h3, h4, by omega⟩
        have hb : (f.newPassword != f.confirmPassword) = false := by simp [h4]
        simp [handlePasswordChange, h1, h2, h3, hb, h5, requestsOf, notificationsOf]
      · have hb : (f.newPassword != f.confirmPassword) = true := by simp [h4]
        simp [handlePasswordChange, h1, h2, h3, hb, requestsOf, notificationsOf]
    · have h : (!fieldTruthy f.currentPassword || !fieldTruthy f.newPassword ||
          !fieldTruthy f.confirmPassword) = true := by
        by_cases h1 : fieldTruthy f.currentPassword = true
        · by_cases h2 : fieldTruthy f.newPassword = true
          · by_cases h3 : fieldTruthy f.confirmPassword = true
            · exact absurd ⟨h1, h2, h3⟩ h123
            · simp [h3]
          · simp [h2]
        · simp [h1]
      simp [handlePasswordChange, h, requestsOf, notificationsOf]
  refine ⟨?_, hyes, hno, ?_, ?_⟩
  · constructor
    · intro hr
      by_cases hv : f.valid
      · exact hv
      · exact absurd (hno hv).1 hr
    · intro hv
      rw [(hyes hv).1]
      simp
  · intro n hn h7
    apply hno
    rintro ⟨c, m, _, _, hm, _, _, h8⟩
    rw [hn, Option.some.injEq] at hm
    subst hm
    omega
  · intro hne
    apply hno
    rintro ⟨c, m, _, _, hm, _, hk, _⟩
    exact hne (by rw [hm, hk])

theorem C16_password_validation_witness :
    ({ currentPassword := some "old-secret", newPassword := some "1234567",
       confirmPassword := some "1234567" } : PasswordForm).newPassword = some "1234567" ∧
    jsLength "1234567" = 7 ∧
    requestsOf (handlePasswordChange
      { currentPassword := some "old-secret", newPassword := some "1234567",
        confirmPassword := some "1234567" }) = [] ∧
    ∃ m, notificationsOf (handlePasswordChange
      { currentPassword := some "old-secret", newPassword := some "1234567",
        confirmPassword := some "1234567" }) = [(m, "error")] :=
  ⟨rfl, by decide,
    (C16_password_validation
      { currentPassword := some "old-secret", newPassword := some "1234567",
        confirmPassword := some "1234567" }).2.2.2.1 "1234567" rfl (by decide)⟩

/-! ## CSRF protection -/

theorem lookup_setProp_self (key : String) (value : JsValue) (d : Dict) :
    (setProp key value d).lookup key = some value := by
  induction d with
  | nil => simp [setProp, List.lookup]
  | cons p rest ih =>
    obtain ⟨k, v⟩ := p
    by_cases h : k = key
    · simp [setProp, h, List.lookup]
    · have h1 : (key == k) = false := by simpa using fun e => h e.symm
      simp [setProp, h, List.lookup, h1, ih]

theorem lookup_setProp_other (key : String) (value : JsValue) (d : Dict) (k1 : String)
    (hk : k1 ≠ key) : (setProp key value d).lookup k1 = d.lookup k1 := by
  induction d with
  | nil =>
    have h1 : (k1 == key) = false := by simpa using hk
    simp [setProp, List.lookup, h1]
  | cons p rest ih =>
    obtain ⟨k, v⟩ := p
    by_cases h : k = key
    · subst h
      have h1 : (k1 == k) = false := by simpa using hk
      simp [setProp, List.lookup, h1]
    · by_cases h2 : k1 = k
      · subst h2
        simp [setProp, h, List.lookup]
      · have h3 : (k1 == k) = false := by simpa using h2
        simp [setProp, h, List.lookup, h3, ih]

/-- Claim C18: on a page with a `csrf-token` meta tag whose content is `token`, a
request made through the wrapped fetch with a method that is not GET, upper or
lower case, is handed to the original fetch with the same url, with header
X-CSRF-Token equal to `token`, with every other header as the caller gave it,
and with its method, credentials and body untouched; a request with no method
or with method GET in any case is handed over with its options unchanged. -/
theorem C18_csrf_header (token : JsValue) (url : String) (options : FetchOptions) :
    (∀ m, options.method = some m → m ≠ "" → isGetMethod m = false →
      ∃ sent hs, windowFetch (some token) url options = (url, sent) ∧
        sent.headers = some hs ∧
        hs.lookup "X-CSRF-Token" = some token ∧
        (∀ k, k ≠ "X-CSRF-Token" → hs.lookup k = (options.headers.getD []).lookup k) ∧
        sent.method = options.method ∧ sent.credentials = options.credentials ∧
        sent.body = options.body) ∧
    ((options.method = none ∨ ∃ m, options.method = some m ∧ isGetMethod m = true) →
      windowFetch (some token) url options = (url, options)) := by
  refine ⟨?_, ?_⟩
  · intro m hm hne hg
    have hne1 : (m != "") = true := by simpa using hne
    refine ⟨{ options with
        headers := some (setProp "X-CSRF-Token" token (options.headers.getD [])) },
      setProp "X-CSRF-Token" token (options.headers.getD []), ?_, rfl, ?_, ?_, rfl, rfl, rfl⟩
    · simp [windowFetch, wrappedFetch, hm, hg, hne1]
    · exact lookup_setProp_self _ _ _
    · intro k hk
      exact lookup_setProp_other _ _ _ k hk
  · rintro (h | ⟨m, hm, hg⟩)
    · simp [windowFetch, wrappedFetch, h]
    · simp [windowFetch, wrappedFetch, hm, hg]

/-- Claim C18 on a sample: a `put` request with a Content-Type header gets the
token and keeps its Content-Type, and a `get` request is left alone. -/
theorem C18_csrf_header_witness :
    (∃ sent hs,
      windowFetch (some (JsValue.string "tok")) "/student/profile"
        ⟨some "put", some [("Content-Type", JsValue.string "application/json")], none, some "{}"⟩
        = ("/student/profile", sent) ∧
      sent.headers = some hs ∧
      hs.lookup "X-CSRF-Token" = some (JsValue.string "tok") ∧
      hs.lookup "Content-Type" = some (JsValue.string "application/json")) ∧
    windowFetch (some (JsValue.string "tok")) "/student/stats" ⟨some "get", none, none, none⟩
      = ("/student/stats", ⟨some "get", none, none, none⟩) := by
  have h := C18_csrf_header (JsValue.string "tok") "/student/profile"
    ⟨some "put", some [("Content-Type", JsValue.string "application/json")], none, some "{}"⟩
  have h2 := C18_csrf_header (JsValue.string "tok") "/student/stats" ⟨some "get", none, none, none⟩
  obtain ⟨sent, hs, h1, h3, h4, h5, _⟩ := h.1 "put" rfl (by decide) (by decide)
  refine ⟨⟨sent, hs, h1, h3, h4, ?_⟩, h2.2 (Or.inr ⟨"get", rfl, by decide⟩)⟩
  rw [h5 "Content-Type" (by decide)]
  rfl

/-! ## The function `apiRequest` -/

/-- Claim C19: `apiRequest` shows the loading overlay when called, for every url and
options, and whatever state the page is in when its request ends, it ends with
the overlay hidden.  When the response is ok and its body parses, the parsed
body is returned and the page is otherwise untouched (no notification); when
`fetch` rejects, the response is not ok, or the body fails to parse, the error
is thrown on, `showNotification` has been called exactly once more, with
'Request failed. Please try again.' and type error, and that toast is the only
one in the document. -/
theorem C19_apiRequest (meta : Option JsValue) (s0 : Screen) (url : String)
    (options : FetchOptions) (s : Screen) (o : ApiOutcome) :
    (apiRequestStart meta s0 url options).1.overlayShown = true ∧
    (apiRequestEnd s o).1.overlayShown = false ∧
    (∀ status data, o = ApiOutcome.response true status (Except.ok data) →
      (apiRequestEnd s o).2 = Except.ok data ∧ (apiRequestEnd s o).1.page = s.page) ∧
    (∀ e, (o = ApiOutcome.rejected e ∨ (∃ status body, o = ApiOutcome.response false status body)
        ∨ ∃ status, o = ApiOutcome.response true status (Except.error e)) →
      (∃ err, (apiRequestEnd s o).2 = Except.error err ∧
        (o = ApiOutcome.rejected e → err = ApiError.rejected e) ∧
        (∀ status body, o = ApiOutcome.response false status body → err = ApiError.http status) ∧
        (∀ status, o = ApiOutcome.response true status (Except.error e) → err = ApiError.parse e)) ∧
      (apiRequestEnd s o).1.page.notices
        = s.page.notices ++ [("Request failed. Please try again.", "error")] ∧
      (apiRequestEnd s o).1.page.toasts
        = [{ id := s.page.nextToast, message := "Request failed. Please try again.",
             type := "error", shown := false }]) := by
  refine ⟨rfl, ?_, ?_, ?_⟩
  · cases o with
    | rejected r => rfl
    | response ok status body =>
      cases ok <;> cases body <;> rfl
  · rintro status data rfl
    exact ⟨rfl, rfl⟩
  · rintro e (rfl | ⟨status, body, rfl⟩ | ⟨status, rfl⟩)
    · refine ⟨⟨_, rfl, fun _ => rfl, ?_, ?_⟩, rfl, rfl⟩
      · intro status body h; cases h
      · intro status h; cases h
    · refine ⟨⟨ApiError.http status, ?_, ?_, ?_, ?_⟩, ?_, ?_⟩
      · cases body <;> rfl
      · intro h; cases h
      · intro st b h; cases h; rfl
      · intro st h; cases h
      · cases body <;> rfl
      · cases body <;> rfl
    · refine ⟨⟨_, rfl, ?_, ?_, ?_⟩, rfl, rfl⟩
      · intro h; cases h
      · intro st b h; cases h
      · intro st h; cases h; rfl

/-- Claim C19 on a sample: a request of the signed-in dashboard that is rejected
ends with the overlay hidden, the error thrown on and one error notification. -/
theorem C19_apiRequest_witness :
    (apiRequestEnd ⟨authedPage, true, "Loading..."⟩ (ApiOutcome.rejected "offline")).1.overlayShown
      = false ∧
    (apiRequestEnd ⟨authedPage, true, "Loading..."⟩ (ApiOutcome.rejected "offline")).1.page.notices
      = [("Request failed. Please try again.", "error")] ∧
    (apiRequestEnd ⟨authedPage, true, "Loading..."⟩
      (ApiOutcome.response true 200 (Except.ok (JsValue.object 7)))).2
      = Except.ok (JsValue.object 7) :=
  ⟨(C19_apiRequest none ⟨authedPage, false, "Loading..."⟩ "/student/stats" ⟨none, none, none, none⟩
      ⟨authedPage, true, "Loading..."⟩ (ApiOutcome.rejected "offline")).2.1,
    ((C19_apiRequest none ⟨authedPage, false, "Loading..."⟩ "/student/stats" ⟨none, none, none, none⟩
      ⟨authedPage, true, "Loading..."⟩ (ApiOutcome.rejected "offline")).2.2.2 "offline"
        (Or.inl rfl)).2.1,
    ((C19_apiRequest none ⟨authedPage, false, "Loading..."⟩ "/student/stats" ⟨none, none, none, none⟩
      ⟨authedPage, true, "Loading..."⟩
      (ApiOutcome.response true 200 (Except.ok (JsValue.object 7)))).2.2.1 200 (JsValue.object 7)
        rfl).1⟩

/-! ## Toasts -/

theorem still_refl (s : Page) : Still id s s :=
  ⟨rfl, rfl, rfl, rfl, fun _ h => Or.inl h⟩

theorem still_trans {f : List Toast → List Toast} {s a b : Page} (h1 : Still id s a)
    (h2 : Still f a b) : Still f s b := by
  refine ⟨by rw [h2.toasts, h1.toasts]; rfl, by rw [h2.nextToast, h1.nextToast],
    by rw [h2.notices, h1.notices], by rw [h2.unloaded, h1.unloaded], ?_⟩
  intro t ht
  rcases h2.timers t ht with h | h
  · exact h1.timers t h
  · exact Or.inr h

theorem still_oneCall {n : Nat} {s a b : Page} (h1 : Still id s a) (h2 : OneCall n a b) :
    OneCall n s b := by
  refine ⟨by rw [← h1.nextToast]; exact h2.toasts, by rw [h2.nextToast, h1.nextToast],
    by rw [h2.notices, h1.notices], by rw [h2.unloaded, h1.unloaded], ?_⟩
  intro t ht
  rcases h2.timers t ht with h | h
  · rcases h1.timers t h with h3 | h3
    · exact Or.inl h3
    · exact Or.inr (fun j hj => absurd hj (h3 j))
  · exact Or.inr (by rw [← h1.nextToast]; exact h)

theorem oneCall_still {n : Nat} {s a b : Page} (h1 : OneCall n s a) (h2 : Still id a b) :
    OneCall n s b := by
  refine ⟨by rw [h2.toasts]; exact h1.toasts, by rw [h2.nextToast, h1.nextToast],
    by rw [h2.notices, h1.notices], by rw [h2.unloaded, h1.unloaded], ?_⟩
  intro t ht
  rcases h2.timers t ht with h | h
  · exact h1.timers t h
  · exact Or.inr (fun j hj => absurd hj (h j))

theorem still_clearTimeout (s : Page) (i : Nat) : Still id s (clearTimeout s i) :=
  ⟨rfl, rfl, rfl, rfl, fun _ h => Or.inl (List.mem_of_mem_filter h)⟩

theorem still_setTimeout (s : Page) (k : TimerKind) (d : Nat)
    (hk : ∀ j, k ≠ TimerKind.toastRemove j) : Still id s (setTimeout s k d).1 := by
  refine ⟨rfl, rfl, rfl, rfl, ?_⟩
  intro t ht
  simp only [setTimeout, List.mem_append, List.mem_singleton] at ht
  rcases ht with h | h
  · exact Or.inl h
  · subst h
    exact Or.inr hk

theorem still_refreshAuthStatus (s : Page) : Still id s (refreshAuthStatus s) := by
  unfold refreshAuthStatus
  split
  · exact ⟨rfl, rfl, rfl, rfl, fun _ h => Or.inl h⟩
  · exact still_refl s

theorem still_resetActivity (s : Page) : Still id s (resetActivity s) := by
  have h1 : Still id s (match s.sessionTimeout with
      | some i => if handleTruthy (some i) then clearTimeout s i else s
      | none => s) := by
    split
    · split
      · exact still_clearTimeout s _
      · exact still_refl s
    · exact still_refl s
  unfold resetActivity
  simp only
  generalize (match s.sessionTimeout with
      | some i => if handleTruthy (some i) then clearTimeout s i else s
      | none => s) = a at h1 ⊢
  have hA : Still id a { a with warningShown := false } :=
    ⟨rfl, rfl, rfl, rfl, fun _ h => Or.inl h⟩
  split
  · have hB := still_setTimeout { a with warningShown := false } TimerKind.warning
      SESSION_WARNING_TIME (by simp)
    exact still_trans h1 (still_trans hA (still_trans hB ⟨rfl, rfl, rfl, rfl, fun _ h => Or.inl h⟩))
  · exact still_trans h1 hA

theorem still_warningCallback (s : Page) (answer : Bool) : Still id s (warningCallback s answer) := by
  unfold warningCallback
  split
  · have h1 : Still id s (showSessionWarning s answer) := by
      unfold showSessionWarning
      simp only
      split
      · exact still_trans (a := { s with prompts := s.prompts ++ [s.now] })
          ⟨rfl, rfl, rfl, rfl, fun _ h => Or.inl h⟩ (still_refreshAuthStatus _)
      · exact ⟨rfl, rfl, rfl, rfl, fun _ h => Or.inl h⟩
    exact still_trans h1 (still_trans (a := { showSessionWarning s answer with warningShown := true })
      ⟨rfl, rfl, rfl, rfl, fun _ h => Or.inl h⟩ (still_setTimeout _ _ _ (by simp)))
  · exact still_refl s

theorem still_onStatusResult (s : Page) (r : FetchResult StatusData) :
    Still id s (onStatusResult s r) := by
  cases r with
  | rejected => exact still_refl s
  | invalidBody => exact still_refl s
  | json data =>
    simp only [onStatusResult, startSessionTimeout]
    split
    · split
      · exact still_trans (a := { s with currentUser := data.user })
          ⟨rfl, rfl, rfl, rfl, fun _ h => Or.inl h⟩ (still_resetActivity _)
      · exact ⟨rfl, rfl, rfl, rfl, fun _ h => Or.inl h⟩
    · exact ⟨rfl, rfl, rfl, rfl, fun _ h => Or.inl h⟩

theorem oneCall_showNotification (s : Page) (m ty : String) (d n : Nat) :
    OneCall n s (showNotification s m ty d n) := by
  refine ⟨⟨_, rfl, rfl, rfl⟩, rfl, by simp [showNotification, setTimeout], rfl, ?_⟩
  intro t ht
  simp only [showNotification, setTimeout, List.mem_append, List.mem_singleton] at ht
  rcases ht with (h | h) | h
  · exact Or.inl h
  · subst h
    exact Or.inr (fun j hj => by simp at hj)
  · subst h
    exact Or.inr (fun j hj => by simp at hj; exact hj.symm)

theorem oneCall_handleSessionExpiry (s : Page) : OneCall 0 s (handleSessionExpiry s) := by
  unfold handleSessionExpiry
  simp only
  exact still_oneCall (a := { s with currentUser := JsValue.null })
    ⟨rfl, rfl, rfl, rfl, fun _ h => Or.inl h⟩
    (oneCall_still (oneCall_showNotification _ _ _ _ _) (still_setTimeout _ _ _ (by simp)))

theorem effect_onRefreshResult (s : Page) (r : FetchResult RefreshData) :
    Still id s (onRefreshResult s r) ∨ OneCall 0 s (onRefreshResult s r) := by
  cases r with
  | rejected => exact Or.inl (still_refl s)
  | invalidBody => exact Or.inl (still_refl s)
  | json data =>
    simp only [onRefreshResult]
    split
    · split
      · exact Or.inl (still_resetActivity s)
      · exact Or.inl (still_refl s)
    · exact Or.inr (oneCall_handleSessionExpiry s)

theorem effect_runTimer (s : Page) (t : Timer) (answer : Bool) :
    Still id s (runTimer s t answer) ∨ OneCall 0 s (runTimer s t answer) ∨
    (∃ i, Still (List.map (fun x => if x.id == i then { x with shown := true } else x)) s
      (runTimer s t answer)) ∨
    (∃ i, t.kind = TimerKind.toastRemove i ∧
      Still (List.filter (fun x => x.id != i)) s (runTimer s t answer)) := by
  cases hk : t.kind with
  | warning => simp only [runTimer, hk]; exact Or.inl (still_warningCallback s answer)
  | expiry => simp only [runTimer, hk]; exact Or.inr (Or.inl (oneCall_handleSessionExpiry s))
  | redirect =>
    simp only [runTimer, hk]
    exact Or.inl ⟨rfl, rfl, rfl, rfl, fun _ h => Or.inl h⟩
  | toastShow i =>
    simp only [runTimer, hk]
    exact Or.inr (Or.inr (Or.inl ⟨i, rfl, rfl, rfl, rfl, fun _ h => Or.inl h⟩))
  | toastRemove i =>
    simp only [runTimer, hk]
    exact Or.inr (Or.inr (Or.inr ⟨i, rfl, rfl, rfl, rfl, rfl, fun _ h => Or.inl h⟩))

/-- What one event does to the toasts: nothing, or one call of
`showNotification` (with a message without markup if the event is plain), or
the unloading of the document, or the class `show` is added to a toast, or a
toast is removed by its close button or by a removal timer. -/
theorem step_toasts {s s1 : Page} {e : Event} (hs : step s e = some s1) :
    Still id s s1 ∨ (∃ n, OneCall n s s1 ∧ (e.plain = true → n = 0)) ∨
    (e = Event.unload ∧ s1 = { s with unloaded := true }) ∨
    (∃ i, Still (List.map (fun x => if x.id == i then { x with shown := true } else x)) s s1) ∨
    (∃ i, Still (List.filter (fun x => x.id != i)) s s1 ∧
      (e = Event.closeToast i ∨
        ∃ t a, e = Event.fire t.id a ∧ t ∈ s.timers ∧ t.kind = TimerKind.toastRemove i)) := by
  replace hs := (step_some hs).1
  cases e with
  | activity =>
    simp only [handle, Option.some.injEq] at hs
    subst hs
    split
    · exact Or.inl (still_resetActivity s)
    · exact Or.inl (still_refl s)
  | visibility hidden =>
    simp only [handle, Option.some.injEq] at hs
    subst hs
    split
    · exact Or.inl (still_refreshAuthStatus s)
    · exact Or.inl (still_refl s)
  | online =>
    simp only [handle, Option.some.injEq] at hs
    subst hs
    split
    · exact Or.inr (Or.inl ⟨0, oneCall_showNotification _ _ _ _ _, fun _ => rfl⟩)
    · exact Or.inl (still_refl s)
  | offline =>
    simp only [handle, Option.some.injEq] at hs
    subst hs
    split
    · exact Or.inr (Or.inl ⟨0, oneCall_showNotification _ _ _ _ _, fun _ => rfl⟩)
    · exact Or.inl (still_refl s)
  | notify m ty d n =>
    simp only [handle, Option.some.injEq] at hs
    subst hs
    exact Or.inr (Or.inl ⟨n, oneCall_showNotification _ _ _ _ _,
      fun h => by simpa [Event.plain] using h⟩)
  | closeToast i =>
    simp only [handle, Option.some.injEq] at hs
    subst hs
    exact Or.inr (Or.inr (Or.inr (Or.inr
      ⟨i, ⟨rfl, rfl, rfl, rfl, fun _ h => Or.inl h⟩, Or.inl rfl⟩)))
  | statusResult r =>
    simp only [handle] at hs
    split at hs
    · exact absurd hs (by simp)
    · simp only [Option.some.injEq] at hs
      subst hs
      exact Or.inl (still_trans (a := { s with pendingStatus := s.pendingStatus - 1 })
        ⟨rfl, rfl, rfl, rfl, fun _ h => Or.inl h⟩ (still_onStatusResult _ r))
  | refreshResult r =>
    simp only [handle] at hs
    split at hs
    · exact absurd hs (by simp)
    · simp only [Option.some.injEq] at hs
      subst hs
      have h0 : Still id s { s with pendingRefresh := s.pendingRefresh - 1 } :=
        ⟨rfl, rfl, rfl, rfl, fun _ h => Or.inl h⟩
      rcases effect_onRefreshResult { s with pendingRefresh := s.pendingRefresh - 1 } r with h | h
      · exact Or.inl (still_trans h0 h)
      · exact Or.inr (Or.inl ⟨0, still_oneCall h0 h, fun _ => rfl⟩)
  | advance d =>
    simp only [handle] at hs
    split at hs
    · simp only [Option.some.injEq] at hs
      subst hs
      exact Or.inl ⟨rfl, rfl, rfl, rfl, fun _ h => Or.inl h⟩
    · exact absurd hs (by simp)
  | fire id answer =>
    simp only [handle] at hs
    split at hs
    · exact absurd hs (by simp)
    · rename_i t hf
      split at hs
      · simp only [Option.some.injEq] at hs
        subst hs
        obtain ⟨htm, hid⟩ := find_timer hf
        have h0 : Still (fun l => l) s { s with timers := s.timers.filter (fun x => x.id != id) } :=
          ⟨rfl, rfl, rfl, rfl, fun _ h => Or.inl (List.mem_of_mem_filter h)⟩
        rcases effect_runTimer { s with timers := s.timers.filter (fun x => x.id != id) } t answer
          with h | h | ⟨i, h⟩ | ⟨i, hk, h⟩
        · exact Or.inl (still_trans h0 h)
        · exact Or.inr (Or.inl ⟨0, still_oneCall h0 h, fun _ => rfl⟩)
        · exact Or.inr (Or.inr (Or.inr (Or.inl ⟨i, still_trans h0 h⟩)))
        · exact Or.inr (Or.inr (Or.inr (Or.inr
            ⟨i, still_trans h0 h, Or.inr ⟨t, answer, by rw [hid], htm, hk⟩⟩)))
      · exact absurd hs (by simp)
  | unload =>
    simp only [handle] at hs
    split at hs
    · simp only [Option.some.injEq] at hs
      exact Or.inr (Or.inr (Or.inl ⟨rfl, hs.symm⟩))
    · exact absurd hs (by simp)

/-- One event keeps the toasts at one at most, and keeps every pending removal
timer aimed at a toast that has been created. -/
theorem toasts_step {s s1 : Page} {e : Event} (hs : step s e = some s1)
    (h1 : s.toasts.length ≤ 1)
    (h2 : ∀ t ∈ s.timers, ∀ j, t.kind = TimerKind.toastRemove j → j < s.nextToast) :
    s1.toasts.length ≤ 1 ∧
    ∀ t ∈ s1.timers, ∀ j, t.kind = TimerKind.toastRemove j → j < s1.nextToast := by
  rcases step_toasts hs with h | ⟨n, h, _⟩ | ⟨_, h⟩ | ⟨i, h⟩ | ⟨i, h, _⟩
  · refine ⟨by rw [h.toasts]; exact h1, ?_⟩
    intro t ht j hj
    rw [h.nextToast]
    rcases h.timers t ht with h3 | h3
    · exact h2 t h3 j hj
    · exact absurd hj (h3 j)
  · refine ⟨?_, ?_⟩
    · obtain ⟨x, hx, _⟩ := h.toasts
      rw [hx]
      simp
    · intro t ht j hj
      rw [h.nextToast]
      rcases h.timers t ht with h3 | h3
      · exact Nat.lt_succ_of_lt (h2 t h3 j hj)
      · rw [h3 j hj]
        exact Nat.lt_succ_self _
  · subst h
    exact ⟨h1, h2⟩
  · refine ⟨by rw [h.toasts, List.length_map]; exact h1, ?_⟩
    intro t ht j hj
    rw [h.nextToast]
    rcases h.timers t ht with h3 | h3
    · exact h2 t h3 j hj
    · exact absurd hj (h3 j)
  · refine ⟨by rw [h.toasts]; exact le_trans (List.length_filter_le _ _) h1, ?_⟩
    intro t ht j hj
    rw [h.nextToast]
    rcases h.timers t ht with h3 | h3
    · exact h2 t h3 j hj
    · exact absurd hj (h3 j)

theorem toasts_run {es : List Event} : ∀ {s s1 : Page}, run s es = some s1 →
    s.toasts.length ≤ 1 →
    (∀ t ∈ s.timers, ∀ j, t.kind = TimerKind.toastRemove j → j < s.nextToast) →
    s1.toasts.length ≤ 1 ∧
    ∀ t ∈ s1.timers, ∀ j, t.kind = TimerKind.toastRemove j → j < s1.nextToast := by
  induction es with
  | nil =>
    intro s s1 hr h1 h2
    simp only [run, Option.some.injEq] at hr
    subst hr
    exact ⟨h1, h2⟩
  | cons e es ih =>
    intro s s1 hr h1 h2
    simp only [run] at hr
    cases hs : step s e with
    | none => rw [hs] at hr; exact absurd hr (by simp)
    | some s2 =>
      rw [hs] at hr
      obtain ⟨h3, h4⟩ := toasts_step hs h1 h2
      exact ih hr h3 h4

/-- In every reachable state the document has one toast at most, and every
pending removal timer is the one of a toast that has been created. -/
theorem toasts_of_reachable {s : Page} (h : Reachable s) :
    s.toasts.length ≤ 1 ∧
    ∀ t ∈ s.timers, ∀ j, t.kind = TimerKind.toastRemove j → j < s.nextToast := by
  obtain ⟨pathname, t0, es, hr⟩ := h
  refine toasts_run hr ?_ ?_
  · simp [pageLoad, domContentLoaded, checkAuthStatus, setupGlobalEventListeners,
      initializeApp, initializeSessionManagement, scriptLoaded]
  · simp [pageLoad, domContentLoaded, checkAuthStatus, setupGlobalEventListeners,
      initializeApp, initializeSessionManagement, scriptLoaded]

/-- Plain events bring no markup into the toasts. -/
theorem plain_step {s s1 : Page} {e : Event} (hs : step s e = some s1) (he : e.plain = true)
    (h : ∀ x ∈ s.toasts, x.nested = 0) : ∀ x ∈ s1.toasts, x.nested = 0 := by
  rcases step_toasts hs with hst | ⟨n, hc, hn⟩ | ⟨_, hu⟩ | ⟨i, hst⟩ | ⟨i, hst, _⟩
  · rw [hst.toasts]
    exact h
  · obtain ⟨x, hx, _, hxn⟩ := hc.toasts
    intro y hy
    rw [hx, List.mem_singleton] at hy
    rw [hy, hxn]
    exact hn he
  · subst hu
    exact h
  · rw [hst.toasts]
    intro y hy
    obtain ⟨z, hz, rfl⟩ := List.mem_map.1 hy
    have := h z hz
    split <;> exact this
  · rw [hst.toasts]
    exact fun y hy => h y (List.mem_of_mem_filter hy)

theorem plain_run {es : List Event} : ∀ {s s1 : Page}, run s es = some s1 →
    (∀ e ∈ es, e.plain = true) → (∀ x ∈ s.toasts, x.nested = 0) →
    ∀ x ∈ s1.toasts, x.nested = 0 := by
  induction es with
  | nil =>
    intro s s1 hr _ h
    simp only [run, Option.some.injEq] at hr
    subst hr
    exact h
  | cons e es ih =>
    intro s s1 hr he h
    simp only [run] at hr
    cases hs : step s e with
    | none => rw [hs] at hr; exact absurd hr (by simp)
    | some s2 =>
      rw [hs] at hr
      exact ih hr (fun e1 h1 => he e1 (List.mem_cons_of_mem _ h1))
        (plain_step hs (he e (List.mem_cons_self _ _)) h)

/-- Without markup, the elements of class `notification-toast` are the toasts. -/
theorem toastElements_le {s : Page} (h1 : s.toasts.length ≤ 1)
    (h2 : ∀ x ∈ s.toasts, x.nested = 0) : toastElements s ≤ 1 := by
  unfold toastElements
  cases hts : s.toasts with
  | nil => simp
  | cons x l =>
    rw [hts] at h1 h2
    cases l with
    | nil =>
      have := h2 x (List.mem_cons_self _ _)
      simp [this]
    | cons y l => simp at h1

/-- Right after a call of `showNotification` in a loaded document, the new toast
is displayed and its removal timer is pending. -/
theorem shown_showNotification {s : Page} (hi : Inv s) (hl : s.unloaded = false)
    (h2 : ∀ t ∈ s.timers, ∀ j, t.kind = TimerKind.toastRemove j → j < s.nextToast)
    (m ty : String) (d n : Nat) :
    Shown s.nextToast m ty n
      { id := s.nextTimer + 1, due := s.now + d, kind := TimerKind.toastRemove s.nextToast }
      (s.notices.length + 1) (showNotification s m ty d n) := by
  refine ⟨inv_showNotification hi m ty d n, hl, by simp [showNotification, setTimeout], rfl, ?_,
    by simp [showNotification, setTimeout], by simp [showNotification, setTimeout],
    by simp [showNotification, setTimeout], Or.inl ⟨_, rfl, rfl, rfl, rfl, rfl⟩⟩
  intro t ht hk
  simp only [showNotification, setTimeout, List.mem_append, List.mem_singleton] at ht
  rcases ht with (h | h) | h
  · exact absurd (h2 t h _ hk) (lt_irrefl _)
  · subst h
    simp at hk
  · exact h

/-- An event that spares the toast and its removal timer keeps the toast
displayed, unless the event is a later call of `showNotification`. -/
theorem shown_step {k : Nat} {m ty : String} {j : Nat} {r : Timer} {n : Nat} {s s1 : Page}
    (h : Shown k m ty j r n s) {e : Event} (he : e.spares k r.id = true)
    (hs : step s e = some s1) : Shown k m ty j r n s1 := by
  have hinv := inv_step h.inv e hs
  have hfire : e.fires r.id = false := by
    cases e <;> simp_all [Event.spares, Event.fires]
  have hpend := step_keeps h.inv h.pending (by rw [h.kind]; simp) e hfire hs
  have honly : ∀ {f : List Toast → List Toast}, Still f s s1 →
      ∀ t ∈ s1.timers, t.kind = TimerKind.toastRemove k → t = r := by
    intro f hst t ht hk
    rcases hst.timers t ht with h3 | h3
    · exact h.only t h3 hk
    · exact absurd hk (h3 k)
  rcases step_toasts hs with hst | ⟨n1, hc, _⟩ | ⟨hu, _⟩ | ⟨i, hst⟩ | ⟨i, hst, hcause⟩
  · refine ⟨hinv, by rw [hst.unloaded]; exact h.loaded, hpend, h.kind, honly hst,
      by rw [hst.nextToast]; exact h.fresh, by rw [hst.toasts]; exact h.one,
      by rw [hst.notices]; exact h.calls, ?_⟩
    rw [hst.toasts, hst.notices]
    exact h.state
  · obtain ⟨x, hx, hxid, _⟩ := hc.toasts
    refine ⟨hinv, by rw [hc.unloaded]; exact h.loaded, hpend, h.kind, ?_,
      by rw [hc.nextToast]; exact Nat.lt_succ_of_lt h.fresh, by rw [hx]; simp,
      by rw [hc.notices]; exact Nat.le_succ_of_le h.calls, Or.inr ⟨?_, ?_⟩⟩
    · intro t ht hk
      rcases hc.timers t ht with h3 | h3
      · exact h.only t h3 hk
      · exact absurd (h3 k hk) (Nat.ne_of_lt h.fresh)
    · rw [hc.notices]
      exact Nat.lt_succ_of_le h.calls
    · intro y hy
      rw [hx, List.mem_singleton] at hy
      rw [hy, hxid]
      exact h.fresh
  · subst hu
    simp [Event.spares] at he
  · refine ⟨hinv, by rw [hst.unloaded]; exact h.loaded, hpend, h.kind, honly hst,
      by rw [hst.nextToast]; exact h.fresh, by rw [hst.toasts, List.length_map]; exact h.one,
      by rw [hst.notices]; exact h.calls, ?_⟩
    rw [hst.toasts, hst.notices]
    rcases h.state with ⟨x, hx, h1, h2, h3, h4⟩ | ⟨h1, h2⟩
    · left
      rw [hx]
      refine ⟨_, rfl, ?_, ?_, ?_, ?_⟩ <;> (simp only []; split <;> assumption)
    · right
      refine ⟨h1, ?_⟩
      intro y hy
      obtain ⟨z, hz, rfl⟩ := List.mem_map.1 hy
      have := h2 z hz
      split <;> exact this
  · have hik : i ≠ k := by
      rintro rfl
      rcases hcause with hc | ⟨t, a, hc, ht, hk⟩
      · subst hc
        simp [Event.spares] at he
      · subst hc
        have := h.only t ht hk
        subst this
        simp [Event.spares] at he
    refine ⟨hinv, by rw [hst.unloaded]; exact h.loaded, hpend, h.kind, honly hst,
      by rw [hst.nextToast]; exact h.fresh,
      by rw [hst.toasts]; exact le_trans (List.length_filter_le _ _) h.one,
      by rw [hst.notices]; exact h.calls, ?_⟩
    rw [hst.toasts, hst.notices]
    rcases h.state with ⟨x, hx, h1, h2, h3, h4⟩ | ⟨h1, h2⟩
    · left
      refine ⟨x, ?_, h1, h2, h3, h4⟩
      rw [hx]
      have : (x.id != i) = true := by
        rw [h1]
        simpa using fun e => hik e.symm
      simp [List.filter, this]
    · right
      exact ⟨h1, fun y hy => h2 y (List.mem_of_mem_filter hy)⟩

theorem shown_run {k : Nat} {m ty : String} {j : Nat} {r : Timer} {n : Nat} {es : List Event} :
    ∀ {s s1 : Page}, Shown k m ty j r n s → (∀ e ∈ es, e.spares k r.id = true) →
    run s es = some s1 → Shown k m ty j r n s1 := by
  induction es with
  | nil =>
    intro s s1 h _ hr
    simp only [run, Option.some.injEq] at hr
    subst hr
    exact h
  | cons e es ih =>
    intro s s1 h he hr
    simp only [run] at hr
    cases hs : step s e with
    | none => rw [hs] at hr; exact absurd hr (by simp)
    | some s2 =>
      rw [hs] at hr
      exact ih (shown_step h (he e (List.mem_cons_self _ _)) hs)
        (fun e1 h1 => he e1 (List.mem_cons_of_mem _ h1)) hr

/-- What the firing of a pending removal timer does: it can fire once it is due,
and then removes the toast it was set for, and nothing else. -/
theorem fire_removal {s : Page} (hi : Inv s) (hl : s.unloaded = false) {r : Timer}
    (hr : r ∈ s.timers) {k : Nat} (hk : r.kind = TimerKind.toastRemove k) (a : Bool) :
    step s (Event.fire r.id a) =
      if r.due ≤ s.now then
        some { s with timers := s.timers.filter (fun x => x.id != r.id),
                      toasts := s.toasts.filter (fun x => x.id != k) }
      else none := by
  have hf : s.timers.find? (fun t => t.id == r.id) = some r := by
    cases hfind : s.timers.find? (fun t => t.id == r.id) with
    | none =>
      have := List.find?_eq_none.1 hfind r hr
      simp at this
    | some t =>
      obtain ⟨htm, hid⟩ := find_timer hfind
      rw [timer_eq_of_id hi htm hr hid]
  rw [step_loaded hl]
  simp only [handle, hf, runTimer, hk]

/-- C20 as stated fails: the message is inserted into the toast as HTML.  On the
signed-in dashboard, one call of `showNotification` with a message whose
markup is an element of class `notification-toast` leaves two elements of
that class in the document. -/
theorem C20_markup_adds_toast_elements :
    Reachable authedPage ∧
    ∃ s1, step authedPage (Event.notify markupMessage "info" 3000 1) = some s1 ∧
      toastElements s1 = 2 ∧ ¬ toastElements s1 ≤ 1 :=
  ⟨⟨"/student/dashboard.html", 0, [Event.statusResult (FetchResult.json authOk)], by decide⟩,
    _, rfl, by decide, by decide⟩

/-- C20, amended.  In every state the page can reach the document holds one toast
made by `showNotification` at most, and in every state reached by events
whose messages bring no markup it holds one element of class
`notification-toast` at most.  When `showNotification (m, ty, d)` is called in a
reachable state `s` of a loaded document, with a message whose markup creates
`n` elements of that class, the only toast right after the call is the new
one, not yet slid in, and the document holds `1 + n` elements of the class; a
call that gives no duration, such as the one of the `online` handler, is a
call with 3000.  Let then any events follow that are calls of
`showNotification`, timer firings, the passing of time or other events of the
page, but not a click on the close button of the new toast, not the unloading
of the document and not the firing of the removal timer of the new toast,
which is the timer with handle `s.nextTimer + 1`.  In the state `s2` they lead
to, there is still one toast at most, and one element of the class at most if
no message brought markup; no more than `d` milliseconds have passed since the
call, and the new toast is still the only toast unless a later call of
`showNotification` has replaced it.  The removal timer can fire in `s2` exactly
when `d` milliseconds have passed since the call; it then removes the new
toast and no other one: the document has no toast afterwards if the new toast
was still there, and keeps its toast if a later call had replaced the new
one. -/
theorem C20_one_toast (s : Page) (hr : Reachable s) (hl : s.unloaded = false)
    (m ty : String) (d n : Nat) :
    s.toasts.length ≤ 1 ∧
    (∀ pathname t0 es s0, (∀ e ∈ es, e.plain = true) →
      run (pageLoad pathname t0) es = some s0 → toastElements s0 ≤ 1) ∧
    (showNotification s m ty d n).toasts
      = [{ id := s.nextToast, message := m, type := ty, shown := false, nested := n }] ∧
    toastElements (showNotification s m ty d n) = 1 + n ∧
    (s.globalListeners = true →
      step s Event.online = some (showNotification s "Connection restored" "success" 3000 0)) ∧
    ∀ es s2, (∀ e ∈ es, e.spares s.nextToast (s.nextTimer + 1) = true) →
      run (showNotification s m ty d n) es = some s2 →
      s2.toasts.length ≤ 1 ∧
      (n = 0 → (∀ e ∈ es, e.plain = true) → toastElements s2 ≤ 1) ∧
      s2.now ≤ s.now + d ∧
      ((∃ x, s2.toasts = [x] ∧ x.id = s.nextToast ∧ x.message = m ∧ x.type = ty ∧ x.nested = n) ∨
        (s.notices.length + 1 < s2.notices.length ∧ ∀ x ∈ s2.toasts, s.nextToast < x.id)) ∧
      (∀ a, (step s2 (Event.fire (s.nextTimer + 1) a)).isSome = true ↔ s2.now = s.now + d) ∧
      (∀ a s3, step s2 (Event.fire (s.nextTimer + 1) a) = some s3 →
        s3.toasts = s2.toasts.filter (fun x => x.id != s.nextToast) ∧
        ((∃ x, s2.toasts = [x] ∧ x.id = s.nextToast) → s3.toasts = []) ∧
        ((∀ x ∈ s2.toasts, s.nextToast < x.id) → s3.toasts = s2.toasts)) := by
  have hi := inv_of_reachable hr
  obtain ⟨h1, h2⟩ := toasts_of_reachable hr
  refine ⟨h1, ?_, rfl, ?_, ?_, ?_⟩
  · intro pathname t0 es s0 hes hrun
    have hlen := (toasts_of_reachable ⟨pathname, t0, es, hrun⟩).1
    refine toastElements_le hlen (plain_run hrun hes ?_)
    simp [pageLoad, domContentLoaded, checkAuthStatus, setupGlobalEventListeners,
      initializeApp, initializeSessionManagement, scriptLoaded]
  · simp [toastElements, showNotification, setTimeout]
  · intro hg
    rw [step_loaded hl]
    simp [handle, hg]
  · intro es s2 hes hrun
    have hsh := shown_run (shown_showNotification hi hl h2 m ty d n) hes hrun
    have hdue : s2.now ≤ s.now + d := hsh.inv.due_ge _ hsh.pending
    have hfire := fun a => fire_removal hsh.inv hsh.loaded hsh.pending hsh.kind a
    simp only at hfire
    refine ⟨hsh.one, ?_, hdue, hsh.state, ?_, ?_⟩
    · intro hn hplain
      subst hn
      refine toastElements_le hsh.one (plain_run hrun hplain ?_)
      simp [showNotification, setTimeout]
    · intro a
      rw [hfire a]
      constructor
      · intro h
        split at h
        · rename_i hle
          exact le_antisymm hdue hle
        · simp at h
      · intro h
        rw [if_pos (le_of_eq h.symm)]
        rfl
    · intro a s3 h3
      rw [hfire a] at h3
      split at h3
      · simp only [Option.some.injEq] at h3
        subst h3
        refine ⟨rfl, ?_, ?_⟩
        · rintro ⟨x, hx, hxid⟩
          simp [hx, hxid]
        · intro hall
          simp only
          rw [List.filter_eq_self]
          intro x hx
          simpa using Nat.ne_of_gt (hall x hx)
      · simp at h3

/-- C20, amended, on a sample: a notification of the signed-in dashboard slides in
after 100 ms; 3000 ms after the call it is still the only toast and the only
element of class `notification-toast`, its removal timer can fire, and the
firing leaves the document without toast. -/
theorem C20_one_toast_witness :
    Reachable authedPage ∧ authedPage.unloaded = false ∧
    run (showNotification authedPage "Profile updated successfully" "success" 3000 0)
      [Event.advance 100, Event.fire 2 false, Event.advance 2900] = some toastDuePage ∧
    toastDuePage.toasts.length ≤ 1 ∧ toastElements toastDuePage ≤ 1 ∧
    (∀ a, (step toastDuePage (Event.fire 3 a)).isSome = true ↔ toastDuePage.now = 3000) ∧
    (∀ a s3, step toastDuePage (Event.fire 3 a) = some s3 → s3.toasts = []) := by
  have h := (C20_one_toast authedPage authedPage_reachable rfl "Profile updated successfully"
    "success" 3000 0).2.2.2.2.2 [Event.advance 100, Event.fire 2 false, Event.advance 2900]
    toastDuePage (by decide) (by decide)
  refine ⟨authedPage_reachable, rfl, by decide, h.1, h.2.1 rfl (by decide), h.2.2.2.2.1, ?_⟩
  intro a s3 h3
  exact (h.2.2.2.2.2 a s3 h3).2.1 ⟨_, rfl, rfl⟩

/-! ## The object literal of `apiRequest` -/

theorem lookup_defineProp_self (key : String) (value : InitValue) (o : Init) :
    (defineProp key value o).lookup key = some value := by
  induction o with
  | nil => simp [defineProp, List.lookup]
  | cons p rest ih =>
    obtain ⟨k, v⟩ := p
    by_cases h : k = key
    · simp [defineProp, h, List.lookup]
    · have h1 : (key == k) = false := by simpa using fun e => h e.symm
      simp [defineProp, h, List.lookup, h1, ih]

theorem lookup_defineProp_other (key : String) (value : InitValue) (o : Init) (k1 : String)
    (hk : k1 ≠ key) : (defineProp key value o).lookup k1 = o.lookup k1 := by
  induction o with
  | nil =>
    have h1 : (k1 == key) = false := by simpa using hk
    simp [defineProp, List.lookup, h1]
  | cons p rest ih =>
    obtain ⟨k, v⟩ := p
    by_cases h : k = key
    · subst h
      have h1 : (k1 == k) = false := by simpa using hk
      simp [defineProp, List.lookup, h1]
    · by_cases h2 : k1 = k
      · subst h2
        simp [defineProp, h, List.lookup]
      · have h3 : (k1 == k) = false := by simpa using h2
        simp [defineProp, h, List.lookup, h3, ih]

theorem lookup_eq_none_of_not_mem {k : String} : ∀ {o : Dict}, k ∉ o.map Prod.fst →
    o.lookup k = none := by
  intro o
  induction o with
  | nil => intro _; rfl
  | cons p rest ih =>
    intro h
    obtain ⟨k1, v1⟩ := p
    simp only [List.map_cons, List.mem_cons, not_or] at h
    have h1 : (k == k1) = false := by simpa using h.1
    simp only [List.lookup, h1]
    exact ih h.2

/-- What a property read finds after the spread of an object: the value the
object has for the property, else what was there before. -/
theorem lookup_spreadOptions (k : String) : ∀ (options : Dict) (target : Init),
    (options.map Prod.fst).Nodup →
    (spreadOptions options target).lookup k =
      match options.lookup k with
      | some v => some (InitValue.given v)
      | none => target.lookup k := by
  intro options
  induction options with
  | nil => intro target _; rfl
  | cons p rest ih =>
    intro target hn
    obtain ⟨k1, v1⟩ := p
    simp only [List.map_cons, List.nodup_cons] at hn
    have hs : spreadOptions ((k1, v1) :: rest) target
        = spreadOptions rest (defineProp k1 (InitValue.given v1) target) := rfl
    rw [hs, ih _ hn.2]
    by_cases h : k = k1
    · subst h
      rw [lookup_eq_none_of_not_mem hn.1]
      simp [List.lookup, lookup_defineProp_self]
    · have h1 : (k == k1) = false := by simpa using h
      simp only [List.lookup, h1]
      cases rest.lookup k with
      | some v => rfl
      | none => exact lookup_defineProp_other _ _ _ _ h

/-- Claim C21: let `options` be the own properties of the object passed to
`apiRequest`, their names distinct.  In the object handed to `fetch`, every
property of `options` has the value `options` gives it; so if `options` has a
`headers` property, the headers handed over are that very value, whatever the
inner literal had merged, and if `options` has a `credentials` property, the
credentials are that value.  If `options` has no `headers` property, the
headers are the object of the inner literal, which is exactly
`Content-Type: application/json`; if it has no `credentials` property, the
credentials are 'include'.  The object has no other property. -/
theorem C21_apiRequest_headers (heap : JsValue → Dict) (options : Dict)
    (hn : (options.map Prod.fst).Nodup) :
    (∀ k v, options.lookup k = some v →
      (apiRequestInit heap options).lookup k = some (InitValue.given v)) ∧
    (∀ h, options.lookup "headers" = some h →
      (apiRequestInit heap options).lookup "headers" = some (InitValue.given h)) ∧
    (options.lookup "headers" = none →
      (apiRequestInit heap options).lookup "headers"
        = some (InitValue.literal [("Content-Type", JsValue.string "application/json")])) ∧
    (∀ c, options.lookup "credentials" = some c →
      (apiRequestInit heap options).lookup "credentials" = some (InitValue.given c)) ∧
    (options.lookup "credentials" = none →
      (apiRequestInit heap options).lookup "credentials"
        = some (InitValue.given (JsValue.string "include"))) ∧
    (∀ k, options.lookup k = none → k ≠ "headers" → k ≠ "credentials" →
      (apiRequestInit heap options).lookup k = none) := by
  have key := fun k => lookup_spreadOptions k options
    (defineProp "headers" (InitValue.literal (mergedHeaders heap options))
      (defineProp "credentials" (InitValue.given (JsValue.string "include")) [])) hn
  have hgiven : ∀ k v, options.lookup k = some v →
      (apiRequestInit heap options).lookup k = some (InitValue.given v) := by
    intro k v hk
    unfold apiRequestInit
    rw [key k, hk]
  refine ⟨hgiven, hgiven "headers", ?_, hgiven "credentials", ?_, ?_⟩
  · intro h
    unfold apiRequestInit
    rw [key "headers", h]
    simp only
    rw [lookup_defineProp_self]
    simp [mergedHeaders, readProp, h, ownProps, spread]
  · intro h
    unfold apiRequestInit
    rw [key "credentials", h]
    simp only
    rw [lookup_defineProp_other _ _ _ _ (by decide), lookup_defineProp_self]
  · intro k hk h1 h2
    unfold apiRequestInit
    rw [key k, hk]
    simp only
    rw [lookup_defineProp_other _ _ _ _ h1, lookup_defineProp_other _ _ _ _ h2]
    rfl

/-- Claim C21 on a sample: a POST request with its own headers object, which has
an Accept header only, is handed to `fetch` with that object as headers, not
with the merged object that has Content-Type too, and with credentials
'include'. -/
theorem C21_apiRequest_headers_witness :
    ([("method", JsValue.string "POST"), ("headers", JsValue.object 5)].map Prod.fst).Nodup ∧
    mergedHeaders sampleHeap [("method", JsValue.string "POST"), ("headers", JsValue.object 5)]
      = [("Content-Type", JsValue.string "application/json"),
         ("Accept", JsValue.string "text/plain")] ∧
    ownProps sampleHeap (JsValue.object 5) = [("Accept", JsValue.string "text/plain")] ∧
    (apiRequestInit sampleHeap
      [("method", JsValue.string "POST"), ("headers", JsValue.object 5)]).lookup "headers"
      = some (InitValue.given (JsValue.object 5)) ∧
    (apiRequestInit sampleHeap
      [("method", JsValue.string "POST"), ("headers", JsValue.object 5)]).lookup "credentials"
      = some (InitValue.given (JsValue.string "include")) :=
  ⟨by decide, by decide, by decide,
    (C21_apiRequest_headers sampleHeap
      [("method", JsValue.string "POST"), ("headers", JsValue.object 5)] (by decide)).2.1
      (JsValue.object 5) (by decide),
    (C21_apiRequest_headers sampleHeap
      [("method", JsValue.string "POST"), ("headers", JsValue.object 5)] (by decide)).2.2.2.2.1
      (by decide)⟩

/-- The options record `apiRequestOptions` computes is the object literal of
`apiRequest`, evaluated on the record as an object and read back. -/
theorem apiRequestOptions_agrees (o : FetchOptions) :
    readInit o.heap (apiRequestInit o.heap o.toObject) = apiRequestOptions o := by
  obtain ⟨method, headers, credentials, body⟩ := o
  cases method <;> cases headers <;> cases credentials <;> cases body <;> rfl

end ExamSeating
